import Mathlib

/-!
Verification development for the torscanner path-construction library
(`PathSupport.py`, `TorCtl.py`).

Modelling conventions, used throughout:
* IPv4 addresses are the 32-bit big-endian integers the source obtains from
  `struct.unpack(">I", socket.inet_aton(ip))[0]`, represented as `Nat`.
* Python floats are modelled as exact rationals (`ℚ`); every concrete value
  appearing in the theorems below is exactly representable in binary floating
  point, so no rounding discrepancy arises on those inputs.
* `random.choice` / `random.randint` draws are supplied by an explicit tape
  of naturals; Python generators become explicit state machines, with
  `StopIteration` as an explicit outcome.
* `re.search` is abstracted as a parameter `search : String → String → Bool`
  (pattern, subject).
* Python truthiness is made explicit where a method can return `None`
  (`OSRestriction.r_is_ok`), via `Option Bool` and `truthy`.
-/

/-- One line of a router's exit policy (`TorCtl.ExitPolicyLine`).  `isAccept`
is the source's `match` field: `True` for an accept line, `False` for a
reject line.  The constructor stores `ip` already masked (`self.ip &=
self.netmask`); `netmask` is kept as the 32-bit value of the Python integer
(for a `/k` pattern, `~(2**(32-k)-1)` behaves on 32-bit addresses exactly
like `2^32 - 2^(32-k)`). -/
structure ExitPolicyLine where
  isAccept : Bool
  ip : Nat
  netmask : Nat
  port_low : Nat
  port_high : Nat
deriving DecidableEq, Repr

/-- The 32-bit big-endian integer of a dotted quad, as produced by
`struct.unpack(">I", socket.inet_aton(...))[0]`. -/
def ipv4 (a b c d : Nat) : Nat := ((a * 256 + b) * 256 + c) * 256 + d

/-- `ExitPolicyLine.__init__` for a `ip/bits` CIDR pattern with an explicit
port range: `netmask = ~(2**(32-bits)-1)` (which equals `2^32 - 2^(32-bits)`
on 32-bit addresses) and `ip &= netmask`. -/
def ExitPolicyLine.ofCIDR (acc : Bool) (ip bits plo phi : Nat) : ExitPolicyLine :=
  let mask := 2 ^ 32 - 2 ^ (32 - bits)
  ⟨acc, ip &&& mask, mask, plo, phi⟩

/-- `ExitPolicyLine.__init__` for the pattern `*:*`: `ip = 0`, `netmask = 0`,
ports `(0, 65535)`. -/
def ExitPolicyLine.wildcard (acc : Bool) : ExitPolicyLine := ⟨acc, 0, 0, 0, 65535⟩

/-- `ExitPolicyLine.__init__` for the pattern `*:p` (wildcard address, one
port): `ip = 0`, `netmask = 0`, `port_low = port_high = p`. -/
def ExitPolicyLine.wildIp (acc : Bool) (p : Nat) : ExitPolicyLine := ⟨acc, 0, 0, p, p⟩

/-- `ExitPolicyLine.check`: returns the line's accept/reject value when the
masked address matches and the port is inside the range, and the source's
`-1` sentinel — modelled as `none` — otherwise. -/
def ExitPolicyLine.check (l : ExitPolicyLine) (ip port : Nat) : Option Bool :=
  if ip &&& l.netmask == l.ip then
    if l.port_low ≤ port ∧ port ≤ l.port_high then some l.isAccept else none
  else none

/-- `TorCtl.Router`, restricted to the fields the claims touch.  `version`
is the integer `a·2²⁴ + b·2¹⁶ + c·2⁸ + d` computed by `RouterVersion`
(`none` for an unknown version).  `country_code`, `continent` and
`cont_group` are the optional GeoIP annotations. -/
structure Router where
  idhex : String
  nickname : String
  bw : Nat
  flags : List String
  ip : Nat
  version : Option Nat
  os : String
  list_rank : Nat
  uptime : Nat
  exitpolicy : List ExitPolicyLine
  country_code : Option String
  continent : Option String
  cont_group : Option String
deriving DecidableEq, Inhabited, Repr

/-- The loop of `Router.will_exit_to`: scan the policy lines in order and
return the first non-`-1` answer. -/
def willExitLoop (ip port : Nat) : List ExitPolicyLine → Bool
  | [] => false
  | l :: ls =>
    match l.check ip port with
    | some b => b
    | none => willExitLoop ip port ls

/-- `Router.will_exit_to`: evaluate the whole exit policy; a query with no
matching line is logged and treated as deny (`False`). -/
def Router.will_exit_to (r : Router) (ip port : Nat) : Bool :=
  willExitLoop ip port r.exitpolicy

/-- Modelled from the spec: "first matching line wins; a non-matching query
returns deny only after the full list is exhausted".  This is the
specification-side description of exit-policy evaluation, to be compared
with the source-side `willExitLoop`. -/
def specExitPolicyEval (ip port : Nat) (pol : List ExitPolicyLine) : Bool :=
  (pol.findSome? (fun l => l.check ip port)).getD false

/-- A convenience builder for concrete routers in the theorems below. -/
def mkRouter (nick : String) (ip bw : Nat) (flags : List String) : Router :=
  ⟨nick, nick, bw, flags, ip, none, "", 0, 0, [], none, none, none⟩

theorem willExitLoop_eq_false_of_all_none (ip port : Nat) (pol : List ExitPolicyLine)
    (hall : ∀ l ∈ pol, l.check ip port = none) : willExitLoop ip port pol = false := by
  induction pol with
  | nil => rfl
  | cons l ls ih =>
    have h1 := hall l (by simp)
    simp only [willExitLoop, h1]
    exact ih (fun x hx => hall x (by simp [hx]))

theorem willExitLoop_eq_spec (ip port : Nat) (pol : List ExitPolicyLine) :
    willExitLoop ip port pol = specExitPolicyEval ip port pol := by
  induction pol with
  | nil => rfl
  | cons l ls ih =>
    simp only [willExitLoop, specExitPolicyEval, List.findSome?]
    cases h : l.check ip port with
    | none => simpa [specExitPolicyEval] using ih
    | some b => rfl

/-- The concrete policy of spec scenario 5:
`[reject 1.2.3.0/24:*, accept *:80, reject *:*]`. -/
def scenarioPolicy : List ExitPolicyLine :=
  [ExitPolicyLine.ofCIDR false (ipv4 1 2 3 0) 24 0 65535,
   ExitPolicyLine.wildIp true 80,
   ExitPolicyLine.wildcard false]

/-- A router carrying `scenarioPolicy`. -/
def scenarioRouter : Router :=
  { mkRouter "ex" (ipv4 10 0 0 1) 100 ["Exit"] with exitpolicy := scenarioPolicy }

/-- C3: `Router.will_exit_to` evaluates the exit policy first-match-wins: it
equals the specification-side `specExitPolicyEval` (the accept/reject value
of the earliest matching line); a line with `ip = 0` and `netmask = 0`
matches every address (answering by its port range alone); deny is returned
only after the whole list is scanned without a match; and on the policy
`[reject 1.2.3.0/24:*, accept *:80, reject *:*]` the query `(1.2.3.4, 80)`
is denied, `(9.9.9.9, 80)` is allowed and `(9.9.9.9, 443)` is denied. -/
theorem claim_C3_exit_policy_first_match :
    (∀ (r : Router) (ip port : Nat),
      r.will_exit_to ip port = specExitPolicyEval ip port r.exitpolicy)
    ∧ (∀ (l : ExitPolicyLine) (ip port : Nat), l.ip = 0 → l.netmask = 0 →
      l.check ip port =
        (if l.port_low ≤ port ∧ port ≤ l.port_high then some l.isAccept else none))
    ∧ (∀ (r : Router) (ip port : Nat),
      (∀ l ∈ r.exitpolicy, l.check ip port = none) → r.will_exit_to ip port = false)
    ∧ scenarioRouter.will_exit_to (ipv4 1 2 3 4) 80 = false
    ∧ scenarioRouter.will_exit_to (ipv4 9 9 9 9) 80 = true
    ∧ scenarioRouter.will_exit_to (ipv4 9 9 9 9) 443 = false := by
  refine ⟨fun r ip port => willExitLoop_eq_spec ip port r.exitpolicy,
    fun l ip port h0 hm => ?_,
    fun r ip port hall => willExitLoop_eq_false_of_all_none ip port r.exitpolicy hall,
    by decide, by decide, by decide⟩
  unfold ExitPolicyLine.check
  rw [hm, h0]
  simp

/-- C3 witness: the wildcard clause and the exhaustion clause instantiated on
concrete data. -/
theorem claim_C3_witness :
    (ExitPolicyLine.wildcard true).check (ipv4 77 1 2 3) 443 = some true
    ∧ (mkRouter "none" 0 1 []).will_exit_to (ipv4 1 1 1 1) 80 = false := by
  constructor
  · have h := (claim_C3_exit_policy_first_match.2.1) (ExitPolicyLine.wildcard true)
      (ipv4 77 1 2 3) 443 rfl rfl
    simpa using h
  · exact (claim_C3_exit_policy_first_match.2.2.1) (mkRouter "none" 0 1 [])
      (ipv4 1 1 1 1) 80 (by intro l hl; simp [mkRouter] at hl)

/-! ## Subnet16 path restriction (claim C4) -/

/-- The `/16` mask `255.255.0.0` unpacked to an integer, as in
`Subnet16Restriction.path_is_ok`. -/
def mask16 : Nat := ipv4 255 255 0 0

/-- `Subnet16Restriction.path_is_ok`: compares the `/16` prefix of `path[0]`
against every **later** hop only (`all(ip16 != r.ip & mask16 for r in
path[1:])`).  On an empty path the source raises `IndexError`; the claims
only concern paths of length ≥ 2, and we return `true` on `[]`. -/
def Subnet16Restriction.path_is_ok (path : List Router) : Bool :=
  match path with
  | [] => true
  | p0 :: rest => rest.all (fun r => (p0.ip &&& mask16) != (r.ip &&& mask16))

/-- Modelled from the spec: "no two hops share the upper 16 bits of IPv4" —
the pairwise property over **all** pairs of hops, to be compared with the
source-side `Subnet16Restriction.path_is_ok`. -/
def specNoSharedSlash16 (path : List Router) : Prop :=
  path.Pairwise (fun a b => a.ip &&& mask16 ≠ b.ip &&& mask16)

instance (path : List Router) : Decidable (specNoSharedSlash16 path) := by
  unfold specNoSharedSlash16
  infer_instance

/-- The three routers of the C4 failing input. -/
def c4r1 : Router := mkRouter "r1" (ipv4 1 2 3 4) 300 []
/-- Second router of the C4 failing input. -/
def c4r2 : Router := mkRouter "r2" (ipv4 5 6 7 8) 200 []
/-- Third router of the C4 failing input; shares a `/16` with `c4r2`. -/
def c4r3 : Router := mkRouter "r3" (ipv4 5 6 9 9) 100 []

/-- C4: the code contradicts the claim (and its own docstring, "no two nodes
from the same /16 subnet"): on the path `[1.2.3.4, 5.6.7.8, 5.6.9.9]` the
second and third hops share the upper 16 bits, yet
`Subnet16Restriction.path_is_ok` returns `true`, because it only ever
compares the first hop's `/16` against the rest. -/
theorem claim_C4_subnet16_code_bug :
    Subnet16Restriction.path_is_ok [c4r1, c4r2, c4r3] = true
    ∧ (c4r2.ip &&& mask16) = (c4r3.ip &&& mask16)
    ∧ ¬ specNoSharedSlash16 [c4r1, c4r2, c4r3]
    ∧ Subnet16Restriction.path_is_ok [c4r1, c4r2] = decide (specNoSharedSlash16 [c4r1, c4r2]) := by
  refine ⟨by decide, by decide, by decide, by decide⟩

/-! ## Node and path restrictions (claims C9, C10) -/

/-- Python truthiness of an `r_is_ok` result: `None` is falsy. -/
def truthy : Option Bool → Bool
  | none => false
  | some b => b

/-- Py2 comparison `a < b` on `RouterVersion.version` values, where an
unknown version is `None` and py2 orders `None` below every integer. -/
def verLtv : Option Nat → Option Nat → Bool
  | none, none => false
  | none, some _ => true
  | some _, none => false
  | some a, some b => decide (a < b)

/-- Py2 `a >= b` on version values (`¬(a < b)` in the py2 total order). -/
def verGev (a b : Option Nat) : Bool := !(verLtv a b)

/-- Py2 `a <= b` on version values. -/
def verLev (a b : Option Nat) : Bool := !(verLtv b a)

/-- The closed family of `NodeRestriction` subclasses of `PathSupport.py`.
Constructor fields mirror the attributes each `__init__` stores; the
versions inside `VersionInclude/Exclude/Range` are the already-parsed
`RouterVersion.version` integers. -/
inductive NodeRestriction where
  | percentile (pct_skip pct_fast : Nat) (sorted_r : List Router)
  | osR (ok bad : List String)
  | conserveExits
  | flagsR (mandatory forbidden : List String)
  | nickR (nickname : String)
  | idhexR (idhex : String)
  | minBW (min_bw : Nat)
  | versionInclude (eq : List (Option Nat))
  | versionExclude (exclude : List (Option Nat))
  | versionRange (gr_eq : Option Nat) (less_eq : Option (Option Nat))
  | exitPolicyR (to_ip to_port : Nat)
  | countryCodeR
  | countryR (cc : String)
  | excludeCountries (countries : List String)
  | orR (rstrs : List NodeRestriction)
  | notR (a : NodeRestriction)
  | atLeastN (rstrs : List NodeRestriction) (n : Nat)

/-- The Python classes a `NodeRestriction` value can be an instance of
(arguments to `del_restriction`).  Includes the two non-leaf classes
`NodeRestriction` and `MetaNodeRestriction`. -/
inductive NodeRestrictionClass where
  | nodeRestriction
  | metaNodeRestriction
  | percentileRestriction
  | osRestriction
  | conserveExitsRestriction
  | flagsRestriction
  | nickRestriction
  | idHexRestriction
  | minBWRestriction
  | versionIncludeRestriction
  | versionExcludeRestriction
  | versionRangeRestriction
  | exitPolicyRestriction
  | countryCodeRestriction
  | countryRestriction
  | excludeCountriesRestriction
  | orNodeRestriction
  | notNodeRestriction
  | atLeastNNodeRestriction
deriving DecidableEq

/-- The concrete (leaf) class of a restriction value. -/
def NodeRestriction.leafClass : NodeRestriction → NodeRestrictionClass
  | .percentile _ _ _ => .percentileRestriction
  | .osR _ _ => .osRestriction
  | .conserveExits => .conserveExitsRestriction
  | .flagsR _ _ => .flagsRestriction
  | .nickR _ => .nickRestriction
  | .idhexR _ => .idHexRestriction
  | .minBW _ => .minBWRestriction
  | .versionInclude _ => .versionIncludeRestriction
  | .versionExclude _ => .versionExcludeRestriction
  | .versionRange _ _ => .versionRangeRestriction
  | .exitPolicyR _ _ => .exitPolicyRestriction
  | .countryCodeR => .countryCodeRestriction
  | .countryR _ => .countryRestriction
  | .excludeCountries _ => .excludeCountriesRestriction
  | .orR _ => .orNodeRestriction
  | .notR _ => .notNodeRestriction
  | .atLeastN _ _ => .atLeastNNodeRestriction

/-- Whether the value belongs to the `MetaNodeRestriction` subtree of the
class hierarchy (`OrNodeRestriction`, `NotNodeRestriction`,
`AtLeastNNodeRestriction`). -/
def NodeRestriction.isMeta : NodeRestriction → Bool
  | .orR _ => true
  | .notR _ => true
  | .atLeastN _ _ => true
  | _ => false

/-- Python `isinstance(r, K)` over the `PathSupport` class hierarchy: every
restriction is a `NodeRestriction`; the three combinators are also
`MetaNodeRestriction`s; otherwise the leaf class must match. -/
def NodeRestriction.isInstance (r : NodeRestriction) (K : NodeRestrictionClass) : Bool :=
  K == .nodeRestriction || K == r.leafClass || (K == .metaNodeRestriction && r.isMeta)

/-- `OSRestriction.r_is_ok` on a router whose OS string is `os`: first `ok`
regex that matches wins (`True`), then first `bad` regex (`False`); if
neither list matched, a non-empty `ok` means `False`, else a non-empty
`bad` means `True`, else the function falls off the end and returns
`None`. -/
def osCheck (search : String → String → Bool) (ok bad : List String) (os : String) :
    Option Bool :=
  match ok.find? (fun y => search y os) with
  | some _ => some true
  | none =>
    match bad.find? (fun b => search b os) with
    | some _ => some false
    | none =>
      if ok ≠ [] then some false
      else if bad ≠ [] then some true
      else none

mutual

/-- `r_is_ok` of each `NodeRestriction` subclass, as an `Option Bool`
(only `OSRestriction` can produce `None`; every other class returns a
genuine boolean). -/
def nrIsOk (search : String → String → Bool) (r : NodeRestriction) (rt : Router) :
    Option Bool :=
  match r with
  | .percentile ps pf sr =>
    some (decide (sr.length * ps / 100 ≤ rt.list_rank ∧
                  rt.list_rank ≤ sr.length * pf / 100))
  | .osR ok bad => osCheck search ok bad rt.os
  | .conserveExits => some (!rt.flags.contains "Exit")
  | .flagsR m f =>
    some (m.all (fun x => rt.flags.contains x) && f.all (fun x => !rt.flags.contains x))
  | .nickR n => some (rt.nickname == n)
  | .idhexR h => some (rt.idhex == h)
  | .minBW m => some (decide (m ≤ rt.bw))
  | .versionInclude eqs => some (eqs.any (fun e => e == rt.version))
  | .versionExclude ex => some (ex.all (fun e => e != rt.version))
  | .versionRange ge le =>
    some (verGev rt.version ge &&
      (match le with
       | none => true
       | some l => verLev rt.version l))
  | .exitPolicyR ip port => some (rt.will_exit_to ip port)
  | .countryCodeR => some (rt.country_code != none)
  | .countryR c => some (rt.country_code == some c)
  | .excludeCountries cs =>
    some (match rt.country_code with
          | none => true
          | some c => !cs.contains c)
  | .orR rs => some (nrAnyOk search rs rt)
  | .notR a => some (!truthy (nrIsOk search a rt))
  | .atLeastN rs n => some (decide (n ≤ nrCountOk search rs rt))

/-- `any(rs.r_is_ok(r) ...)` over a combinator's member list (truthiness of
each member's answer). -/
def nrAnyOk (search : String → String → Bool) (rs : List NodeRestriction) (rt : Router) :
    Bool :=
  match rs with
  | [] => false
  | r :: rest => truthy (nrIsOk search r rt) || nrAnyOk search rest rt

/-- `sum(1 for rs in self.rstrs if rs.r_is_ok(r))` of `AtLeastN`. -/
def nrCountOk (search : String → String → Bool) (rs : List NodeRestriction) (rt : Router) :
    Nat :=
  match rs with
  | [] => 0
  | r :: rest => (if truthy (nrIsOk search r rt) then 1 else 0) + nrCountOk search rest rt

end

/-- `NodeRestrictionList.r_is_ok`: `all(...)` of the members' answers under
Python truthiness. -/
def NodeRestrictionList.r_is_ok (search : String → String → Bool)
    (L : List NodeRestriction) (rt : Router) : Bool :=
  L.all (fun rs => truthy (nrIsOk search rs rt))

/-- `NodeRestrictionList.del_restriction`: keep exactly the members that are
not instances of the given class (top-level filter; members survive
verbatim, so nothing nested inside a surviving combinator is touched). -/
def NodeRestrictionList.del_restriction (L : List NodeRestriction)
    (K : NodeRestrictionClass) : List NodeRestriction :=
  L.filter (fun r => !r.isInstance K)

/-- The closed family of `PathRestriction` subclasses. -/
inductive PathRestriction where
  | subnet16
  | uniqueR
  | uniqueCountry
  | singleCountry
  | continentR (n : Nat)
  | continentJumper
  | uniqueContinent
  | oceanPhobic (n : Nat)
deriving DecidableEq

/-- The Python classes a `PathRestriction` value can be an instance of. -/
inductive PathRestrictionClass where
  | pathRestriction
  | subnet16Restriction
  | uniqueRestriction
  | uniqueCountryRestriction
  | singleCountryRestriction
  | continentRestriction
  | continentJumperRestriction
  | uniqueContinentRestriction
  | oceanPhobicRestriction
deriving DecidableEq

/-- The concrete class of a path-restriction value. -/
def PathRestriction.leafClass : PathRestriction → PathRestrictionClass
  | .subnet16 => .subnet16Restriction
  | .uniqueR => .uniqueRestriction
  | .uniqueCountry => .uniqueCountryRestriction
  | .singleCountry => .singleCountryRestriction
  | .continentR _ => .continentRestriction
  | .continentJumper => .continentJumperRestriction
  | .uniqueContinent => .uniqueContinentRestriction
  | .oceanPhobic _ => .oceanPhobicRestriction

/-- `isinstance` over the path-restriction hierarchy (every subclass derives
directly from `PathRestriction`; there are no combinators). -/
def PathRestriction.isInstance (r : PathRestriction) (K : PathRestrictionClass) : Bool :=
  K == .pathRestriction || K == r.leafClass

/-- `UniqueRestriction.path_is_ok`:
`all(path[i] not in path[:i] for i in xrange(0, len(path)))`. -/
def UniqueRestriction.path_is_ok (path : List Router) : Bool :=
  (List.range path.length).all
    (fun i => !((path.take i).contains (path.getD i default)))

/-- The double loop of `UniqueCountryRestriction` / `UniqueContinentRestriction`:
`False` as soon as two positions `i < j` agree under `f`. -/
def allPairsDistinctBy (f : Router → Option String) (path : List Router) : Bool :=
  (List.range path.length).all fun i =>
    (List.range path.length).all fun j =>
      !(decide (i < j)) || (f (path.getD i default) != f (path.getD j default))

/-- The crossing counter shared by `ContinentRestriction` and
`OceanPhobicRestriction`: number of adjacent pairs whose `f`-value differs
(the source's `prev` loop, which skips the first router). -/
def crossingsBy (f : Router → Option String) : List Router → Nat
  | [] => 0
  | [_] => 0
  | a :: b :: rest =>
    (if f a ≠ f b then 1 else 0) + crossingsBy f (b :: rest)

/-- Adjacent-pair check of `ContinentJumperRestriction`: every consecutive
pair must differ in continent. -/
def adjacentAllDifferBy (f : Router → Option String) : List Router → Bool
  | [] => true
  | [_] => true
  | a :: b :: rest => (f a != f b) && adjacentAllDifferBy f (b :: rest)

/-- `path_is_ok` of each `PathRestriction` subclass.  `SingleCountry` on an
empty path would raise `IndexError` in the source (`path[0]`); the claims
never evaluate it there. -/
def prIsOk : PathRestriction → List Router → Bool
  | .subnet16, path => Subnet16Restriction.path_is_ok path
  | .uniqueR, path => UniqueRestriction.path_is_ok path
  | .uniqueCountry, path => allPairsDistinctBy (fun r => r.country_code) path
  | .singleCountry, path =>
    match path with
    | [] => true
    | p0 :: _ => path.all (fun r => p0.country_code == r.country_code)
  | .continentR n, path => decide (crossingsBy (fun r => r.continent) path ≤ n)
  | .continentJumper, path => adjacentAllDifferBy (fun r => r.continent) path
  | .uniqueContinent, path => allPairsDistinctBy (fun r => r.continent) path
  | .oceanPhobic n, path => decide (crossingsBy (fun r => r.cont_group) path ≤ n)

/-- `PathRestrictionList.path_is_ok`: conjunction over the members. -/
def PathRestrictionList.path_is_ok (L : List PathRestriction) (path : List Router) : Bool :=
  L.all (fun rs => prIsOk rs path)

/-- `PathRestrictionList.del_restriction`: top-level filter by class. -/
def PathRestrictionList.del_restriction (L : List PathRestriction)
    (K : PathRestrictionClass) : List PathRestriction :=
  L.filter (fun r => !r.isInstance K)

/-- C9: for both restriction-list flavours, `del_restriction K` removes
exactly the top-level members that are instances of `K`: no member of the
result is an instance of `K`; every non-`K` member survives; the result is
a sublist of the original (same order, members syntactically unchanged —
in particular, everything nested inside a surviving meta restriction is
untouched). -/
theorem claim_C9_del_restriction :
    (∀ (L : List NodeRestriction) (K : NodeRestrictionClass),
      (∀ r ∈ NodeRestrictionList.del_restriction L K, r.isInstance K = false)
      ∧ (∀ r ∈ L, r.isInstance K = false → r ∈ NodeRestrictionList.del_restriction L K)
      ∧ (NodeRestrictionList.del_restriction L K).Sublist L)
    ∧ (∀ (L : List PathRestriction) (K : PathRestrictionClass),
      (∀ r ∈ PathRestrictionList.del_restriction L K, r.isInstance K = false)
      ∧ (∀ r ∈ L, r.isInstance K = false → r ∈ PathRestrictionList.del_restriction L K)
      ∧ (PathRestrictionList.del_restriction L K).Sublist L) := by
  constructor
  · intro L K
    refine ⟨fun r hr => ?_, fun r hr hko => ?_, List.filter_sublist L⟩
    · have := List.of_mem_filter hr
      simpa using this
    · exact List.mem_filter_of_mem hr (by simp [hko])
  · intro L K
    refine ⟨fun r hr => ?_, fun r hr hko => ?_, List.filter_sublist L⟩
    · have := List.of_mem_filter hr
      simpa using this
    · exact List.mem_filter_of_mem hr (by simp [hko])

/-- A concrete list used to witness C9: a flags restriction, a combinator
with a flags restriction nested inside, and a conserve-exits restriction. -/
def c9List : List NodeRestriction :=
  [.flagsR ["Valid"] [], .orR [.flagsR ["Exit"] []], .conserveExits]

/-- C9 witness: deleting `FlagsRestriction` from `c9List` keeps the `Or`
combinator (with its nested flags restriction intact) and the
conserve-exits restriction. -/
theorem claim_C9_witness :
    NodeRestriction.orR [.flagsR ["Exit"] []] ∈
      NodeRestrictionList.del_restriction c9List .flagsRestriction
    ∧ NodeRestriction.conserveExits ∈
      NodeRestrictionList.del_restriction c9List .flagsRestriction
    ∧ ((NodeRestrictionList.del_restriction c9List .flagsRestriction).Sublist c9List) := by
  refine ⟨?_, ?_, (claim_C9_del_restriction.1 c9List .flagsRestriction).2.2⟩
  · exact (claim_C9_del_restriction.1 c9List .flagsRestriction).2.1
      (NodeRestriction.orR [.flagsR ["Exit"] []]) (by simp [c9List]) (by rfl)
  · exact (claim_C9_del_restriction.1 c9List .flagsRestriction).2.1
      NodeRestriction.conserveExits (by simp [c9List]) (by rfl)

/-- C10: for a router whose OS string matches no `ok` regex and no `bad`
regex, `OSRestriction.r_is_ok` returns `False` when `ok` is non-empty,
`True` when `ok` is empty and `bad` is non-empty, and `None` when both are
empty; and therefore `OSRestriction([], [])` makes any restriction list
containing it reject every router (`None` is falsy in the `all(...)`
conjunction). -/
theorem claim_C10_os_restriction (search : String → String → Bool)
    (ok bad : List String) (rt : Router)
    (hok : ∀ y ∈ ok, search y rt.os = false)
    (hbad : ∀ b ∈ bad, search b rt.os = false) :
    (ok ≠ [] → nrIsOk search (.osR ok bad) rt = some false)
    ∧ (ok = [] → bad ≠ [] → nrIsOk search (.osR ok bad) rt = some true)
    ∧ (ok = [] → bad = [] → nrIsOk search (.osR ok bad) rt = none)
    ∧ (∀ L : List NodeRestriction, NodeRestriction.osR [] [] ∈ L →
        NodeRestrictionList.r_is_ok search L rt = false) := by
  have hfok : ok.find? (fun y => search y rt.os) = none := by
    apply List.find?_eq_none.2
    intro y hy
    simp [hok y hy]
  have hfbad : bad.find? (fun b => search b rt.os) = none := by
    apply List.find?_eq_none.2
    intro b hb
    simp [hbad b hb]
  refine ⟨fun hne => ?_, fun he hbne => ?_, fun he hbe => ?_, fun L hL => ?_⟩
  · simp [nrIsOk, osCheck, hfok, hfbad, hne]
  · simp [nrIsOk, osCheck, hfok, hfbad, he, hbne]
  · simp [nrIsOk, osCheck, he, hbe]
  · unfold NodeRestrictionList.r_is_ok
    rw [List.all_eq_false]
    exact ⟨.osR [] [], hL, by simp [nrIsOk, osCheck, truthy]⟩

/-- C10 witness: the three branches and the conjunction effect, at concrete
inputs (a `search` that never matches, so the hypotheses hold for any
lists). -/
theorem claim_C10_witness :
    nrIsOk (fun _ _ => false) (.osR ["[lL]inux"] []) (mkRouter "w" 1 1 []) = some false
    ∧ nrIsOk (fun _ _ => false) (.osR [] ["Windows"]) (mkRouter "w" 1 1 []) = some true
    ∧ nrIsOk (fun _ _ => false) (.osR [] []) (mkRouter "w" 1 1 []) = none
    ∧ NodeRestrictionList.r_is_ok (fun _ _ => false)
        [.osR [] []] (mkRouter "w" 1 1 []) = false := by
  have h1 := claim_C10_os_restriction (fun _ _ => false) ["[lL]inux"] []
    (mkRouter "w" 1 1 []) (by intro y _; rfl) (by intro b hb; cases hb)
  have h2 := claim_C10_os_restriction (fun _ _ => false) [] ["Windows"]
    (mkRouter "w" 1 1 []) (by intro y hy; cases hy) (by intro b _; rfl)
  have h3 := claim_C10_os_restriction (fun _ _ => false) [] []
    (mkRouter "w" 1 1 []) (by intro y hy; cases hy) (by intro b hb; cases hb)
  exact ⟨h1.1 (by simp), h2.2.1 rfl (by simp), h3.2.2.1 rfl rfl,
    h3.2.2.2 [.osR [] []] (by simp)⟩

/-! ## Circuit extend-time accounting (claim C7) -/

/-- The fields of `PathSupport.Circuit` that the `CIRC` event handlers
touch for extend-time accounting.  Event timestamps and durations are
rationals (exact model of the Python floats). -/
structure CircTimes where
  last_extended_at : ℚ
  extend_times : List ℚ
  built : Bool
  setup_duration : Option ℚ
deriving DecidableEq

/-- A fresh `Circuit()`: `extend_times = []`, `setup_duration = None`,
`built = False`; `last_extended_at` is the creation time. -/
def CircTimes.fresh (t : ℚ) : CircTimes := ⟨t, [], false, none⟩

/-- `reduce(lambda x, y: x+y, extend_times, 0.0)` of the BUILT branch. -/
def sumExtendTimes (ts : List ℚ) : ℚ := ts.foldl (fun x y => x + y) 0

/-- The `EXTENDED` and `BUILT` branches of `PathBuilder.circ_status_event`
for a tracked circuit: `EXTENDED` only refreshes `last_extended_at`;
`BUILT` only sets `built` (no extend-time append, no `setup_duration`). -/
def pbCircEvent (c : CircTimes) (status : String) (arrived_at : ℚ) : CircTimes :=
  if status == "EXTENDED" then { c with last_extended_at := arrived_at }
  else if status == "BUILT" then { c with built := true }
  else c

/-- The `EXTENDED` and `BUILT` branches of `CircuitHandler.circ_status_event`
for a tracked circuit: `EXTENDED` appends `arrived_at - last_extended_at`
to `extend_times` and refreshes `last_extended_at`; `BUILT` sets `built`
and stores the sum of `extend_times` into `setup_duration`. -/
def chCircEvent (c : CircTimes) (status : String) (arrived_at : ℚ) : CircTimes :=
  if status == "EXTENDED" then
    { c with extend_times := c.extend_times ++ [arrived_at - c.last_extended_at],
             last_extended_at := arrived_at }
  else if status == "BUILT" then
    { c with built := true, setup_duration := some (sumExtendTimes c.extend_times) }
  else c

/-- C7 counterexample: the claim fails for `PathBuilder.circ_status_event`.
Processing `EXTENDED` at t=3 and then `BUILT` at t=5 on a circuit created
at t=0 leaves `extend_times` empty (no delta was appended) and
`setup_duration = None`, which is not the sum of the extend times. -/
theorem claim_C7_counterexample :
    (pbCircEvent (pbCircEvent (CircTimes.fresh 0) "EXTENDED" 3) "BUILT" 5).extend_times = []
    ∧ (pbCircEvent (pbCircEvent (CircTimes.fresh 0) "EXTENDED" 3) "BUILT" 5).setup_duration
        = none
    ∧ (none : Option ℚ) ≠ some (sumExtendTimes
        (pbCircEvent (pbCircEvent (CircTimes.fresh 0) "EXTENDED" 3) "BUILT" 5).extend_times) := by
  refine ⟨rfl, rfl, by simp⟩

/-- C7 (amended): for circuits handled by `CircuitHandler.circ_status_event`,
every `EXTENDED` event appends `arrived_at - last_extended_at` to
`extend_times` and updates `last_extended_at`, and immediately after a
`BUILT` event `setup_duration` equals the sum of `extend_times`.
`PathBuilder.circ_status_event` does not maintain this: its `EXTENDED`
branch only updates `last_extended_at` and its `BUILT` branch never sets
`setup_duration`. -/
theorem claim_C7_extend_times :
    (∀ (c : CircTimes) (t : ℚ),
      (chCircEvent c "EXTENDED" t).extend_times
          = c.extend_times ++ [t - c.last_extended_at]
      ∧ (chCircEvent c "EXTENDED" t).last_extended_at = t)
    ∧ (∀ (c : CircTimes) (t : ℚ),
      (chCircEvent c "BUILT" t).built = true
      ∧ (chCircEvent c "BUILT" t).setup_duration
          = some (sumExtendTimes (chCircEvent c "BUILT" t).extend_times))
    ∧ (∀ (c : CircTimes) (t : ℚ),
      (pbCircEvent c "EXTENDED" t).extend_times = c.extend_times
      ∧ (pbCircEvent c "BUILT" t).setup_duration = c.setup_duration) := by
  refine ⟨fun c t => ⟨rfl, rfl⟩, fun c t => ⟨rfl, rfl⟩, fun c t => ⟨rfl, rfl⟩⟩

/-! ## Node generators (claims C5, C6, and infrastructure for C1/C2) -/

/-- `PathSupport.UniformGenerator`: `sorted_r` is the full slice handed to
the constructor, `routers` the current candidate pool (reset by `rewind`,
shrunk by `mark_chosen`). -/
structure UniformGenerator where
  sorted_r : List Router
  routers : List Router
  rstr_list : List NodeRestriction

/-- `NodeGenerator.rewind` for the uniform generator: restore the full
candidate pool (`self.routers = copy.copy(self.sorted_r)`). -/
def UniformGenerator.rewind (g : UniformGenerator) : UniformGenerator :=
  { g with routers := g.sorted_r }

/-- `PathSupport.OrderedExitGenerator`: a per-port cursor dict (modelled as
a partial function, like the Python dict), the stopping sentinel
`last_idx`, the bandwidth-sorted list and the restriction list.  (This
subclass overrides `rewind` and never stores a `routers` pool.) -/
structure OrderedExitGenerator where
  to_port : Nat
  next_exit_by_port : Nat → Option Nat
  last_idx : Nat
  sorted_r : List Router
  rstr_list : List NodeRestriction

/-- The current cursor of the ordered generator (the dict entry for
`to_port`; reading it before `rewind` would be a `KeyError` in the source,
and every run below rewinds first). -/
def OrderedExitGenerator.cursor (g : OrderedExitGenerator) : Nat :=
  (g.next_exit_by_port g.to_port).getD 0

/-- `self.next_exit_by_port[self.to_port] = v`. -/
def OrderedExitGenerator.setCursor (g : OrderedExitGenerator) (v : Nat) :
    OrderedExitGenerator :=
  { g with next_exit_by_port :=
      fun q => if q = g.to_port then some v else g.next_exit_by_port q }

/-- `OrderedExitGenerator.rewind`: on first use for the port — or whenever
the saved cursor is `0`, which Python's `not dict[port]` treats like a
missing entry — reset the cursor to `0` and set the stopping sentinel
`last_idx` to `len(sorted_r)`; otherwise keep the cursor and make it the
sentinel. -/
def OrderedExitGenerator.rewind (g : OrderedExitGenerator) : OrderedExitGenerator :=
  match g.next_exit_by_port g.to_port with
  | none => { g.setCursor 0 with last_idx := g.sorted_r.length }
  | some 0 => { g.setCursor 0 with last_idx := g.sorted_r.length }
  | some _ => { g with last_idx := g.cursor }

/-- `OrderedExitGenerator.mark_chosen`: advance the per-port cursor. -/
def OrderedExitGenerator.mark (g : OrderedExitGenerator) : OrderedExitGenerator :=
  g.setCursor (g.cursor + 1)

/-- Outcome of advancing the ordered generator's iterator. -/
inductive ONext where
  | yieldO (r : Router) (g : OrderedExitGenerator)
  | stopO (g : OrderedExitGenerator)
  | spinO
  | errO

/-- The `while True` loop body of `OrderedExitGenerator.next_r`, entered at
the top of the loop: wrap the cursor past the end of the list, read the
router under the cursor (`IndexError` on an empty list — `errO`), yield it
if admissible, otherwise advance the cursor and stop as soon as it equals
`last_idx`.  `fuel` bounds the number of loop iterations; `spinO` means the
source loop would keep running. -/
def orderedLoop (search : String → String → Bool) :
    Nat → OrderedExitGenerator → ONext
  | 0, _ => .spinO
  | fuel + 1, g =>
    let g1 := if g.cursor ≥ g.sorted_r.length then g.setCursor 0 else g
    if g1.sorted_r.length = 0 then .errO
    else
      let r := g1.sorted_r.getD g1.cursor default
      if NodeRestrictionList.r_is_ok search g1.rstr_list r then .yieldO r g1
      else
        let g2 := g1.setCursor (g1.cursor + 1)
        if g2.last_idx == g1.cursor + 1 then .stopO g2
        else orderedLoop search fuel g2

/-- Resuming the iterator right after a `yield`: the loop first runs the
`if self.last_idx == self.next_exit_by_port[self.to_port]: break` check and
only then re-enters the loop body. -/
def orderedResume (search : String → String → Bool) (fuel : Nat)
    (g : OrderedExitGenerator) : ONext :=
  if g.last_idx == g.cursor then .stopO g else orderedLoop search fuel g

/-- `PathSupport.BwWeightedGenerator`: candidate pool plus the cached
bandwidth sums and the exit weight computed by `rewind`.  `weight` is the
Python float, modelled exactly as a rational. -/
structure BwWeightedGenerator where
  sorted_r : List Router
  routers : List Router
  rstr_list : List NodeRestriction
  pathlen : Nat
  exit : Bool
  total_bw : Nat
  total_exit_bw : Nat
  exit_bw_to_dest : Nat
  weight : ℚ

/-- Sum of `r.bw` over the admissible routers of a list (the accumulation
loops of `BwWeightedGenerator.rewind`). -/
def admissibleBwSum (search : String → String → Bool)
    (rstr : List NodeRestriction) (rs : List Router) : Nat :=
  ((rs.filter (fun r => NodeRestrictionList.r_is_ok search rstr r)).map
    (fun r => r.bw)).sum

/-- Sum of `r.bw` over the admissible routers that carry the `Exit` flag. -/
def admissibleExitBwSum (search : String → String → Bool)
    (rstr : List NodeRestriction) (rs : List Router) : Nat :=
  ((rs.filter (fun r =>
      NodeRestrictionList.r_is_ok search rstr r && r.flags.contains "Exit")).map
    (fun r => r.bw)).sum

/-- `BwWeightedGenerator.rewind`: restore the candidate pool; for an exit
generator recompute `exit_bw_to_dest` and set `weight = 1.0`; for a
non-exit generator recompute `total_bw` and `total_exit_bw` over the
admissible routers, let `bw_per_hop = total_bw / pathlen`, and set
`weight = (total_exit_bw - bw_per_hop) / total_exit_bw` when
`total_exit_bw ≥ bw_per_hop` and `total_exit_bw > 0`, else `weight = 0`. -/
def BwWeightedGenerator.rewind (search : String → String → Bool)
    (g : BwWeightedGenerator) : BwWeightedGenerator :=
  let g := { g with routers := g.sorted_r }
  if g.exit then
    { g with exit_bw_to_dest := admissibleBwSum search g.rstr_list g.sorted_r,
             weight := 1 }
  else
    let tot := admissibleBwSum search g.rstr_list g.sorted_r
    let texit := admissibleExitBwSum search g.rstr_list g.sorted_r
    let bw_per_hop : ℚ := (tot : ℚ) / (g.pathlen : ℚ)
    let w : ℚ :=
      if (texit : ℚ) ≥ bw_per_hop ∧ 0 < texit then
        ((texit : ℚ) - bw_per_hop) / (texit : ℚ)
      else 0
    { g with total_bw := tot, total_exit_bw := texit, weight := w }

/-- The inclusive upper bound of the non-exit draw,
`(total_bw - total_exit_bw) + int(total_exit_bw * weight)` (the sums are
over the same admissible set, so `total_exit_bw ≤ total_bw` and the
subtraction never underflows; `int(...)` truncates the non-negative float,
i.e. takes the floor). -/
def bwDrawBound (g : BwWeightedGenerator) : Nat :=
  (g.total_bw - g.total_exit_bw) + (Int.toNat ⌊(g.total_exit_bw : ℚ) * g.weight⌋)

/-- The scanning `for` loop of `BwWeightedGenerator.next_r` for one drawn
value `i`: skip inadmissible routers without decrementing, subtract
`weight * bw` for `Exit`-flagged routers and `bw` otherwise, and yield the
router that takes `i` below zero; `none` means the pass completed without a
yield (the source then draws a fresh random value). -/
def bwScan (search : String → String → Bool) (rstr : List NodeRestriction)
    (w : ℚ) : ℚ → List Router → Option Router
  | _, [] => none
  | i, r :: rs =>
    if i < 0 then none
    else if NodeRestrictionList.r_is_ok search rstr r then
      let i' := i - (if r.flags.contains "Exit" then w * (r.bw : ℚ) else (r.bw : ℚ))
      if i' < 0 then some r else bwScan search rstr w i' rs
    else bwScan search rstr w i rs

/-- `BwWeightedGenerator.next_r`, one yield: draw `i = randint(0, bound)`
from the tape and scan; redraw while the pass yields nothing; `none` means
the tape ran out (the source loop would keep drawing). -/
def bwNext (search : String → String → Bool) (g : BwWeightedGenerator) :
    List Nat → Option (Router × List Nat)
  | [] => none
  | t :: ts =>
    let bound := if g.exit then g.exit_bw_to_dest else bwDrawBound g
    let i := t % (bound + 1)
    match bwScan search g.rstr_list g.weight (i : ℚ) g.routers with
    | some r => some (r, ts)
    | none => bwNext search g ts

/-- Outcome of advancing the uniform generator's iterator. -/
inductive UniformStep where
  | yieldU (r : Router) (tape : List Nat)
  | stopU (tape : List Nat)
  | starvedU

/-- `UniformGenerator.next_r`, one yield: while the candidate pool is not
exhausted, pick `random.choice(self.routers)` (tape-driven) and yield it if
it passes the restriction list.  Falling off the loop when `all_chosen()`
is the generator's `StopIteration`. -/
def uniformNext (search : String → String → Bool) (g : UniformGenerator) :
    List Nat → UniformStep
  | [] => if g.routers.isEmpty then .stopU [] else .starvedU
  | t :: ts =>
    if g.routers.isEmpty then .stopU (t :: ts)
    else
      let r := g.routers.getD (t % g.routers.length) default
      if NodeRestrictionList.r_is_ok search g.rstr_list r then .yieldU r ts
      else uniformNext search g ts

/-- A generator object handed to `PathSelector` (closed sum of the three
concrete `NodeGenerator` subclasses used by the selection manager). -/
inductive Gen where
  | uniform (u : UniformGenerator)
  | ordered (o : OrderedExitGenerator)
  | bw (b : BwWeightedGenerator)

/-- The restriction list a generator checks before yielding. -/
def genRstr : Gen → List NodeRestriction
  | .uniform u => u.rstr_list
  | .ordered o => o.rstr_list
  | .bw b => b.rstr_list

/-- `rewind()` dispatched on the generator kind. -/
def genRewind (search : String → String → Bool) : Gen → Gen
  | .uniform u => .uniform u.rewind
  | .ordered o => .ordered o.rewind
  | .bw b => .bw (b.rewind search)

/-- `mark_chosen(r)` dispatched on the generator kind.  The base-class
implementation is `self.routers.remove(r)`, whose `ValueError` (router not
in the pool) is modelled as `none`; the ordered generator just advances its
cursor. -/
def genMark (g : Gen) (r : Router) : Option Gen :=
  match g with
  | .uniform u =>
    if u.routers.contains r then some (.uniform { u with routers := u.routers.erase r })
    else none
  | .bw b =>
    if b.routers.contains r then some (.bw { b with routers := b.routers.erase r })
    else none
  | .ordered o => some (.ordered o.mark)

/-- Outcome of one `next()` on a generator iterator. -/
inductive GNext where
  | yieldG (r : Router) (g : Gen) (tape : List Nat)
  | stopG (g : Gen) (tape : List Nat)
  | starved
  | errG

/-- One `next()` on an iterator of generator `g`.  `primed` records whether
the iterator has already yielded (the ordered generator's loop then resumes
at its termination check; the other two generators are stateless between
yields).  `ofuel` bounds the ordered generator's inner loop. -/
def genNext (search : String → String → Bool) (ofuel : Nat) (g : Gen)
    (primed : Bool) (tape : List Nat) : GNext :=
  match g with
  | .uniform u =>
    match uniformNext search u tape with
    | .yieldU r ts => .yieldG r (.uniform u) ts
    | .stopU ts => .stopG (.uniform u) ts
    | .starvedU => .starved
  | .bw b =>
    match bwNext search b tape with
    | some (r, ts) => .yieldG r (.bw b) ts
    | none => .starved
  | .ordered o =>
    match (if primed then orderedResume search ofuel o else orderedLoop search ofuel o) with
    | .yieldO r o' => .yieldG r (.ordered o') tape
    | .stopO o' => .stopG (.ordered o') tape
    | .spinO => .starved
    | .errO => .errG

/-! ## Bandwidth-weighted sampling, concrete scenario (claim C5) -/

/-- A `re.search` stand-in that never matches (no OS restrictions occur in
the concrete scenarios). -/
def searchNone : String → String → Bool := fun _ _ => false

theorem bwScan_neg (search : String → String → Bool) (rstr : List NodeRestriction)
    (w i : ℚ) (rs : List Router) (h : i < 0) : bwScan search rstr w i rs = none := by
  cases rs with
  | nil => rfl
  | cons r rest => simp [bwScan, h]

/-- A router failing the restriction list is skipped without decrementing
the running draw. -/
theorem bwScan_skip (search : String → String → Bool) (rstr : List NodeRestriction)
    (w i : ℚ) (r : Router) (rs : List Router)
    (h : NodeRestrictionList.r_is_ok search rstr r = false) :
    bwScan search rstr w i (r :: rs) = bwScan search rstr w i rs := by
  simp only [bwScan, h, Bool.false_eq_true, if_false]
  split_ifs with h0
  · exact (bwScan_neg search rstr w i rs h0).symm
  · rfl

/-- Any router yielded by the scanning loop passes the restriction list. -/
theorem bwScan_yield_ok (search : String → String → Bool) (rstr : List NodeRestriction)
    (w : ℚ) (rs : List Router) :
    ∀ (i : ℚ) (r : Router), bwScan search rstr w i rs = some r →
      NodeRestrictionList.r_is_ok search rstr r = true := by
  induction rs with
  | nil => intro i r h; cases h
  | cons x rest ih =>
    intro i r h
    simp only [bwScan] at h
    by_cases h0 : i < 0
    · rw [if_pos h0] at h; cases h
    · rw [if_neg h0] at h
      by_cases h1 : NodeRestrictionList.r_is_ok search rstr x = true
      · rw [if_pos h1] at h
        split at h <;> split at h
        all_goals
          first
          | (injection h with hxr; rw [← hxr]; exact h1)
          | exact ih _ _ h
      · rw [if_neg h1] at h
        exact ih _ _ h

/-- Routers of spec scenario 3: two `Exit`-flagged routers of bandwidth
1000 and two non-exits of bandwidth 500. -/
def ebA : Router := mkRouter "A" (ipv4 10 0 0 1) 1000 ["Exit"]
/-- Second exit of the C5 scenario. -/
def ebB : Router := mkRouter "B" (ipv4 10 0 0 2) 1000 ["Exit"]
/-- First non-exit of the C5 scenario. -/
def ebC : Router := mkRouter "C" (ipv4 10 0 0 3) 500 []
/-- Second non-exit of the C5 scenario. -/
def ebD : Router := mkRouter "D" (ipv4 10 0 0 4) 500 []

/-- The bandwidth-descending list of the C5 scenario. -/
def bwScenarioRouters : List Router := [ebA, ebB, ebC, ebD]

/-- The non-exit `BwWeightedGenerator(sorted_r, [], pathlen=3)` of the C5
scenario, before `rewind`. -/
def bwGen0 : BwWeightedGenerator :=
  ⟨bwScenarioRouters, bwScenarioRouters, [], 3, false, 0, 0, 0, 0⟩

/-- The generator after `rewind`. -/
def bwGenR : BwWeightedGenerator := BwWeightedGenerator.rewind searchNone bwGen0

theorem bwGenR_fields :
    bwGenR.total_bw = 3000 ∧ bwGenR.total_exit_bw = 2000 ∧ bwGenR.weight = 1/2 := by
  have hsum : admissibleBwSum searchNone [] bwScenarioRouters = 3000 := rfl
  have hexitsum : admissibleExitBwSum searchNone [] bwScenarioRouters = 2000 := rfl
  unfold bwGenR BwWeightedGenerator.rewind
  simp only [bwGen0, hsum, hexitsum]
  norm_num

theorem bwGenR_bound : bwDrawBound bwGenR = 2000 := by
  unfold bwDrawBound
  rw [bwGenR_fields.1, bwGenR_fields.2.1, bwGenR_fields.2.2]
  rw [show ((2000 : Nat) : ℚ) * (1/2) = ((1000 : ℤ) : ℚ) by norm_num, Int.floor_intCast]
  rfl

theorem bwScan_scenario (i : ℚ) (h0 : 0 ≤ i) :
    bwScan searchNone [] (1/2) i bwScenarioRouters =
      (if i < 500 then some ebA else if i < 1000 then some ebB
       else if i < 1500 then some ebC else if i < 2000 then some ebD else none) := by
  have hok : ∀ rt : Router, NodeRestrictionList.r_is_ok searchNone [] rt = true :=
    fun _ => rfl
  have hexA : ebA.flags.contains "Exit" = true := rfl
  have hexB : ebB.flags.contains "Exit" = true := rfl
  have hexC : ebC.flags.contains "Exit" = false := rfl
  have hexD : ebD.flags.contains "Exit" = false := rfl
  have hbwA : ebA.bw = 1000 := rfl
  have hbwB : ebB.bw = 1000 := rfl
  have hbwC : ebC.bw = 500 := rfl
  have hbwD : ebD.bw = 500 := rfl
  simp only [bwScenarioRouters, bwScan, hok, hexA, hexB, hexC, hexD,
    hbwA, hbwB, hbwC, hbwD, if_true]
  norm_num
  split_ifs <;> first | rfl | (exfalso; linarith)

/-- The Nat-valued version of the scenario scan: conditions pushed down to
naturals. -/
theorem bwScan_scenario_nat (i : Nat) :
    bwScan searchNone [] (1/2) (i : ℚ) bwScenarioRouters =
      (if i < 500 then some ebA else if i < 1000 then some ebB
       else if i < 1500 then some ebC else if i < 2000 then some ebD else none) := by
  have c500 : ((i : ℚ) < 500) ↔ (i < 500) := by exact_mod_cast Iff.rfl
  have c1000 : ((i : ℚ) < 1000) ↔ (i < 1000) := by exact_mod_cast Iff.rfl
  have c1500 : ((i : ℚ) < 1500) ↔ (i < 1500) := by exact_mod_cast Iff.rfl
  have c2000 : ((i : ℚ) < 2000) ↔ (i < 2000) := by exact_mod_cast Iff.rfl
  rw [bwScan_scenario (i : ℚ) (by positivity)]
  simp only [c500, c1000, c1500, c2000]

/-- Whether draw `i` yields an `Exit`-flagged router in the C5 scenario. -/
def isExitDraw (i : Nat) : Bool :=
  match bwScan searchNone [] (1/2) (i : ℚ) bwScenarioRouters with
  | some r => r.flags.contains "Exit"
  | none => false

/-- Whether draw `i` yields a non-exit router in the C5 scenario. -/
def isNonExitDraw (i : Nat) : Bool :=
  match bwScan searchNone [] (1/2) (i : ℚ) bwScenarioRouters with
  | some r => !r.flags.contains "Exit"
  | none => false

theorem isExitDraw_iff (i : Nat) (hi : i ≤ 2000) : isExitDraw i = true ↔ i < 1000 := by
  unfold isExitDraw
  rw [bwScan_scenario_nat i]
  split_ifs with h1 h2 h3 h4 <;>
    (try simp only [ebA, ebB, ebC, ebD, mkRouter, List.contains_cons, List.contains_nil]) <;>
    (try simp) <;> omega

theorem isNonExitDraw_iff (i : Nat) (hi : i ≤ 2000) :
    isNonExitDraw i = true ↔ (1000 ≤ i ∧ i < 2000) := by
  unfold isNonExitDraw
  rw [bwScan_scenario_nat i]
  split_ifs with h1 h2 h3 h4 <;>
    (try simp only [ebA, ebB, ebC, ebD, mkRouter, List.contains_cons, List.contains_nil]) <;>
    (try simp) <;> omega

/-- C5: on rewind, the non-exit generator of scenario 3 computes
`total_bw = 3000`, `total_exit_bw = 2000`, weight `w = 1/2` (the sums range
over the admissible routers, exits carrying the `Exit` flag), and the draw
bound `(total_bw - total_exit_bw) + int(total_exit_bw * w) = 2000`; the
scanning loop skips restricted routers without decrement, yields only
admissible routers, and on the concrete list yields an `Exit` router
exactly for draws `i < 1000` — 1000 of the 2001 equiprobable draws
`i ∈ [0, 2000]` yield an exit and 1000 yield a non-exit (probability `1/2`
of choosing an exit, conditional on a yield). -/
theorem claim_C5_bw_weighted_generator :
    (bwGenR.total_bw = 3000 ∧ bwGenR.total_exit_bw = 2000
      ∧ bwGenR.weight = 1/2 ∧ bwDrawBound bwGenR = 2000)
    ∧ (∀ (search : String → String → Bool) (rstr : List NodeRestriction)
        (w i : ℚ) (r : Router) (rs : List Router),
        NodeRestrictionList.r_is_ok search rstr r = false →
        bwScan search rstr w i (r :: rs) = bwScan search rstr w i rs)
    ∧ (∀ (search : String → String → Bool) (rstr : List NodeRestriction)
        (w i : ℚ) (rs : List Router) (r : Router),
        bwScan search rstr w i rs = some r →
        NodeRestrictionList.r_is_ok search rstr r = true)
    ∧ (∀ i : Nat, i ≤ 2000 → (isExitDraw i = true ↔ i < 1000))
    ∧ ((Finset.range 2001).filter (fun i => isExitDraw i = true)).card = 1000
    ∧ ((Finset.range 2001).filter (fun i => isNonExitDraw i = true)).card = 1000 := by
  refine ⟨⟨bwGenR_fields.1, bwGenR_fields.2.1, bwGenR_fields.2.2, bwGenR_bound⟩,
    fun s rstr w i r rs h => bwScan_skip s rstr w i r rs h,
    fun s rstr w i rs r h => bwScan_yield_ok s rstr w rs i r h,
    fun i hi => isExitDraw_iff i hi, ?_, ?_⟩
  · have key : ∀ i ∈ Finset.range 2001, (isExitDraw i = true ↔ i < 1000) := by
      intro i hi
      rw [Finset.mem_range] at hi
      exact isExitDraw_iff i (by omega)
    rw [Finset.filter_congr key]
    have : (Finset.range 2001).filter (fun i => i < 1000) = Finset.range 1000 := by
      ext x
      simp only [Finset.mem_filter, Finset.mem_range]
      omega
    rw [this, Finset.card_range]
  · have key : ∀ i ∈ Finset.range 2001,
        (isNonExitDraw i = true ↔ (1000 ≤ i ∧ i < 2000)) := by
      intro i hi
      rw [Finset.mem_range] at hi
      exact isNonExitDraw_iff i (by omega)
    rw [Finset.filter_congr key]
    have : (Finset.range 2001).filter (fun i => 1000 ≤ i ∧ i < 2000)
        = Finset.Ico 1000 2000 := by
      ext x
      simp only [Finset.mem_filter, Finset.mem_range, Finset.mem_Ico]
      omega
    rw [this, Nat.card_Ico]

/-- C5 witness: the skip clause, the yield clause and the interval clause of
the theorem instantiated at concrete draws. -/
theorem claim_C5_witness :
    bwScan searchNone [.flagsR ["Fast"] []] (1/2) 700 (ebA :: [ebC])
      = bwScan searchNone [.flagsR ["Fast"] []] (1/2) 700 [ebC]
    ∧ (isExitDraw 700 = true ↔ (700 : Nat) < 1000) := by
  constructor
  · exact claim_C5_bw_weighted_generator.2.1 searchNone [.flagsR ["Fast"] []]
      (1/2) 700 ebA [ebC] (by rfl)
  · exact claim_C5_bw_weighted_generator.2.2.2.1 700 (by omega)

/-! ## Ordered exit generator round-robin (claim C6) -/

/-- A session against one `next_r()` iterator of the ordered generator:
repeatedly call `next`, record the cursor index of each yielded router, and
apply `mark_chosen` after each yield (as `build_path` does for a chosen
exit).  Returns the yielded indices, the final generator and whether the
iterator terminated (`StopIteration`) as opposed to running out of model
fuel. -/
def orderedRun (search : String → String → Bool) (ofuel : Nat) :
    Nat → OrderedExitGenerator → Bool → (List Nat × OrderedExitGenerator × Bool)
  | 0, g, _ => ([], g, false)
  | fuel + 1, g, primed =>
    match (if primed then orderedResume search ofuel g else orderedLoop search ofuel g) with
    | .yieldO _ g' =>
      let res := orderedRun search ofuel fuel g'.mark true
      (g'.cursor :: res.1, res.2.1, res.2.2)
    | .stopO g' => ([], g', true)
    | .spinO => ([], g, false)
    | .errO => ([], g, false)

/-- The five admissible exits of spec scenario 6. -/
def oexRouters : List Router :=
  [mkRouter "e0" (ipv4 20 0 0 1) 500 ["Exit"],
   mkRouter "e1" (ipv4 20 0 0 2) 400 ["Exit"],
   mkRouter "e2" (ipv4 20 0 0 3) 300 ["Exit"],
   mkRouter "e3" (ipv4 20 0 0 4) 200 ["Exit"],
   mkRouter "e4" (ipv4 20 0 0 5) 100 ["Exit"]]

/-- `OrderedExitGenerator(80, sorted_r, [])` before first use: the cursor
dict is empty. -/
def oexGen0 : OrderedExitGenerator := ⟨80, fun _ => none, 0, oexRouters, []⟩

/-- The generator after its first `rewind` (first use for port 80). -/
def oexGenR : OrderedExitGenerator := oexGen0.rewind

/-- The C6 session: ten `next` calls' worth of fuel against the freshly
rewound generator. -/
def oexSession : List Nat × OrderedExitGenerator × Bool :=
  orderedRun searchNone 20 10 oexGenR false

/-- C6 counterexample: on first use for port 80 with 5 admissible exits the
session yields indices `0,1,2,3,4`, and the further call terminates — but
with the cursor equal to `5 = len(sorted_r)` (the sentinel `last_idx` set
by first-use `rewind`), not equal to its starting index `0`, and without
wrapping to `0`; the claim's "terminates when the cursor equals its
starting index" is false here. -/
theorem claim_C6_counterexample :
    oexSession.1 = [0, 1, 2, 3, 4]
    ∧ oexSession.2.2 = true
    ∧ oexSession.2.1.cursor = 5
    ∧ oexGenR.cursor = 0
    ∧ oexGenR.last_idx = 5
    ∧ oexSession.2.1.cursor ≠ oexGenR.cursor := by
  refine ⟨rfl, rfl, rfl, rfl, rfl, by decide⟩

/-- C6 (amended): `rewind` on first use for a port (or whenever the saved
cursor is `0`) resets the cursor to `0` and sets the stopping sentinel
`last_idx` to `len(sorted_r)`; on later rewinds with a non-zero saved
cursor the sentinel is the starting cursor itself.  `mark_chosen` advances
the cursor by one.  In the concrete first-use session with 5 admissible
exits, successive `next_r` calls yield indices `0,1,2,3,4` and the further
call terminates immediately — the cursor then equals `last_idx = 5 =
len(sorted_r)`, not the starting index, and never wraps to `0`. -/
theorem claim_C6_ordered_exit :
    (∀ g : OrderedExitGenerator, g.next_exit_by_port g.to_port = none →
      g.rewind.last_idx = g.sorted_r.length ∧ g.rewind.cursor = 0)
    ∧ (∀ g : OrderedExitGenerator, g.next_exit_by_port g.to_port = some 0 →
      g.rewind.last_idx = g.sorted_r.length ∧ g.rewind.cursor = 0)
    ∧ (∀ (g : OrderedExitGenerator) (c : Nat),
      g.next_exit_by_port g.to_port = some c → c ≠ 0 →
      g.rewind.last_idx = c ∧ g.rewind.cursor = c)
    ∧ (∀ g : OrderedExitGenerator, g.mark.cursor = g.cursor + 1)
    ∧ oexSession.1 = [0, 1, 2, 3, 4]
    ∧ oexSession.2.2 = true
    ∧ oexSession.2.1.cursor = oexGenR.last_idx
    ∧ oexGenR.last_idx = oexGen0.sorted_r.length := by
  refine ⟨fun g h => ?_, fun g h => ?_, fun g c h hc => ?_, fun g => ?_,
    rfl, rfl, rfl, rfl⟩
  · unfold OrderedExitGenerator.rewind
    rw [h]
    exact ⟨rfl, by simp [OrderedExitGenerator.cursor, OrderedExitGenerator.setCursor]⟩
  · unfold OrderedExitGenerator.rewind
    rw [h]
    exact ⟨rfl, by simp [OrderedExitGenerator.cursor, OrderedExitGenerator.setCursor]⟩
  · cases c with
    | zero => exact absurd rfl hc
    | succ n =>
      unfold OrderedExitGenerator.rewind
      rw [h]
      exact ⟨by simp [OrderedExitGenerator.cursor, h],
        by simp [OrderedExitGenerator.cursor, h]⟩
  · simp [OrderedExitGenerator.mark, OrderedExitGenerator.cursor,
      OrderedExitGenerator.setCursor]

/-- C6 witness: the first-use rewind clause and the mark clause at a
concrete generator. -/
theorem claim_C6_witness :
    oexGen0.rewind.last_idx = oexGen0.sorted_r.length
    ∧ oexGen0.rewind.cursor = 0
    ∧ oexGenR.mark.cursor = oexGenR.cursor + 1 := by
  exact ⟨(claim_C6_ordered_exit.1 oexGen0 rfl).1,
    (claim_C6_ordered_exit.1 oexGen0 rfl).2,
    claim_C6_ordered_exit.2.2.2.1 oexGenR⟩

/-! ## PathSelector.build_path (claims C1, C2) -/

/-- Which of the selector's three generator objects an iterator draws
from.  After a `StopIteration` retry, the source re-binds **all three**
iterator variables to `self.entry_gen.next_r()` (`entry = ...; mid =
self.entry_gen.next_r(); ext = self.entry_gen.next_r()`), so the slot of
an iterator is part of the interpreter state. -/
inductive Slot where
  | e
  | m
  | x
deriving DecidableEq

/-- The three generator objects of a `PathSelector`. -/
structure PSel where
  entry_gen : Gen
  mid_gen : Gen
  exit_gen : Gen

/-- Generator object held in a slot. -/
def PSel.get (s : PSel) : Slot → Gen
  | .e => s.entry_gen
  | .m => s.mid_gen
  | .x => s.exit_gen

/-- Replace the generator object held in a slot. -/
def PSel.set (s : PSel) : Slot → Gen → PSel
  | .e, g => { s with entry_gen := g }
  | .m, g => { s with mid_gen := g }
  | .x, g => { s with exit_gen := g }

/-- An iterator handed out by `next_r()`: which generator object it draws
from, and whether it has already yielded (relevant to the ordered
generator's resume point). -/
structure PIter where
  slot : Slot
  primed : Bool

/-- Interpreter state of one `build_path` call: the selector's generator
objects, the three iterator variables `entry`, `mid`, `ext`, and the
random tape. -/
structure BPSt where
  sel : PSel
  itE : PIter
  itM : PIter
  itX : PIter
  tape : List Nat

/-- Names of the three iterator variables of `build_path`. -/
inductive IterId where
  | entryIter
  | midIter
  | exitIter
deriving DecidableEq

/-- Read one of the iterator variables. -/
def BPSt.getIter (st : BPSt) : IterId → PIter
  | .entryIter => st.itE
  | .midIter => st.itM
  | .exitIter => st.itX

/-- Write one of the iterator variables. -/
def BPSt.setIter (st : BPSt) : IterId → PIter → BPSt
  | .entryIter, it => { st with itE := it }
  | .midIter, it => { st with itM := it }
  | .exitIter, it => { st with itX := it }

/-- Result of one `iterator.next()` call inside `build_path`. -/
inductive DrawRes where
  | got (r : Router) (st : BPSt)
  | stopIter (st : BPSt)
  | starvedD
  | errD

/-- One `next()` on the iterator variable `w`: run the underlying
generator, store its updated object back into its slot and mark the
iterator primed. -/
def drawIter (search : String → String → Bool) (ofuel : Nat) (st : BPSt)
    (w : IterId) : DrawRes :=
  let it := st.getIter w
  match genNext search ofuel (st.sel.get it.slot) it.primed st.tape with
  | .yieldG r g' ts =>
    .got r { st.setIter w { it with primed := true } with
             sel := st.sel.set it.slot g', tape := ts }
  | .stopG g' ts => .stopIter { st with sel := st.sel.set it.slot g', tape := ts }
  | .starved => .starvedD
  | .errG => .errD

/-- Result of the middle-hop draws. -/
inductive MidsRes where
  | got (rs : List Router) (st : BPSt)
  | starvedM
  | errM

/-- `path.extend(mid.next() for _ in xrange(1, pathlen-1))`:
`k = pathlen - 2` draws from the `mid` iterator.  A `StopIteration` raised
by `mid.next()` inside the py2 generator expression is swallowed by
`extend` (pre-PEP-479 semantics), so the collection simply ends early with
the hops gathered so far. -/
def drawMids (search : String → String → Bool) (ofuel : Nat) :
    Nat → BPSt → MidsRes
  | 0, st => .got [] st
  | k + 1, st =>
    match drawIter search ofuel st .midIter with
    | .got r st' =>
      match drawMids search ofuel k st' with
      | .got rs st'' => .got (r :: rs) st''
      | .starvedM => .starvedM
      | .errM => .errM
    | .stopIter st' => .got [] st'
    | .starvedD => .starvedM
    | .errD => .errM

/-- Result of one drawing attempt of the `while True` loop. -/
inductive AttemptRes where
  | pathA (p : List Router) (st : BPSt)
  | stopA (st : BPSt)
  | starvedA
  | errA

/-- One drawing attempt: `path = [ext.next()]` when `pathlen == 1`, else
entry hop, `pathlen - 2` middle hops, exit hop.  `StopIteration` from the
plain `entry.next()` / `ext.next()` calls propagates (`stopA`); from the
middle generator expression it is swallowed (see `drawMids`). -/
def attemptDraw (search : String → String → Bool) (ofuel pathlen : Nat)
    (st : BPSt) : AttemptRes :=
  if pathlen = 1 then
    match drawIter search ofuel st .exitIter with
    | .got r st' => .pathA [r] st'
    | .stopIter st' => .stopA st'
    | .starvedD => .starvedA
    | .errD => .errA
  else
    match drawIter search ofuel st .entryIter with
    | .stopIter st' => .stopA st'
    | .starvedD => .starvedA
    | .errD => .errA
    | .got e st1 =>
      match drawMids search ofuel (pathlen - 2) st1 with
      | .starvedM => .starvedA
      | .errM => .errA
      | .got mids st2 =>
        match drawIter search ofuel st2 .exitIter with
        | .got xr st3 => .pathA (e :: mids ++ [xr]) st3
        | .stopIter st3 => .stopA st3
        | .starvedD => .starvedA
        | .errD => .errA

/-- `for i in xrange(1, pathlen-1): self.mid_gen.mark_chosen(path[i])` —
`none` models the `IndexError` (index out of range) or `ValueError`
(`list.remove` miss) the source would raise. -/
def markMids (gm : Gen) (p : List Router) : List Nat → Option Gen
  | [] => some gm
  | i :: is =>
    match p.get? i with
    | none => none
    | some r =>
      match genMark gm r with
      | none => none
      | some g' => markMids g' p is

/-- The marking block run after `path_restrict.path_is_ok(path)` succeeds:
`entry_gen.mark_chosen(path[0])`, the middle marks, and
`exit_gen.mark_chosen(path[pathlen-1])`.  (For `pathlen ≥ 1`,
`path[pathlen-1]` is an ordinary non-negative index.) -/
def markPath (pathlen : Nat) (sel : PSel) (p : List Router) : Option PSel :=
  match p.get? 0 with
  | none => none
  | some r0 =>
    match genMark sel.entry_gen r0 with
    | none => none
    | some gE' =>
      match markMids sel.mid_gen p (List.range' 1 (pathlen - 2)) with
      | none => none
      | some gM' =>
        match p.get? (pathlen - 1) with
        | none => none
        | some rx =>
          match genMark sel.exit_gen rx with
          | none => none
          | some gX' => some ⟨gE', gM', gX'⟩

/-- The exceptions of `PathSupport`'s "secret sauce" section.  `NoRouters`
is declared in the source (`class NoRouters(PathError)`) but no statement
of `build_path` — or of the whole module — ever raises it; the embedding
therefore has no branch producing `.noRouters`. -/
inductive PathErrorKind where
  | noRouters
  | indexOrValueError
deriving DecidableEq

/-- Result of a `build_path` run. -/
inductive BPResult where
  | okP (p : List Router) (retried : Bool)
  | raised (e : PathErrorKind)
  | starvedR
  | fuelOut
deriving DecidableEq

/-- The `while True` loop of `PathSelector.build_path`.  On a successful
attempt whose path passes the path restrictions, mark every hop and return
it.  On `StopIteration`, rewind all three generators and re-bind **all
three** iterator variables to fresh `entry_gen` iterators (the source's
lines `entry = self.entry_gen.next_r(); mid = self.entry_gen.next_r();
ext = self.entry_gen.next_r()`) and retry.  `fuel` bounds the number of
loop iterations (`.fuelOut` = the source would still be looping);
`retried` records whether a rewind/retry has happened. -/
def buildPathLoop (search : String → String → Bool) (ofuel pathlen : Nat)
    (pr : List PathRestriction) : Nat → BPSt → Bool → BPResult
  | 0, _, _ => .fuelOut
  | fuel + 1, st, retried =>
    match attemptDraw search ofuel pathlen st with
    | .starvedA => .starvedR
    | .errA => .raised .indexOrValueError
    | .stopA st' =>
      buildPathLoop search ofuel pathlen pr fuel
        ⟨⟨genRewind search st'.sel.entry_gen, genRewind search st'.sel.mid_gen,
          genRewind search st'.sel.exit_gen⟩,
         ⟨.e, false⟩, ⟨.e, false⟩, ⟨.e, false⟩, st'.tape⟩ true
    | .pathA p st' =>
      if PathRestrictionList.path_is_ok pr p then
        match markPath pathlen st'.sel p with
        | some _ => .okP p retried
        | none => .raised .indexOrValueError
      else buildPathLoop search ofuel pathlen pr fuel st' retried

/-- `PathSelector.build_path(pathlen)`: rewind all three generators, bind
the three iterator variables to their own generators, and run the loop. -/
def buildPath (search : String → String → Bool) (ofuel : Nat)
    (gE gM gX : Gen) (pr : List PathRestriction) (pathlen fuel : Nat)
    (tape : List Nat) : BPResult :=
  buildPathLoop search ofuel pathlen pr fuel
    ⟨⟨genRewind search gE, genRewind search gM, genRewind search gX⟩,
     ⟨.e, false⟩, ⟨.m, false⟩, ⟨.x, false⟩, tape⟩ false

/-! ### Generator-level lemmas: every yielded router passes its generator's
restriction list, and no operation changes the restriction list. -/

theorem setCursor_rstr (g : OrderedExitGenerator) (v : Nat) :
    (g.setCursor v).rstr_list = g.rstr_list := rfl

theorem cursor_setCursor (g : OrderedExitGenerator) (v : Nat) :
    (g.setCursor v).cursor = v := by
  simp [OrderedExitGenerator.cursor, OrderedExitGenerator.setCursor]

theorem uniformNext_yield_ok (search : String → String → Bool)
    (u : UniformGenerator) :
    ∀ (tape : List Nat) (r : Router) (ts : List Nat),
      uniformNext search u tape = .yieldU r ts →
      NodeRestrictionList.r_is_ok search u.rstr_list r = true := by
  intro tape
  induction tape with
  | nil =>
    intro r ts h
    simp only [uniformNext] at h
    split_ifs at h
  | cons t rest ih =>
    intro r ts h
    simp only [uniformNext] at h
    by_cases he : u.routers.isEmpty
    · rw [if_pos he] at h; cases h
    · rw [if_neg he] at h
      by_cases hok : NodeRestrictionList.r_is_ok search u.rstr_list
          (u.routers.getD (t % u.routers.length) default) = true
      · rw [if_pos hok] at h
        injection h with h1 h2
        rw [← h1]
        exact hok
      · rw [if_neg hok] at h
        exact ih r ts h

theorem bwNext_yield_ok (search : String → String → Bool)
    (b : BwWeightedGenerator) :
    ∀ (tape : List Nat) (r : Router) (ts : List Nat),
      bwNext search b tape = some (r, ts) →
      NodeRestrictionList.r_is_ok search b.rstr_list r = true := by
  intro tape
  induction tape with
  | nil => intro r ts h; cases h
  | cons t rest ih =>
    intro r ts h
    simp only [bwNext] at h
    cases hs : bwScan search b.rstr_list b.weight
        (((t % ((if b.exit then b.exit_bw_to_dest else bwDrawBound b) + 1)) : Nat) : ℚ)
        b.routers with
    | some r0 =>
      rw [hs] at h
      have hin := Option.some.inj h
      have hr : r0 = r := congrArg Prod.fst hin
      rw [← hr]
      exact bwScan_yield_ok search b.rstr_list b.weight b.routers _ r0 hs
    | none =>
      rw [hs] at h
      exact ih r ts h

theorem orderedLoop_inv (search : String → String → Bool) :
    ∀ (fuel : Nat) (g : OrderedExitGenerator),
      (∀ (r : Router) (g' : OrderedExitGenerator),
        orderedLoop search fuel g = .yieldO r g' →
        NodeRestrictionList.r_is_ok search g.rstr_list r = true
          ∧ g'.rstr_list = g.rstr_list)
      ∧ (∀ g' : OrderedExitGenerator, orderedLoop search fuel g = .stopO g' →
          g'.rstr_list = g.rstr_list) := by
  intro fuel
  induction fuel with
  | zero =>
    intro g
    exact ⟨fun r g' h => (nomatch h), fun g' h => (nomatch h)⟩
  | succ n ih =>
    intro g
    by_cases hw : g.cursor ≥ g.sorted_r.length
    · constructor
      · intro r g' h
        simp only [orderedLoop] at h
        rw [if_pos hw] at h
        by_cases h1 : (g.setCursor 0).sorted_r.length = 0
        · rw [if_pos h1] at h; cases h
        · rw [if_neg h1] at h
          by_cases h2 : NodeRestrictionList.r_is_ok search (g.setCursor 0).rstr_list
              ((g.setCursor 0).sorted_r.getD (g.setCursor 0).cursor default) = true
          · rw [if_pos h2] at h
            injection h with ha hb
            rw [← ha, ← hb]
            exact ⟨h2, rfl⟩
          · rw [if_neg h2] at h
            by_cases h3 : (((g.setCursor 0).setCursor ((g.setCursor 0).cursor + 1)).last_idx
                == (g.setCursor 0).cursor + 1) = true
            · rw [if_pos h3] at h; cases h
            · rw [if_neg h3] at h
              exact (ih ((g.setCursor 0).setCursor ((g.setCursor 0).cursor + 1))).1 r g' h
      · intro g' h
        simp only [orderedLoop] at h
        rw [if_pos hw] at h
        by_cases h1 : (g.setCursor 0).sorted_r.length = 0
        · rw [if_pos h1] at h; cases h
        · rw [if_neg h1] at h
          by_cases h2 : NodeRestrictionList.r_is_ok search (g.setCursor 0).rstr_list
              ((g.setCursor 0).sorted_r.getD (g.setCursor 0).cursor default) = true
          · rw [if_pos h2] at h; cases h
          · rw [if_neg h2] at h
            by_cases h3 : (((g.setCursor 0).setCursor ((g.setCursor 0).cursor + 1)).last_idx
                == (g.setCursor 0).cursor + 1) = true
            · rw [if_pos h3] at h
              injection h with ha
              rw [← ha]
              rfl
            · rw [if_neg h3] at h
              exact (ih ((g.setCursor 0).setCursor ((g.setCursor 0).cursor + 1))).2 g' h
    · constructor
      · intro r g' h
        simp only [orderedLoop] at h
        rw [if_neg hw] at h
        by_cases h1 : g.sorted_r.length = 0
        · rw [if_pos h1] at h; cases h
        · rw [if_neg h1] at h
          by_cases h2 : NodeRestrictionList.r_is_ok search g.rstr_list
              (g.sorted_r.getD g.cursor default) = true
          · rw [if_pos h2] at h
            injection h with ha hb
            rw [← ha, ← hb]
            exact ⟨h2, rfl⟩
          · rw [if_neg h2] at h
            by_cases h3 : ((g.setCursor (g.cursor + 1)).last_idx == g.cursor + 1) = true
            · rw [if_pos h3] at h; cases h
            · rw [if_neg h3] at h
              exact (ih (g.setCursor (g.cursor + 1))).1 r g' h
      · intro g' h
        simp only [orderedLoop] at h
        rw [if_neg hw] at h
        by_cases h1 : g.sorted_r.length = 0
        · rw [if_pos h1] at h; cases h
        · rw [if_neg h1] at h
          by_cases h2 : NodeRestrictionList.r_is_ok search g.rstr_list
              (g.sorted_r.getD g.cursor default) = true
          · rw [if_pos h2] at h; cases h
          · rw [if_neg h2] at h
            by_cases h3 : ((g.setCursor (g.cursor + 1)).last_idx == g.cursor + 1) = true
            · rw [if_pos h3] at h
              injection h with ha
              rw [← ha]
              rfl
            · rw [if_neg h3] at h
              exact (ih (g.setCursor (g.cursor + 1))).2 g' h

theorem genRewind_rstr (search : String → String → Bool) (g : Gen) :
    genRstr (genRewind search g) = genRstr g := by
  cases g with
  | uniform u => rfl
  | ordered o =>
    show genRstr (.ordered o.rewind) = o.rstr_list
    unfold OrderedExitGenerator.rewind
    cases o.next_exit_by_port o.to_port with
    | none => rfl
    | some c => cases c <;> rfl
  | bw b =>
    show genRstr (.bw (b.rewind search)) = b.rstr_list
    cases hbe : b.exit <;> simp [BwWeightedGenerator.rewind, genRstr, hbe]

theorem genNext_yield (search : String → String → Bool) (ofuel : Nat) (g : Gen)
    (primed : Bool) (tape : List Nat) (r : Router) (g' : Gen) (ts : List Nat)
    (h : genNext search ofuel g primed tape = .yieldG r g' ts) :
    NodeRestrictionList.r_is_ok search (genRstr g) r = true ∧ genRstr g' = genRstr g := by
  cases g with
  | uniform u =>
    simp only [genNext] at h
    cases hu : uniformNext search u tape with
    | yieldU r0 ts0 =>
      rw [hu] at h
      injection h with h1 h2 h3
      rw [← h1, ← h2]
      exact ⟨uniformNext_yield_ok search u tape r0 ts0 hu, rfl⟩
    | stopU ts0 => rw [hu] at h; cases h
    | starvedU => rw [hu] at h; cases h
  | bw b =>
    simp only [genNext] at h
    cases hb : bwNext search b tape with
    | some rts =>
      rw [hb] at h
      cases rts with
      | mk r0 ts0 =>
        injection h with h1 h2 h3
        rw [← h1, ← h2]
        exact ⟨bwNext_yield_ok search b tape r0 ts0 hb, rfl⟩
    | none => rw [hb] at h; cases h
  | ordered o =>
    simp only [genNext] at h
    have main : ∀ st, (if primed then orderedResume search ofuel o
          else orderedLoop search ofuel o) = st →
        (match st with
          | .yieldO r0 o' => GNext.yieldG r0 (.ordered o') tape
          | .stopO o' => GNext.stopG (.ordered o') tape
          | .spinO => GNext.starved
          | .errO => GNext.errG) = .yieldG r g' ts →
        NodeRestrictionList.r_is_ok search o.rstr_list r = true
          ∧ genRstr g' = o.rstr_list := by
      intro st hst hmatch
      cases st with
      | yieldO r0 o' =>
        injection hmatch with h1 h2 h3
        rw [← h1, ← h2]
        have hloop : orderedLoop search ofuel o = .yieldO r0 o' := by
          by_cases hp : primed
          · rw [if_pos hp] at hst
            unfold orderedResume at hst
            by_cases hl : (o.last_idx == o.cursor) = true
            · rw [if_pos hl] at hst; cases hst
            · rw [if_neg hl] at hst; exact hst
          · rw [if_neg hp] at hst; exact hst
        have := (orderedLoop_inv search ofuel o).1 r0 o' hloop
        exact ⟨this.1, this.2⟩
      | stopO o' => cases hmatch
      | spinO => cases hmatch
      | errO => cases hmatch
    exact main _ rfl h

theorem genNext_stop (search : String → String → Bool) (ofuel : Nat) (g : Gen)
    (primed : Bool) (tape : List Nat) (g' : Gen) (ts : List Nat)
    (h : genNext search ofuel g primed tape = .stopG g' ts) :
    genRstr g' = genRstr g := by
  cases g with
  | uniform u =>
    simp only [genNext] at h
    cases hu : uniformNext search u tape with
    | yieldU r0 ts0 => rw [hu] at h; cases h
    | stopU ts0 =>
      rw [hu] at h
      injection h with h1 h2
      rw [← h1]
    | starvedU => rw [hu] at h; cases h
  | bw b =>
    simp only [genNext] at h
    cases hb : bwNext search b tape with
    | some rts => rw [hb] at h; cases rts; cases h
    | none => rw [hb] at h; cases h
  | ordered o =>
    simp only [genNext] at h
    have main : ∀ st, (if primed then orderedResume search ofuel o
          else orderedLoop search ofuel o) = st →
        (match st with
          | .yieldO r0 o' => GNext.yieldG r0 (.ordered o') tape
          | .stopO o' => GNext.stopG (.ordered o') tape
          | .spinO => GNext.starved
          | .errO => GNext.errG) = .stopG g' ts →
        genRstr g' = o.rstr_list := by
      intro st hst hmatch
      cases st with
      | yieldO r0 o' => cases hmatch
      | stopO o' =>
        injection hmatch with h1 h2
        rw [← h1]
        show o'.rstr_list = o.rstr_list
        by_cases hp : primed
        · rw [if_pos hp] at hst
          unfold orderedResume at hst
          by_cases hl : (o.last_idx == o.cursor) = true
          · rw [if_pos hl] at hst
            injection hst with h3
            rw [← h3]
          · rw [if_neg hl] at hst
            exact (orderedLoop_inv search ofuel o).2 o' hst
        · rw [if_neg hp] at hst
          exact (orderedLoop_inv search ofuel o).2 o' hst
      | spinO => cases hmatch
      | errO => cases hmatch
    exact main _ rfl h

/-! ### build_path-level lemmas (claim C1) -/

theorem PSel_set_rstr (s : PSel) (sl : Slot) (g : Gen)
    (hg : genRstr g = genRstr (s.get sl)) :
    ∀ s' : Slot, genRstr ((s.set sl g).get s') = genRstr (s.get s') := by
  intro s'
  cases sl <;> cases s' <;> first | exact hg | rfl

theorem drawIter_got (search : String → String → Bool) (ofuel : Nat) (st : BPSt)
    (w : IterId) (r : Router) (st' : BPSt)
    (h : drawIter search ofuel st w = .got r st') :
    NodeRestrictionList.r_is_ok search (genRstr (st.sel.get (st.getIter w).slot)) r = true
    ∧ (∀ s : Slot, genRstr (st'.sel.get s) = genRstr (st.sel.get s))
    ∧ st'.itE.slot = st.itE.slot ∧ st'.itM.slot = st.itM.slot
    ∧ st'.itX.slot = st.itX.slot := by
  cases w with
  | entryIter =>
    simp only [drawIter, BPSt.getIter, BPSt.setIter] at h
    cases hg : genNext search ofuel (st.sel.get st.itE.slot) st.itE.primed st.tape with
    | yieldG r0 g' ts =>
      rw [hg] at h
      injection h with h1 h2
      have hok := genNext_yield search ofuel _ _ _ _ _ _ hg
      exact ⟨by rw [← h1]; exact hok.1,
        by rw [← h2]; exact PSel_set_rstr st.sel st.itE.slot g' hok.2,
        by rw [← h2], by rw [← h2], by rw [← h2]⟩
    | stopG g' ts => rw [hg] at h; cases h
    | starved => rw [hg] at h; cases h
    | errG => rw [hg] at h; cases h
  | midIter =>
    simp only [drawIter, BPSt.getIter, BPSt.setIter] at h
    cases hg : genNext search ofuel (st.sel.get st.itM.slot) st.itM.primed st.tape with
    | yieldG r0 g' ts =>
      rw [hg] at h
      injection h with h1 h2
      have hok := genNext_yield search ofuel _ _ _ _ _ _ hg
      exact ⟨by rw [← h1]; exact hok.1,
        by rw [← h2]; exact PSel_set_rstr st.sel st.itM.slot g' hok.2,
        by rw [← h2], by rw [← h2], by rw [← h2]⟩
    | stopG g' ts => rw [hg] at h; cases h
    | starved => rw [hg] at h; cases h
    | errG => rw [hg] at h; cases h
  | exitIter =>
    simp only [drawIter, BPSt.getIter, BPSt.setIter] at h
    cases hg : genNext search ofuel (st.sel.get st.itX.slot) st.itX.primed st.tape with
    | yieldG r0 g' ts =>
      rw [hg] at h
      injection h with h1 h2
      have hok := genNext_yield search ofuel _ _ _ _ _ _ hg
      exact ⟨by rw [← h1]; exact hok.1,
        by rw [← h2]; exact PSel_set_rstr st.sel st.itX.slot g' hok.2,
        by rw [← h2], by rw [← h2], by rw [← h2]⟩
    | stopG g' ts => rw [hg] at h; cases h
    | starved => rw [hg] at h; cases h
    | errG => rw [hg] at h; cases h

theorem drawIter_stop (search : String → String → Bool) (ofuel : Nat) (st : BPSt)
    (w : IterId) (st' : BPSt)
    (h : drawIter search ofuel st w = .stopIter st') :
    (∀ s : Slot, genRstr (st'.sel.get s) = genRstr (st.sel.get s))
    ∧ st'.itE.slot = st.itE.slot ∧ st'.itM.slot = st.itM.slot
    ∧ st'.itX.slot = st.itX.slot := by
  cases w with
  | entryIter =>
    simp only [drawIter, BPSt.getIter, BPSt.setIter] at h
    cases hg : genNext search ofuel (st.sel.get st.itE.slot) st.itE.primed st.tape with
    | yieldG r0 g' ts => rw [hg] at h; cases h
    | stopG g' ts =>
      rw [hg] at h
      injection h with h2
      have hok := genNext_stop search ofuel _ _ _ _ _ hg
      exact ⟨by rw [← h2]; exact PSel_set_rstr st.sel st.itE.slot g' hok,
        by rw [← h2], by rw [← h2], by rw [← h2]⟩
    | starved => rw [hg] at h; cases h
    | errG => rw [hg] at h; cases h
  | midIter =>
    simp only [drawIter, BPSt.getIter, BPSt.setIter] at h
    cases hg : genNext search ofuel (st.sel.get st.itM.slot) st.itM.primed st.tape with
    | yieldG r0 g' ts => rw [hg] at h; cases h
    | stopG g' ts =>
      rw [hg] at h
      injection h with h2
      have hok := genNext_stop search ofuel _ _ _ _ _ hg
      exact ⟨by rw [← h2]; exact PSel_set_rstr st.sel st.itM.slot g' hok,
        by rw [← h2], by rw [← h2], by rw [← h2]⟩
    | starved => rw [hg] at h; cases h
    | errG => rw [hg] at h; cases h
  | exitIter =>
    simp only [drawIter, BPSt.getIter, BPSt.setIter] at h
    cases hg : genNext search ofuel (st.sel.get st.itX.slot) st.itX.primed st.tape with
    | yieldG r0 g' ts => rw [hg] at h; cases h
    | stopG g' ts =>
      rw [hg] at h
      injection h with h2
      have hok := genNext_stop search ofuel _ _ _ _ _ hg
      exact ⟨by rw [← h2]; exact PSel_set_rstr st.sel st.itX.slot g' hok,
        by rw [← h2], by rw [← h2], by rw [← h2]⟩
    | starved => rw [hg] at h; cases h
    | errG => rw [hg] at h; cases h

theorem drawMids_got (search : String → String → Bool) (ofuel : Nat) :
    ∀ (k : Nat) (st : BPSt) (rs : List Router) (st' : BPSt),
      drawMids search ofuel k st = .got rs st' →
      (∀ r ∈ rs, NodeRestrictionList.r_is_ok search
          (genRstr (st.sel.get st.itM.slot)) r = true)
      ∧ (∀ s : Slot, genRstr (st'.sel.get s) = genRstr (st.sel.get s))
      ∧ st'.itE.slot = st.itE.slot ∧ st'.itM.slot = st.itM.slot
      ∧ st'.itX.slot = st.itX.slot
      ∧ rs.length ≤ k := by
  intro k
  induction k with
  | zero =>
    intro st rs st' h
    injection h with h1 h2
    rw [← h1, ← h2]
    exact ⟨by simp, fun s => rfl, rfl, rfl, rfl, by simp⟩
  | succ n ih =>
    intro st rs st' h
    simp only [drawMids] at h
    cases hd : drawIter search ofuel st .midIter with
    | got r st1 =>
      rw [hd] at h
      dsimp only at h
      have hD := drawIter_got search ofuel st .midIter r st1 hd
      cases hm : drawMids search ofuel n st1 with
      | got rs2 st2 =>
        rw [hm] at h
        dsimp only at h
        injection h with h1 h2
        have hI := ih st1 rs2 st2 hm
        rw [← h1, ← h2]
        refine ⟨?_, ?_, ?_, ?_, ?_, ?_⟩
        · intro r' hr'
          cases List.mem_cons.1 hr' with
          | inl he => rw [he]; exact hD.1
          | inr hi =>
            have := hI.1 r' hi
            rw [hD.2.2.2.1, hD.2.1 st.itM.slot] at this
            exact this
        · intro s
          rw [hI.2.1 s, hD.2.1 s]
        · rw [hI.2.2.1, hD.2.2.1]
        · rw [hI.2.2.2.1, hD.2.2.2.1]
        · rw [hI.2.2.2.2.1, hD.2.2.2.2]
        · simpa using Nat.succ_le_succ hI.2.2.2.2.2
      | starvedM => rw [hm] at h; dsimp only at h; cases h
      | errM => rw [hm] at h; dsimp only at h; cases h
    | stopIter st1 =>
      rw [hd] at h
      dsimp only at h
      injection h with h1 h2
      have hS := drawIter_stop search ofuel st .midIter st1 hd
      rw [← h1, ← h2]
      exact ⟨by simp, hS.1, hS.2.1, hS.2.2.1, hS.2.2.2, by simp⟩
    | starvedD => rw [hd] at h; dsimp only at h; cases h
    | errD => rw [hd] at h; dsimp only at h; cases h

theorem attemptDraw_pathA (search : String → String → Bool) (ofuel pathlen : Nat)
    (st : BPSt) (p : List Router) (st' : BPSt)
    (h : attemptDraw search ofuel pathlen st = .pathA p st') :
    (∀ s : Slot, genRstr (st'.sel.get s) = genRstr (st.sel.get s))
    ∧ st'.itE.slot = st.itE.slot ∧ st'.itM.slot = st.itM.slot
    ∧ st'.itX.slot = st.itX.slot
    ∧ (pathlen = 1 → ∃ r, p = [r]
        ∧ NodeRestrictionList.r_is_ok search (genRstr (st.sel.get st.itX.slot)) r = true)
    ∧ (pathlen ≠ 1 → ∃ e mids xr, p = e :: mids ++ [xr]
        ∧ mids.length ≤ pathlen - 2
        ∧ NodeRestrictionList.r_is_ok search (genRstr (st.sel.get st.itE.slot)) e = true
        ∧ (∀ r ∈ mids,
            NodeRestrictionList.r_is_ok search (genRstr (st.sel.get st.itM.slot)) r = true)
        ∧ NodeRestrictionList.r_is_ok search (genRstr (st.sel.get st.itX.slot)) xr = true) := by
  unfold attemptDraw at h
  by_cases h1 : pathlen = 1
  · rw [if_pos h1] at h
    cases hd : drawIter search ofuel st .exitIter with
    | got r st1 =>
      rw [hd] at h
      dsimp only at h
      injection h with hp hst
      have hD := drawIter_got search ofuel st .exitIter r st1 hd
      rw [← hp, ← hst]
      exact ⟨hD.2.1, hD.2.2.1, hD.2.2.2.1, hD.2.2.2.2,
        fun _ => ⟨r, rfl, hD.1⟩, fun hne => absurd h1 hne⟩
    | stopIter st1 => rw [hd] at h; dsimp only at h; cases h
    | starvedD => rw [hd] at h; dsimp only at h; cases h
    | errD => rw [hd] at h; dsimp only at h; cases h
  · rw [if_neg h1] at h
    cases hd : drawIter search ofuel st .entryIter with
    | stopIter st1 => rw [hd] at h; dsimp only at h; cases h
    | starvedD => rw [hd] at h; dsimp only at h; cases h
    | errD => rw [hd] at h; dsimp only at h; cases h
    | got e st1 =>
      rw [hd] at h
      dsimp only at h
      have hE := drawIter_got search ofuel st .entryIter e st1 hd
      cases hm : drawMids search ofuel (pathlen - 2) st1 with
      | starvedM => rw [hm] at h; dsimp only at h; cases h
      | errM => rw [hm] at h; dsimp only at h; cases h
      | got mids st2 =>
        rw [hm] at h
        dsimp only at h
        have hM := drawMids_got search ofuel (pathlen - 2) st1 mids st2 hm
        cases hx : drawIter search ofuel st2 .exitIter with
        | stopIter st3 => rw [hx] at h; dsimp only at h; cases h
        | starvedD => rw [hx] at h; dsimp only at h; cases h
        | errD => rw [hx] at h; dsimp only at h; cases h
        | got xr st3 =>
          rw [hx] at h
          dsimp only at h
          injection h with hp hst
          have hX := drawIter_got search ofuel st2 .exitIter xr st3 hx
          rw [← hp, ← hst]
          refine ⟨?_, ?_, ?_, ?_, fun he => absurd he h1, fun _ => ?_⟩
          · intro s
            rw [hX.2.1 s, hM.2.1 s, hE.2.1 s]
          · rw [hX.2.2.1, hM.2.2.1, hE.2.2.1]
          · rw [hX.2.2.2.1, hM.2.2.2.1, hE.2.2.2.1]
          · rw [hX.2.2.2.2, hM.2.2.2.2.1, hE.2.2.2.2]
          · refine ⟨e, mids, xr, rfl, hM.2.2.2.2.2, hE.1, ?_, ?_⟩
            · intro r hr
              have := hM.1 r hr
              rw [hE.2.2.2.1, hE.2.1 st.itM.slot] at this
              exact this
            · have := hX.1
              rw [show (st2.getIter .exitIter).slot = st.itX.slot by
                    show st2.itX.slot = st.itX.slot
                    rw [hM.2.2.2.2.1, hE.2.2.2.2],
                  hM.2.1 st.itX.slot, hE.2.1 st.itX.slot] at this
              exact this

theorem attemptDraw_stopA (search : String → String → Bool) (ofuel pathlen : Nat)
    (st : BPSt) (st' : BPSt)
    (h : attemptDraw search ofuel pathlen st = .stopA st') :
    ∀ s : Slot, genRstr (st'.sel.get s) = genRstr (st.sel.get s) := by
  unfold attemptDraw at h
  by_cases h1 : pathlen = 1
  · rw [if_pos h1] at h
    cases hd : drawIter search ofuel st .exitIter with
    | got r st1 => rw [hd] at h; dsimp only at h; cases h
    | stopIter st1 =>
      rw [hd] at h
      dsimp only at h
      injection h with hst
      rw [← hst]
      exact (drawIter_stop search ofuel st .exitIter st1 hd).1
    | starvedD => rw [hd] at h; dsimp only at h; cases h
    | errD => rw [hd] at h; dsimp only at h; cases h
  · rw [if_neg h1] at h
    cases hd : drawIter search ofuel st .entryIter with
    | stopIter st1 =>
      rw [hd] at h
      dsimp only at h
      injection h with hst
      rw [← hst]
      exact (drawIter_stop search ofuel st .entryIter st1 hd).1
    | starvedD => rw [hd] at h; dsimp only at h; cases h
    | errD => rw [hd] at h; dsimp only at h; cases h
    | got e st1 =>
      rw [hd] at h
      dsimp only at h
      have hE := drawIter_got search ofuel st .entryIter e st1 hd
      cases hm : drawMids search ofuel (pathlen - 2) st1 with
      | starvedM => rw [hm] at h; dsimp only at h; cases h
      | errM => rw [hm] at h; dsimp only at h; cases h
      | got mids st2 =>
        rw [hm] at h
        dsimp only at h
        have hM := drawMids_got search ofuel (pathlen - 2) st1 mids st2 hm
        cases hx : drawIter search ofuel st2 .exitIter with
        | got xr st3 => rw [hx] at h; dsimp only at h; cases h
        | stopIter st3 =>
          rw [hx] at h
          dsimp only at h
          injection h with hst
          rw [← hst]
          intro s
          rw [(drawIter_stop search ofuel st2 .exitIter st3 hx).1 s,
            hM.2.1 s, hE.2.1 s]
        | starvedD => rw [hx] at h; dsimp only at h; cases h
        | errD => rw [hx] at h; dsimp only at h; cases h

theorem markPath_some_bound (pathlen : Nat) (sel : PSel) (p : List Router)
    (sel' : PSel) (h : markPath pathlen sel p = some sel') :
    0 < p.length ∧ pathlen - 1 < p.length := by
  unfold markPath at h
  cases h0 : p.get? 0 with
  | none => rw [h0] at h; cases h
  | some r0 =>
    rw [h0] at h
    dsimp only at h
    have hb0 : 0 < p.length := by
      by_contra hc
      rw [List.get?_eq_none.2 (by omega)] at h0
      cases h0
    cases hE : genMark sel.entry_gen r0 with
    | none => rw [hE] at h; dsimp only at h; cases h
    | some gE' =>
      rw [hE] at h
      dsimp only at h
      cases hM : markMids sel.mid_gen p (List.range' 1 (pathlen - 2)) with
      | none => rw [hM] at h; dsimp only at h; cases h
      | some gM' =>
        rw [hM] at h
        dsimp only at h
        cases hx : p.get? (pathlen - 1) with
        | none => rw [hx] at h; dsimp only at h; cases h
        | some rx =>
          refine ⟨hb0, ?_⟩
          by_contra hc
          rw [List.get?_eq_none.2 (by omega)] at hx
          cases hx

theorem buildPathLoop_ok (search : String → String → Bool) (ofuel pathlen : Nat)
    (pr : List PathRestriction) (RE RM RX : List NodeRestriction) :
    ∀ (fuel : Nat) (st : BPSt) (retried : Bool) (p : List Router) (rb : Bool),
      1 ≤ pathlen →
      st.itE.slot = .e →
      (retried = false → st.itM.slot = .m ∧ st.itX.slot = .x) →
      (retried = true → st.itM.slot = .e ∧ st.itX.slot = .e) →
      genRstr (st.sel.get .e) = RE →
      genRstr (st.sel.get .m) = RM →
      genRstr (st.sel.get .x) = RX →
      buildPathLoop search ofuel pathlen pr fuel st retried = .okP p rb →
      (retried = true → rb = true)
      ∧ PathRestrictionList.path_is_ok pr p = true
      ∧ p.length = pathlen
      ∧ (rb = true → ∀ r ∈ p, NodeRestrictionList.r_is_ok search RE r = true)
      ∧ (rb = false →
          (pathlen = 1 → ∀ r ∈ p, NodeRestrictionList.r_is_ok search RX r = true)
          ∧ (pathlen ≠ 1 →
            (∀ r ∈ p.take 1, NodeRestrictionList.r_is_ok search RE r = true)
            ∧ (∀ r ∈ (p.drop 1).take (pathlen - 2),
                NodeRestrictionList.r_is_ok search RM r = true)
            ∧ (∀ r ∈ p.drop (pathlen - 1),
                NodeRestrictionList.r_is_ok search RX r = true))) := by
  intro fuel
  induction fuel with
  | zero => intro st retried p rb _ _ _ _ _ _ _ h; cases h
  | succ n ih =>
    intro st retried p rb hlen hE hF hT hRE hRM hRX h
    simp only [buildPathLoop] at h
    cases ha : attemptDraw search ofuel pathlen st with
    | starvedA => rw [ha] at h; dsimp only at h; cases h
    | errA => rw [ha] at h; dsimp only at h; cases h
    | stopA st1 =>
      rw [ha] at h
      dsimp only at h
      have hPres := attemptDraw_stopA search ofuel pathlen st st1 ha
      have hIH := ih _ true p rb hlen rfl (fun hf => (nomatch hf)) (fun _ => ⟨rfl, rfl⟩)
        (by show genRstr (genRewind search st1.sel.entry_gen) = RE
            rw [genRewind_rstr]
            rw [show genRstr st1.sel.entry_gen = genRstr (st1.sel.get .e) from rfl]
            rw [hPres .e]
            exact hRE)
        (by show genRstr (genRewind search st1.sel.mid_gen) = RM
            rw [genRewind_rstr]
            rw [show genRstr st1.sel.mid_gen = genRstr (st1.sel.get .m) from rfl]
            rw [hPres .m]
            exact hRM)
        (by show genRstr (genRewind search st1.sel.exit_gen) = RX
            rw [genRewind_rstr]
            rw [show genRstr st1.sel.exit_gen = genRstr (st1.sel.get .x) from rfl]
            rw [hPres .x]
            exact hRX)
        h
      refine ⟨fun _ => hIH.1 rfl, hIH.2.1, hIH.2.2.1, fun hrb => hIH.2.2.2.1 hrb,
        fun hrb => absurd (hIH.1 rfl) (by rw [hrb]; exact Bool.false_ne_true)⟩
    | pathA p0 st1 =>
      rw [ha] at h
      dsimp only at h
      by_cases hpok : PathRestrictionList.path_is_ok pr p0 = true
      · rw [if_pos hpok] at h
        cases hmk : markPath pathlen st1.sel p0 with
        | none => rw [hmk] at h; dsimp only at h; cases h
        | some sel2 =>
          rw [hmk] at h
          dsimp only at h
          injection h with hp hrb
          have hA := attemptDraw_pathA search ofuel pathlen st p0 st1 ha
          have hB := markPath_some_bound pathlen st1.sel p0 sel2 hmk
          subst hp
          by_cases hone : pathlen = 1
          · obtain ⟨r, hpr, hok⟩ := hA.2.2.2.2.1 hone
            subst hpr
            refine ⟨fun ht => by rw [← hrb, ht], hpok, by rw [hone]; rfl, ?_, ?_⟩
            · intro hrbt r' hr'
              have hret : retried = true := by rw [hrb, hrbt]
              have hslot := (hT hret).2
              rw [hslot, hRE] at hok
              have : r' = r := by simpa using hr'
              rw [this]
              exact hok
            · intro hrbf
              have hret : retried = false := by rw [hrb, hrbf]
              have hslot := (hF hret).2
              rw [hslot, hRX] at hok
              refine ⟨fun _ => ?_, fun hne => absurd hone hne⟩
              intro r' hr'
              have : r' = r := by simpa using hr'
              rw [this]
              exact hok
          · obtain ⟨e, mids, xr, hpr, hmlen, hoke, hokm, hokx⟩ := hA.2.2.2.2.2 hone
            have hplen0 : p0.length = mids.length + 2 := by
              rw [hpr]
              simp [List.length_append]
            have hplen : p0.length = pathlen := by omega
            have hmlen2 : mids.length = pathlen - 2 := by omega
            have htake1 : p0.take 1 = [e] := by rw [hpr]; rfl
            have hdrop1 : p0.drop 1 = mids ++ [xr] := by rw [hpr]; rfl
            have htakeM : (p0.drop 1).take (pathlen - 2) = mids := by
              rw [hdrop1, ← hmlen2, List.take_left]
            have hdropX : p0.drop (pathlen - 1) = [xr] := by
              rw [hpr]
              rw [show pathlen - 1 = mids.length + 1 by omega]
              show List.drop mids.length (mids ++ [xr]) = [xr]
              rw [List.drop_left]
            refine ⟨fun ht => by rw [← hrb, ht], hpok, hplen, ?_, ?_⟩
            · intro hrbt r' hr'
              have hret : retried = true := by rw [hrb, hrbt]
              have hslotM := (hT hret).1
              have hslotX := (hT hret).2
              rw [hE, hRE] at hoke
              rw [hslotM, hRE] at hokm
              rw [hslotX, hRE] at hokx
              rw [hpr] at hr'
              rcases List.mem_cons.1 hr' with he' | hr2
              · rw [he']; exact hoke
              · rcases List.mem_append.1 hr2 with hm' | hx'
                · exact hokm r' hm'
                · rw [show r' = xr by simpa using hx']
                  exact hokx
            · intro hrbf
              have hret : retried = false := by rw [hrb, hrbf]
              have hslotM := (hF hret).1
              have hslotX := (hF hret).2
              rw [hE, hRE] at hoke
              rw [hslotM, hRM] at hokm
              rw [hslotX, hRX] at hokx
              refine ⟨fun h1 => absurd h1 hone, fun _ => ⟨?_, ?_, ?_⟩⟩
              · intro r' hr'
                rw [htake1] at hr'
                rw [show r' = e by simpa using hr']
                exact hoke
              · intro r' hr'
                rw [htakeM] at hr'
                exact hokm r' hr'
              · intro r' hr'
                rw [hdropX] at hr'
                rw [show r' = xr by simpa using hr']
                exact hokx
      · rw [if_neg hpok] at h
        have hA := attemptDraw_pathA search ofuel pathlen st p0 st1 ha
        exact ih st1 retried p rb hlen (by rw [hA.2.1, hE])
          (fun hf => by rw [hA.2.2.1, hA.2.2.2.1]; exact hF hf)
          (fun ht => by rw [hA.2.2.1, hA.2.2.2.1]; exact hT ht)
          (by rw [hA.1 .e]; exact hRE) (by rw [hA.1 .m]; exact hRM)
          (by rw [hA.1 .x]; exact hRX) h

/-- C1 (amended): every path returned by `build_path(pathlen)` (for
`pathlen ≥ 1`) satisfies every path restriction and has length `pathlen`;
when it was produced without an iterator-exhaustion retry, each hop
satisfies the node-restriction list of the generator for its position
(entry for hop 0, middle for hops `1..pathlen-2`, exit for the last hop —
for `pathlen = 1` the only hop comes from the exit generator); but after a
retry **all** hops are drawn from the entry generator, so every hop is
only guaranteed to satisfy the entry restrictions. -/
theorem claim_C1_build_path (search : String → String → Bool) (ofuel : Nat)
    (gE gM gX : Gen) (pr : List PathRestriction) (pathlen fuel : Nat)
    (tape : List Nat) (p : List Router) (rb : Bool)
    (hlen : 1 ≤ pathlen)
    (h : buildPath search ofuel gE gM gX pr pathlen fuel tape = .okP p rb) :
    PathRestrictionList.path_is_ok pr p = true
    ∧ p.length = pathlen
    ∧ (rb = true → ∀ r ∈ p,
        NodeRestrictionList.r_is_ok search (genRstr gE) r = true)
    ∧ (rb = false →
        (pathlen = 1 → ∀ r ∈ p,
          NodeRestrictionList.r_is_ok search (genRstr gX) r = true)
        ∧ (pathlen ≠ 1 →
          (∀ r ∈ p.take 1,
            NodeRestrictionList.r_is_ok search (genRstr gE) r = true)
          ∧ (∀ r ∈ (p.drop 1).take (pathlen - 2),
            NodeRestrictionList.r_is_ok search (genRstr gM) r = true)
          ∧ (∀ r ∈ p.drop (pathlen - 1),
            NodeRestrictionList.r_is_ok search (genRstr gX) r = true))) := by
  have hmain := buildPathLoop_ok search ofuel pathlen pr
    (genRstr gE) (genRstr gM) (genRstr gX) fuel
    ⟨⟨genRewind search gE, genRewind search gM, genRewind search gX⟩,
     ⟨.e, false⟩, ⟨.m, false⟩, ⟨.x, false⟩, tape⟩ false p rb hlen rfl
    (fun _ => ⟨rfl, rfl⟩) (fun ht => (nomatch ht))
    (genRewind_rstr search gE) (genRewind_rstr search gM) (genRewind_rstr search gX) h
  exact ⟨hmain.2.1, hmain.2.2.1, hmain.2.2.2.1, hmain.2.2.2.2⟩

/-- First router of the C1 counterexample: admissible as entry and middle. -/
def c1A : Router := mkRouter "A" (ipv4 30 0 0 1) 200 ["Mid"]
/-- Second router of the C1 counterexample: admissible as entry only. -/
def c1B : Router := mkRouter "B" (ipv4 30 0 0 2) 100 []

/-- Entry generator of the C1 counterexample: uniform, no restrictions. -/
def c1gE : Gen := .uniform ⟨[c1A, c1B], [c1A, c1B], []⟩
/-- Middle generator: uniform, requires the `Mid` flag (only `c1A`). -/
def c1gM : Gen := .uniform ⟨[c1A, c1B], [c1A, c1B], [.flagsR ["Mid"] []]⟩
/-- Exit generator: ordered for port 80, requires the `Exit` flag (no
router qualifies, so its iterator stops immediately and forces the
retry). -/
def c1gX : Gen := .ordered ⟨80, fun _ => none, 0, [c1A, c1B], [.flagsR ["Exit"] []]⟩

/-- C1 counterexample: with the generators above, the first attempt's exit
draw raises `StopIteration`, `build_path` rewinds and re-binds all three
iterators to the **entry** generator, and then returns the path
`[A, B, A]` — whose middle hop `B` violates the middle generator's
restriction list.  The claim's "each hop satisfies every restriction in
the node-restriction list of the generator for its position … also for
paths produced after an iterator-exhaustion retry" is false on the code. -/
theorem claim_C1_counterexample :
    buildPath searchNone 10 c1gE c1gM c1gX [] 3 5 [0, 0, 0, 1, 0]
      = .okP [c1A, c1B, c1A] true
    ∧ NodeRestrictionList.r_is_ok searchNone (genRstr c1gM) c1B = false := by
  exact ⟨rfl, rfl⟩

/-- C1 witness: the amended theorem applied to the concrete retry run. -/
theorem claim_C1_witness :
    PathRestrictionList.path_is_ok [] [c1A, c1B, c1A] = true
    ∧ ([c1A, c1B, c1A] : List Router).length = 3
    ∧ (∀ r ∈ [c1A, c1B, c1A],
        NodeRestrictionList.r_is_ok searchNone (genRstr c1gE) r = true) := by
  have h := claim_C1_build_path searchNone 10 c1gE c1gM c1gX [] 3 5 [0, 0, 0, 1, 0]
    [c1A, c1B, c1A] true (by omega) rfl
  exact ⟨h.1, h.2.1, h.2.2.1 rfl⟩

/-- The empty uniform generator of the C2 failing input (no routers at
all). -/
def c2g : Gen := .uniform ⟨[], [], []⟩

theorem c2_loop_fuelOut :
    ∀ (fuel : Nat) (retried : Bool) (itM itX : PIter),
      buildPathLoop searchNone 10 3 [] fuel
        ⟨⟨c2g, c2g, c2g⟩, ⟨.e, false⟩, itM, itX, []⟩ retried = .fuelOut := by
  intro fuel
  induction fuel with
  | zero => intro retried itM itX; rfl
  | succ n ih =>
    intro retried itM itX
    have step : buildPathLoop searchNone 10 3 [] (n + 1)
        ⟨⟨c2g, c2g, c2g⟩, ⟨.e, false⟩, itM, itX, []⟩ retried
        = buildPathLoop searchNone 10 3 [] n
            ⟨⟨c2g, c2g, c2g⟩, ⟨.e, false⟩, ⟨.e, false⟩, ⟨.e, false⟩, []⟩ true := rfl
    rw [step]
    exact ih true ⟨.e, false⟩ ⟨.e, false⟩

/-- C2: with an empty candidate pool (no admissible routers at all) and
`pathlen = 3`, `build_path` does **not** terminate: every attempt's entry
draw raises `StopIteration`, the handler rewinds all generators and
retries, and this repeats for any number of loop iterations (`.fuelOut`
for every fuel).  In particular the code never raises `NoRouters`: the
exception class is declared in the source but no code path produces it. -/
theorem claim_C2_no_routers_never_raised :
    ∀ fuel : Nat,
      buildPath searchNone 10 c2g c2g c2g [] 3 fuel [] = .fuelOut
      ∧ buildPath searchNone 10 c2g c2g c2g [] 3 fuel [] ≠ .raised .noRouters
      ∧ (∀ (p : List Router) (rb : Bool),
          buildPath searchNone 10 c2g c2g c2g [] 3 fuel [] ≠ .okP p rb) := by
  intro fuel
  have h : buildPath searchNone 10 c2g c2g c2g [] 3 fuel [] = .fuelOut :=
    c2_loop_fuelOut fuel false ⟨.m, false⟩ ⟨.x, false⟩
  refine ⟨h, ?_, ?_⟩
  · rw [h]
    intro hc
    cases hc
  · intro p rb
    rw [h]
    intro hc
    cases hc

/-! ## Stream/circuit pending-list state machine (claim C8)

The model covers the most derived handler class that runs in a
`StreamHandler`: `StreamHandler.stream_status_event` /
`StreamHandler.attach_stream_any` for stream events and
`CircuitHandler.circ_status_event` / `CircuitHandler.check_circuit_pool`
for circuit events.  Python object aliasing is modelled by keeping deleted
circuits in the table with a `removed` flag: `del self.circuits[key]`
flags the entry, but the object's `pending_streams` list remains
reachable through stream references, exactly as in the source.  A handler
that would raise (`AttributeError` on a `None` pending circuit,
`ValueError` on a missing `list.remove`, `KeyError` on a dict miss)
returns `none`.  Randomised or external choices (which circuit's exit
policy accepts the stream, whether `ATTACHSTREAM` succeeds, which fresh
circuit id Tor assigns) are oracle parameters of each event. -/

/-- The pending-list-relevant fields of a `Circuit` object. -/
structure SCirc where
  built : Bool
  dirty : Bool
  closed : Bool
  removed : Bool
  pending : List Nat
deriving DecidableEq

/-- A fresh `Circuit()` as produced by `Connection.build_circuit`. -/
def SCirc.fresh : SCirc := ⟨false, false, false, false, []⟩

/-- The pending-circuit-relevant fields of a `Stream` object. -/
structure SStream where
  pending_circ : Option Nat
  circ : Option Nat
  detached_from : List Nat
  failed : Bool
deriving DecidableEq

/-- A fresh `Stream(...)`. -/
def SStream.fresh : SStream := ⟨none, none, [], false⟩

/-- Association-list lookup (first matching key, like a dict with unique
keys). -/
def alookup {α : Type} : List (Nat × α) → Nat → Option α
  | [], _ => none
  | (k', v) :: rest, k => if k' = k then some v else alookup rest k

/-- Update the (first) entry with the given key, in place. -/
def aupdate {α : Type} (f : α → α) : List (Nat × α) → Nat → List (Nat × α)
  | [], _ => []
  | (k', v) :: rest, k =>
    if k' = k then (k', f v) :: rest else (k', v) :: aupdate f rest k

/-- Delete the (first) entry with the given key. -/
def aerase {α : Type} : List (Nat × α) → Nat → List (Nat × α)
  | [], _ => []
  | (k', v) :: rest, k => if k' = k then rest else (k', v) :: aerase rest k

/-- The handler state: the `circuits` and `streams` tables, the `new_nym`
flag and the pool size `num_circuits`. -/
structure HState where
  circuits : List (Nat × SCirc)
  streams : List (Nat × SStream)
  new_nym : Bool
  num_circuits : Nat

/-- Update one circuit object. -/
def HState.updC (σ : HState) (k : Nat) (f : SCirc → SCirc) : HState :=
  { σ with circuits := aupdate f σ.circuits k }

/-- Update one stream object. -/
def HState.updS (σ : HState) (k : Nat) (f : SStream → SStream) : HState :=
  { σ with streams := aupdate f σ.streams k }

/-- How many times stream `sid` occurs across the pending lists of the
**tracked** (non-removed) circuits. -/
def countIn : List (Nat × SCirc) → Nat → Nat
  | [], _ => 0
  | (_, c) :: rest, sid =>
    (if c.removed then 0 else c.pending.count sid) + countIn rest sid

/-- The claim's measure on a state. -/
def pendingCountHS (σ : HState) (sid : Nat) : Nat := countIn σ.circuits sid

/-- The one-entry step of the new-nym flush loop (`for key in
self.circuits.keys()`): a tracked, non-dirty circuit with pending streams
has its list moved out and cleared; every tracked circuit is marked
dirty. -/
def flushEntry (kc : Nat × SCirc) : (Nat × SCirc) × List Nat :=
  if kc.2.removed then ((kc.1, kc.2), [])
  else if kc.2.dirty = false ∧ kc.2.pending ≠ [] then
    ((kc.1, { kc.2 with pending := [], dirty := true }), kc.2.pending)
  else ((kc.1, { kc.2 with dirty := true }), [])

/-- The new-nym flush over the whole circuit table, returning the moved
stream ids in iteration order. -/
def flushC : List (Nat × SCirc) → List (Nat × SCirc) × List Nat
  | [] => ([], [])
  | kc :: rest =>
    ((flushEntry kc).1 :: (flushC rest).1, (flushEntry kc).2 ++ (flushC rest).2)

/-- `if self.new_nym: ...` of `attach_stream_any`. -/
def flushNym (σ : HState) : HState × List Nat :=
  ({ σ with circuits := (flushC σ.circuits).1, new_nym := false },
   (flushC σ.circuits).2)

/-- The circuit-selection loop of `StreamHandler.attach_stream_any`:
first circuit (in table order) that is `built`, not `closed`, not in
`badcircs`, not `dirty`, and whose exit accepts the stream's destination
(the oracle `exitOk`). -/
def findCirc : List (Nat × SCirc) → List Nat → (Nat → Bool) → Option Nat
  | [], _, _ => none
  | (k, c) :: rest, bad, exitOk =>
    if c.removed = false ∧ c.built = true ∧ c.closed = false
        ∧ bad.contains k = false ∧ c.dirty = false ∧ exitOk k = true then some k
    else findCirc rest bad exitOk

/-- The oracle of one `attach_stream_any` call: which circuits' exits
accept the stream's destination, whether the `ATTACHSTREAM` command
succeeds, and the circuit id Tor would assign to a newly built circuit. -/
structure AttachO where
  exitOk : Nat → Bool
  cmdOk : Bool
  newCirc : Nat

/-- Largest circuit id in the table. -/
def maxKeyC (m : List (Nat × SCirc)) : Nat :=
  m.foldr (fun kv a => max kv.1 a) 0

/-- The id of a newly built circuit: the oracle's candidate when it is
unused, else a default fresh id.  (Tor never reuses the id of a circuit
the controller still references, so a fresh id is an interface guarantee,
not an extra assumption.) -/
def freshCircId (m : List (Nat × SCirc)) (cand : Nat) : Nat :=
  if alookup m cand = none then cand else maxKeyC m + 1

/-- `StreamHandler.attach_stream_any(stream, badcircs)`: new-nym flush,
then either attach to the first suitable pooled circuit (recording
`pending_circ` and appending to its `pending_streams`; on an `ErrorReply`
from `ATTACHSTREAM` just return), or `create_and_attach`: build a fresh
circuit and make every unattached stream pending on it. -/
def attachAny (σ : HState) (sid : Nat) (bad : List Nat) (o : AttachO) : HState :=
  let fl := if σ.new_nym then flushNym σ else (σ, [])
  let σ1 := fl.1
  let unattached := sid :: fl.2
  match findCirc σ1.circuits bad o.exitOk with
  | some k =>
    if o.cmdOk then
      (σ1.updS sid (fun s => { s with pending_circ := some k })).updC k
        (fun c => { c with pending := c.pending ++ [sid] })
    else σ1
  | none =>
    let nid := freshCircId σ1.circuits o.newCirc
    let σ2 := { σ1 with circuits := σ1.circuits ++ [(nid, SCirc.fresh)] }
    let σ3 := unattached.foldl
      (fun σ u => σ.updS u (fun s => { s with pending_circ := some nid })) σ2
    σ3.updC nid (fun c => { c with pending := c.pending ++ unattached })

/-- The reattachment loop of the `FAILED`/`CLOSED` circuit branch:
`for stream in circ.pending_streams: self.attach_stream_any(stream,
stream.detached_from)`. -/
def reattachLoop (os : Nat → AttachO) : Nat → HState → List Nat → HState
  | _, σ, [] => σ
  | i, σ, u :: us =>
    let bad := ((alookup σ.streams u).map (fun s => s.detached_from)).getD []
    reattachLoop os (i + 1) (attachAny σ u bad (os i)) us

/-- Add freshly built empty circuits (the builds of
`check_circuit_pool`). -/
def addCircs : HState → List Nat → HState
  | σ, [] => σ
  | σ, i :: is =>
    addCircs { σ with circuits := σ.circuits ++ [(freshCircId σ.circuits i, SCirc.fresh)] } is

/-- `CircuitHandler.check_circuit_pool`: build circuits until the pool
holds `num_circuits` of them. -/
def poolFill (σ : HState) (ids : List Nat) : HState :=
  let n := (σ.circuits.filter (fun kv => kv.2.removed = false)).length
  addCircs σ (ids.take (σ.num_circuits - n))

/-- The events of the stream/circuit state machine, with their oracles. -/
inductive HEv where
  | evNew (sid : Nat) (o : AttachO)
  | evDetached (sid : Nat) (circid : Option Nat) (o : AttachO)
  | evSucceeded (sid : Nat) (circid : Option Nat)
  | evStreamFailed (sid : Nat) (circid : Option Nat)
  | evStreamClosed (sid : Nat)
  | evCircFailed (cid : Nat) (os : Nat → AttachO) (poolIds : List Nat)
  | evCircBuilt (cid : Nat)
  | evNewNym
  | evPoolCheck (poolIds : List Nat)

/-- The pending list of the circuit **object** with id `k` (present even
when the dict entry was deleted, mirroring Python references). -/
def pendingObj (σ : HState) (k : Nat) : List Nat :=
  ((alookup σ.circuits k).map (fun c => c.pending)).getD []

/-- One event step.  `none` models an uncaught Python exception inside the
handler. -/
def hstep (σ : HState) : HEv → Option HState
  | .evNew sid o =>
    some (attachAny { σ with streams := σ.streams ++ [(sid, SStream.fresh)] } sid [] o)
  | .evDetached sid circid o =>
    let σ1 := if (alookup σ.streams sid).isSome then σ
      else { σ with streams := σ.streams ++ [(sid, SStream.fresh)] }
    let σ2 := match circid with
      | some c => σ1.updS sid (fun s => { s with detached_from := s.detached_from ++ [c] })
      | none => σ1
    match alookup σ2.streams sid with
    | none => none
    | some s =>
      match s.pending_circ with
      | none => none
      | some pc =>
        let σ3 := σ2.updC pc (fun c => { c with pending := c.pending.erase sid })
        let σ4 := σ3.updS sid (fun s2 => { s2 with pending_circ := none })
        some (attachAny σ4 sid s.detached_from o)
  | .evSucceeded sid circid =>
    match alookup σ.streams sid with
    | none => some σ
    | some s =>
      match s.pending_circ with
      | none => none
      | some pc =>
        let σ1opt : Option HState :=
          match circid with
          | some c =>
            if c ≠ pc then
              match alookup σ.circuits c with
              | some cc =>
                if cc.removed then none
                else some (σ.updS sid (fun s2 => { s2 with circ := some c }))
              | none => none
            else some (σ.updS sid (fun s2 => { s2 with circ := some pc }))
          | none => some (σ.updS sid (fun s2 => { s2 with circ := some pc }))
        match σ1opt with
        | none => none
        | some σ1 =>
          if sid ∈ pendingObj σ1 pc then
            some ((σ1.updC pc (fun c => { c with pending := c.pending.erase sid })).updS
              sid (fun s2 => { s2 with pending_circ := none }))
          else none
  | .evStreamFailed sid circid =>
    match alookup σ.streams sid with
    | none => some σ
    | some _ =>
      let σ1 := σ.updS sid (fun s2 => { s2 with failed := true })
      match circid with
      | some c =>
        match alookup σ1.circuits c with
        | some cc =>
          if cc.removed then some σ1
          else some (σ1.updC c (fun c2 => { c2 with dirty := true }))
        | none => some σ1
      | none => some σ1
  | .evStreamClosed sid =>
    match alookup σ.streams sid with
    | none => some σ
    | some s =>
      match s.pending_circ with
      | none => some { σ with streams := aerase σ.streams sid }
      | some pc =>
        if sid ∈ pendingObj σ pc then
          some { σ.updC pc (fun c => { c with pending := c.pending.erase sid }) with
                 streams := aerase (σ.updC pc
                   (fun c => { c with pending := c.pending.erase sid })).streams sid }
        else none
  | .evCircFailed cid os poolIds =>
    match alookup σ.circuits cid with
    | none => some σ
    | some cc =>
      if cc.removed then some σ
      else
        let σ1 := σ.updC cid (fun c => { c with removed := true })
        let σ2 := reattachLoop os 0 σ1 cc.pending
        some (poolFill σ2 poolIds)
  | .evCircBuilt cid =>
    match alookup σ.circuits cid with
    | none => some σ
    | some cc =>
      if cc.removed then some σ
      else some (σ.updC cid (fun c => { c with built := true }))
  | .evNewNym => some { σ with new_nym := true }
  | .evPoolCheck poolIds => some (poolFill σ poolIds)

/-- The only interface assumption: Tor assigns fresh stream ids, so a
`NEW`/`NEWRESOLVE` event never reuses the id of a stream the handler still
tracks. -/
def EvWF (σ : HState) : HEv → Prop
  | .evNew sid _ => alookup σ.streams sid = none
  | _ => True

/-- States reachable from an initial handler state (empty tables, as built
by `PathBuilder.__init__`; the constructor's `check_circuit_pool` is the
`evPoolCheck` event). -/
inductive ReachHS : HState → Prop where
  | init (n : Nat) : ReachHS ⟨[], [], false, n⟩
  | step (σ σ' : HState) (e : HEv) : ReachHS σ → EvWF σ e → hstep σ e = some σ' →
      ReachHS σ'

/-! ### Association-list and counting lemmas for the C8 invariant -/

/-- Contribution of one circuit object to `countIn`. -/
def contrib (sid : Nat) (c : SCirc) : Nat :=
  if c.removed then 0 else c.pending.count sid

theorem countIn_cons (k : Nat) (c : SCirc) (rest : List (Nat × SCirc)) (sid : Nat) :
    countIn ((k, c) :: rest) sid = contrib sid c + countIn rest sid := rfl

theorem countIn_append (m m' : List (Nat × SCirc)) (sid : Nat) :
    countIn (m ++ m') sid = countIn m sid + countIn m' sid := by
  induction m with
  | nil => simp [countIn]
  | cons kc rest ih =>
    cases kc with
    | mk k c =>
      show countIn ((k, c) :: (rest ++ m')) sid = _
      rw [countIn_cons, ih, countIn_cons]
      omega

theorem countIn_aupdate_le_add (m : List (Nat × SCirc)) (k sid a : Nat)
    (f : SCirc → SCirc) (hf : ∀ c, contrib sid (f c) ≤ contrib sid c + a) :
    countIn (aupdate f m k) sid ≤ countIn m sid + a := by
  induction m with
  | nil => simp [aupdate, countIn]
  | cons kc rest ih =>
    cases kc with
    | mk k' c =>
      by_cases hk : k' = k
      · simp only [aupdate, if_pos hk, countIn]
        have := hf c
        unfold contrib at *
        omega
      · simp only [aupdate, if_neg hk, countIn]
        have := ih
        unfold contrib at *
        omega

theorem countIn_aupdate_eq (m : List (Nat × SCirc)) (k sid : Nat)
    (f : SCirc → SCirc) (hf : ∀ c, contrib sid (f c) = contrib sid c) :
    countIn (aupdate f m k) sid = countIn m sid := by
  induction m with
  | nil => simp [aupdate, countIn]
  | cons kc rest ih =>
    cases kc with
    | mk k' c =>
      by_cases hk : k' = k
      · simp only [aupdate, if_pos hk, countIn]
        have := hf c
        unfold contrib at *
        omega
      · simp only [aupdate, if_neg hk, countIn, ih]

theorem aupdate_map_fst {α : Type} (f : α → α) (m : List (Nat × α)) (k : Nat) :
    (aupdate f m k).map Prod.fst = m.map Prod.fst := by
  induction m with
  | nil => rfl
  | cons kc rest ih =>
    cases kc with
    | mk k' v =>
      by_cases hk : k' = k
      · simp [aupdate, if_pos hk]
      · simp [aupdate, if_neg hk, ih]

theorem alookup_aupdate_self {α : Type} (f : α → α) (m : List (Nat × α)) (k : Nat) :
    alookup (aupdate f m k) k = (alookup m k).map f := by
  induction m with
  | nil => rfl
  | cons kc rest ih =>
    cases kc with
    | mk k' v =>
      by_cases hk : k' = k
      · simp [aupdate, alookup, if_pos hk]
      · simp [aupdate, alookup, if_neg hk, ih]

theorem alookup_aupdate_ne {α : Type} (f : α → α) (m : List (Nat × α)) (k k' : Nat)
    (h : k' ≠ k) : alookup (aupdate f m k) k' = alookup m k' := by
  induction m with
  | nil => rfl
  | cons kc rest ih =>
    cases kc with
    | mk k0 v =>
      by_cases hk : k0 = k
      · have hne : k0 ≠ k' := by omega
        simp [aupdate, alookup, if_pos hk, if_neg hne]
      · by_cases hk' : k0 = k'
        · simp [aupdate, alookup, if_neg hk, if_pos hk']
        · simp [aupdate, alookup, if_neg hk, if_neg hk', ih]

theorem alookup_append_of_none {α : Type} (m m' : List (Nat × α)) (k : Nat)
    (h : alookup m k = none) : alookup (m ++ m') k = alookup m' k := by
  induction m with
  | nil => rfl
  | cons kc rest ih =>
    cases kc with
    | mk k0 v =>
      by_cases hk : k0 = k
      · simp [alookup, if_pos hk] at h
      · simp only [alookup, if_neg hk] at h
        simp [alookup, if_neg hk, ih h]

theorem alookup_append_of_some {α : Type} (m m' : List (Nat × α)) (k : Nat) (v : α)
    (h : alookup m k = some v) : alookup (m ++ m') k = some v := by
  induction m with
  | nil => cases h
  | cons kc rest ih =>
    cases kc with
    | mk k0 w =>
      by_cases hk : k0 = k
      · simp only [alookup, if_pos hk] at h
        simp [alookup, if_pos hk, h]
      · simp only [alookup, if_neg hk] at h
        simp [alookup, if_neg hk, ih h]

theorem alookup_none_iff_not_mem {α : Type} (m : List (Nat × α)) (k : Nat) :
    alookup m k = none ↔ k ∉ m.map Prod.fst := by
  induction m with
  | nil => simp [alookup]
  | cons kc rest ih =>
    cases kc with
    | mk k0 v =>
      by_cases hk : k0 = k
      · simp [alookup, if_pos hk, hk]
      · simp [alookup, if_neg hk, ih, Ne.symm hk]

theorem mem_of_alookup {α : Type} (m : List (Nat × α)) (k : Nat) (v : α)
    (h : alookup m k = some v) : (k, v) ∈ m := by
  induction m with
  | nil => cases h
  | cons kc rest ih =>
    cases kc with
    | mk k0 w =>
      by_cases hk : k0 = k
      · simp only [alookup, if_pos hk] at h
        injection h with hv
        rw [hk, hv]
        exact List.mem_cons_self _ _
      · simp only [alookup, if_neg hk] at h
        exact List.mem_cons_of_mem _ (ih h)

theorem alookup_of_mem_nodup {α : Type} (m : List (Nat × α)) (k : Nat) (v : α)
    (hN : (m.map Prod.fst).Nodup) (h : (k, v) ∈ m) : alookup m k = some v := by
  induction m with
  | nil => cases h
  | cons kc rest ih =>
    cases kc with
    | mk k0 w =>
      simp only [List.map_cons, List.nodup_cons] at hN
      rcases List.mem_cons.1 h with heq | hrest
      · injection heq with h1 h2
        rw [← h1, ← h2]
        simp [alookup]
      · by_cases hk : k0 = k
        · exfalso
          apply hN.1
          rw [hk]
          exact List.mem_map.2 ⟨(k, v), hrest, rfl⟩
        · simp [alookup, if_neg hk, ih hN.2 hrest]

theorem maxKeyC_bound (m : List (Nat × SCirc)) :
    ∀ kc ∈ m, kc.1 ≤ maxKeyC m := by
  induction m with
  | nil => intro kc h; cases h
  | cons kc0 rest ih =>
    intro kc h
    rcases List.mem_cons.1 h with heq | hrest
    · rw [heq]
      simp [maxKeyC]
    · have := ih kc hrest
      simp only [maxKeyC, List.foldr] at *
      omega

theorem freshCircId_fresh (m : List (Nat × SCirc)) (cand : Nat) :
    alookup m (freshCircId m cand) = none := by
  unfold freshCircId
  by_cases h : alookup m cand = none
  · rw [if_pos h]; exact h
  · rw [if_neg h]
    rw [alookup_none_iff_not_mem]
    intro hmem
    rcases List.mem_map.1 hmem with ⟨kc, hkc, hfst⟩
    have := maxKeyC_bound m kc hkc
    omega

theorem countIn_eq_zero_iff (m : List (Nat × SCirc)) (sid : Nat) :
    countIn m sid = 0 ↔ ∀ kc ∈ m, kc.2.removed = false → sid ∉ kc.2.pending := by
  induction m with
  | nil => simp [countIn]
  | cons kc rest ih =>
    cases kc with
    | mk k c =>
      rw [countIn_cons]
      constructor
      · intro h kc' hm hr
        have h1 : contrib sid c = 0 := by omega
        have h2 : countIn rest sid = 0 := by omega
        rcases List.mem_cons.1 hm with heq | hrest
        · have hpend : kc'.2 = c := by rw [heq]
          rw [hpend] at hr ⊢
          unfold contrib at h1
          rw [hr] at h1
          simp at h1
          exact List.count_eq_zero.1 h1
        · exact (ih.1 h2) kc' hrest hr
      · intro h
        have h1 : contrib sid c = 0 := by
          unfold contrib
          by_cases hr : c.removed = true
          · simp [hr]
          · simp only [Bool.not_eq_true] at hr
            rw [hr]
            simp only [Bool.false_eq_true, if_false]
            exact List.count_eq_zero.2 (h (k, c) (List.mem_cons_self _ _) hr)
        have h2 : countIn rest sid = 0 :=
          ih.2 (fun kc' hm hr => h kc' (List.mem_cons_of_mem _ hm) hr)
        omega

theorem count_pending_le_countIn (m : List (Nat × SCirc)) (k sid : Nat) (c : SCirc)
    (hm : (k, c) ∈ m) (hr : c.removed = false) :
    c.pending.count sid ≤ countIn m sid := by
  induction m with
  | nil => cases hm
  | cons kc rest ih =>
    cases kc with
    | mk k0 c0 =>
      rw [countIn_cons]
      rcases List.mem_cons.1 hm with heq | hrest
      · injection heq with h1 h2
        rw [← h2]
        unfold contrib
        rw [← h2] at *
        simp [hr]
      · have := ih hrest
        omega

/-! ### Flush and fold lemmas for the C8 invariant -/

/-- The per-object effect of the new-nym flush. -/
def flushFn (c : SCirc) : SCirc :=
  if c.removed then c
  else if c.dirty = false ∧ c.pending ≠ [] then { c with pending := [], dirty := true }
  else { c with dirty := true }

/-- The stream ids moved out of one object by the flush. -/
def movedFn (c : SCirc) : List Nat :=
  if c.removed then []
  else if c.dirty = false ∧ c.pending ≠ [] then c.pending
  else []

theorem flushEntry_eq (kc : Nat × SCirc) :
    flushEntry kc = ((kc.1, flushFn kc.2), movedFn kc.2) := by
  unfold flushEntry flushFn movedFn
  split_ifs <;> rfl

theorem flushFn_removed (c : SCirc) : (flushFn c).removed = c.removed := by
  unfold flushFn
  split_ifs <;> rfl

theorem flushFn_pending_subset (c : SCirc) :
    ∀ sid ∈ (flushFn c).pending, sid ∈ c.pending := by
  unfold flushFn
  split_ifs <;> intro sid h <;> first | exact h | (simp at h)

theorem flushC_fst_keys (m : List (Nat × SCirc)) :
    ((flushC m).1).map Prod.fst = m.map Prod.fst := by
  induction m with
  | nil => rfl
  | cons kc rest ih =>
    simp [flushC, flushEntry_eq, ih]

theorem alookup_flushC (m : List (Nat × SCirc)) (k : Nat) :
    alookup (flushC m).1 k = (alookup m k).map flushFn := by
  induction m with
  | nil => rfl
  | cons kc rest ih =>
    cases kc with
    | mk k0 c =>
      by_cases hk : k0 = k
      · simp [flushC, flushEntry_eq, alookup, if_pos hk]
      · simp [flushC, flushEntry_eq, alookup, if_neg hk, ih]

theorem flush_contrib (sid : Nat) (c : SCirc) :
    contrib sid (flushFn c) + (movedFn c).count sid = contrib sid c := by
  unfold contrib flushFn movedFn
  by_cases h1 : c.removed
  · simp [h1]
  · simp only [h1, Bool.false_eq_true, if_false]
    by_cases h2 : c.dirty = false ∧ c.pending ≠ []
    · simp [h1, h2]
    · simp [h1, h2]

theorem flushC_count (m : List (Nat × SCirc)) (sid : Nat) :
    countIn (flushC m).1 sid + ((flushC m).2).count sid = countIn m sid := by
  induction m with
  | nil => rfl
  | cons kc rest ih =>
    cases kc with
    | mk k c =>
      simp only [flushC, flushEntry_eq, countIn_cons, List.count_append]
      have := flush_contrib sid c
      omega

theorem flushC_moved_mem (m : List (Nat × SCirc)) (u : Nat)
    (h : u ∈ (flushC m).2) : ∃ kc ∈ m, kc.2.removed = false ∧ u ∈ kc.2.pending := by
  induction m with
  | nil => cases h
  | cons kc rest ih =>
    simp only [flushC, flushEntry_eq, List.mem_append] at h
    rcases h with h1 | h2
    · refine ⟨kc, List.mem_cons_self _ _, ?_⟩
      unfold movedFn at h1
      split_ifs at h1 with hr hd
      · cases h1
      · simp only [Bool.not_eq_true] at hr
        exact ⟨hr, h1⟩
      · cases h1
    · obtain ⟨kc', hm, hp⟩ := ih h2
      exact ⟨kc', List.mem_cons_of_mem _ hm, hp⟩

theorem aupdate_append_fresh {α : Type} (f : α → α) (m : List (Nat × α)) (k : Nat)
    (v : α) (h : alookup m k = none) :
    aupdate f (m ++ [(k, v)]) k = m ++ [(k, f v)] := by
  induction m with
  | nil => simp [aupdate]
  | cons kc rest ih =>
    cases kc with
    | mk k0 w =>
      by_cases hk : k0 = k
      · simp [alookup, if_pos hk] at h
      · simp only [alookup, if_neg hk] at h
        simp [aupdate, if_neg hk, ih h]

/-- The per-stream `pending_circ` assignments of `create_and_attach`. -/
def assignFold (nid : Nat) (us : List Nat) (σ : HState) : HState :=
  us.foldl (fun σ u => σ.updS u (fun s => { s with pending_circ := some nid })) σ

theorem assignFold_circuits (nid : Nat) (us : List Nat) (σ : HState) :
    (assignFold nid us σ).circuits = σ.circuits := by
  induction us generalizing σ with
  | nil => rfl
  | cons u rest ih => exact ih _

theorem assignFold_misc (nid : Nat) (us : List Nat) (σ : HState) :
    (assignFold nid us σ).new_nym = σ.new_nym
    ∧ (assignFold nid us σ).num_circuits = σ.num_circuits := by
  induction us generalizing σ with
  | nil => exact ⟨rfl, rfl⟩
  | cons u rest ih => exact ih _

theorem assignFold_streams_fst (nid : Nat) (us : List Nat) (σ : HState) :
    (assignFold nid us σ).streams.map Prod.fst = σ.streams.map Prod.fst := by
  induction us generalizing σ with
  | nil => rfl
  | cons u rest ih =>
    rw [show assignFold nid (u :: rest) σ
        = assignFold nid rest (σ.updS u (fun s => { s with pending_circ := some nid }))
        from rfl]
    rw [ih]
    exact aupdate_map_fst _ _ _

theorem assignFold_lookup_not_mem (nid : Nat) (us : List Nat) (σ : HState) (u : Nat)
    (hu : u ∉ us) :
    alookup (assignFold nid us σ).streams u = alookup σ.streams u := by
  induction us generalizing σ with
  | nil => rfl
  | cons u0 rest ih =>
    rw [show assignFold nid (u0 :: rest) σ
        = assignFold nid rest (σ.updS u0 (fun s => { s with pending_circ := some nid }))
        from rfl]
    rw [ih _ (fun hc => hu (List.mem_cons_of_mem _ hc))]
    exact alookup_aupdate_ne _ _ _ _ (fun he => hu (he ▸ List.mem_cons_self _ _))

theorem assignFold_isSome (nid : Nat) (us : List Nat) (σ : HState) (u : Nat)
    (hex : (alookup σ.streams u).isSome) :
    (alookup (assignFold nid us σ).streams u).isSome := by
  induction us generalizing σ with
  | nil => exact hex
  | cons u0 rest ih =>
    rw [show assignFold nid (u0 :: rest) σ
        = assignFold nid rest (σ.updS u0 (fun s => { s with pending_circ := some nid }))
        from rfl]
    apply ih
    show (alookup (aupdate _ σ.streams u0) u).isSome
    by_cases hu : u = u0
    · rw [hu, alookup_aupdate_self]
      rw [hu] at hex
      cases hs : alookup σ.streams u0 with
      | none => rw [hs] at hex; cases hex
      | some s => simp
    · rw [alookup_aupdate_ne _ _ _ _ hu]
      exact hex

theorem assignFold_lookup_mem (nid : Nat) (us : List Nat) (σ : HState) (u : Nat)
    (hu : u ∈ us) (hex : (alookup σ.streams u).isSome) :
    ∃ s', alookup (assignFold nid us σ).streams u = some s'
      ∧ s'.pending_circ = some nid := by
  induction us generalizing σ with
  | nil => cases hu
  | cons u0 rest ih =>
    rw [show assignFold nid (u0 :: rest) σ
        = assignFold nid rest (σ.updS u0 (fun s => { s with pending_circ := some nid }))
        from rfl]
    by_cases hr : u ∈ rest
    · apply ih _ hr
      show (alookup (aupdate _ σ.streams u0) u).isSome
      by_cases he : u = u0
      · rw [he, alookup_aupdate_self]
        rw [he] at hex
        cases hs : alookup σ.streams u0 with
        | none => rw [hs] at hex; cases hex
        | some s => simp
      · rw [alookup_aupdate_ne _ _ _ _ he]
        exact hex
    · have he : u = u0 := by
        rcases List.mem_cons.1 hu with h | h
        · exact h
        · exact absurd h hr
      rw [assignFold_lookup_not_mem nid rest _ u hr]
      show ∃ s', alookup (aupdate _ σ.streams u0) u = some s' ∧ _
      rw [he, alookup_aupdate_self]
      rw [he] at hex
      cases hs : alookup σ.streams u0 with
      | none => rw [hs] at hex; cases hex
      | some s => exact ⟨_, rfl, rfl⟩

/-! ### The C8 invariant and its basic preservation lemmas -/

theorem alookup_isSome_iff_mem {α : Type} (m : List (Nat × α)) (k : Nat) :
    (alookup m k).isSome ↔ k ∈ m.map Prod.fst := by
  cases h : alookup m k with
  | none =>
    simp only [Option.isSome_none, Bool.false_eq_true, false_iff]
    exact (alookup_none_iff_not_mem m k).1 h
  | some v =>
    simp only [Option.isSome_some, true_iff]
    exact List.mem_map.2 ⟨(k, v), mem_of_alookup m k v h, rfl⟩

theorem countIn_aupdate_add (f : SCirc → SCirc) (m : List (Nat × SCirc))
    (k u : Nat) (c : SCirc) (h : alookup m k = some c) :
    countIn (aupdate f m k) u + contrib u c = countIn m u + contrib u (f c) := by
  induction m with
  | nil => cases h
  | cons kc rest ih =>
    cases kc with
    | mk k0 c0 =>
      by_cases hk : k0 = k
      · simp only [alookup, if_pos hk] at h
        injection h with hc
        simp only [aupdate, if_pos hk, countIn_cons, ← hc]
        omega
      · simp only [alookup, if_neg hk] at h
        simp only [aupdate, if_neg hk, countIn_cons]
        have := ih h
        omega

theorem mem_aupdate_nodup {α : Type} (f : α → α) (m : List (Nat × α)) (k : Nat)
    (hN : (m.map Prod.fst).Nodup) (kc' : Nat × α) (h : kc' ∈ aupdate f m k) :
    (kc'.1 ≠ k ∧ kc' ∈ m) ∨ (∃ c, alookup m k = some c ∧ kc' = (k, f c)) := by
  induction m with
  | nil => cases h
  | cons kc0 rest ih =>
    cases kc0 with
    | mk k0 c0 =>
      simp only [List.map_cons, List.nodup_cons] at hN
      by_cases hk : k0 = k
      · simp only [aupdate, if_pos hk] at h
        rcases List.mem_cons.1 h with heq | hrest
        · refine Or.inr ⟨c0, by simp [alookup, if_pos hk], ?_⟩
          rw [heq, hk]
        · refine Or.inl ⟨?_, List.mem_cons_of_mem _ hrest⟩
          intro he
          apply hN.1
          rw [hk, ← he]
          exact List.mem_map.2 ⟨kc', hrest, rfl⟩
      · simp only [aupdate, if_neg hk] at h
        rcases List.mem_cons.1 h with heq | hrest
        · refine Or.inl ⟨?_, ?_⟩
          · rw [heq]
            exact hk
          · rw [heq]
            exact List.mem_cons_self _ _
        · rcases ih hN.2 hrest with ⟨hne, hm⟩ | ⟨c, hl, he⟩
          · exact Or.inl ⟨hne, List.mem_cons_of_mem _ hm⟩
          · exact Or.inr ⟨c, by simp [alookup, if_neg hk, hl], he⟩

theorem aerase_map_fst_sublist {α : Type} (m : List (Nat × α)) (k : Nat) :
    ((aerase m k).map Prod.fst).Sublist (m.map Prod.fst) := by
  induction m with
  | nil => simp [aerase]
  | cons kc rest ih =>
    cases kc with
    | mk k0 v =>
      by_cases hk : k0 = k
      · simp only [aerase, if_pos hk, List.map_cons]
        exact (List.sublist_cons_self _ _).trans (List.Sublist.refl _)
      · simp only [aerase, if_neg hk, List.map_cons]
        exact ih.cons₂ _

theorem alookup_aerase_ne {α : Type} (m : List (Nat × α)) (k k' : Nat)
    (h : k' ≠ k) : alookup (aerase m k) k' = alookup m k' := by
  induction m with
  | nil => rfl
  | cons kc rest ih =>
    cases kc with
    | mk k0 v =>
      by_cases hk : k0 = k
      · have hne : k0 ≠ k' := by omega
        simp [aerase, alookup, if_pos hk, if_neg hne]
      · by_cases hk' : k0 = k'
        · simp [aerase, alookup, if_neg hk, if_pos hk']
        · simp [aerase, alookup, if_neg hk, if_neg hk', ih]

/-- The inductive invariant behind claim C8: unique table keys, each stream
in at most one tracked pending list, and every pending entry backed by a
stream whose `pending_circ` points at that circuit. -/
def InvHS (σ : HState) : Prop :=
  (σ.circuits.map Prod.fst).Nodup
  ∧ (σ.streams.map Prod.fst).Nodup
  ∧ (∀ sid, countIn σ.circuits sid ≤ 1)
  ∧ (∀ k c, alookup σ.circuits k = some c → c.removed = false →
      ∀ sid ∈ c.pending, ∃ s, alookup σ.streams sid = some s ∧ s.pending_circ = some k)

theorem countIn_zero_of_stream_none (σ : HState) (hI : InvHS σ) (sid : Nat)
    (h : alookup σ.streams sid = none) : countIn σ.circuits sid = 0 := by
  rw [countIn_eq_zero_iff]
  intro kc hm hr hmem
  obtain ⟨s, hs, _⟩ := hI.2.2.2 kc.1 kc.2
    (alookup_of_mem_nodup _ _ _ hI.1 (by cases kc; exact hm)) hr sid hmem
  rw [h] at hs
  cases hs

theorem countIn_zero_of_pc_none (σ : HState) (hI : InvHS σ) (sid : Nat) (s : SStream)
    (hs : alookup σ.streams sid = some s) (hpc : s.pending_circ = none) :
    countIn σ.circuits sid = 0 := by
  rw [countIn_eq_zero_iff]
  intro kc hm hr hmem
  obtain ⟨s', hs', hpc'⟩ := hI.2.2.2 kc.1 kc.2
    (alookup_of_mem_nodup _ _ _ hI.1 (by cases kc; exact hm)) hr sid hmem
  rw [hs] at hs'
  injection hs' with he
  rw [← he, hpc] at hpc'
  cases hpc'

theorem countIn_erase_self_zero (σ : HState) (hI : InvHS σ) (sid : Nat) (s : SStream)
    (pc : Nat) (hs : alookup σ.streams sid = some s) (hpc : s.pending_circ = some pc) :
    countIn (aupdate (fun c => { c with pending := c.pending.erase sid })
      σ.circuits pc) sid = 0 := by
  rw [countIn_eq_zero_iff]
  intro kc hm hr hmem
  rcases mem_aupdate_nodup _ _ _ hI.1 kc hm with ⟨hne, hm0⟩ | ⟨c, hl, he⟩
  · obtain ⟨s', hs', hpc'⟩ := hI.2.2.2 kc.1 kc.2
      (alookup_of_mem_nodup _ _ _ hI.1 (by cases kc; exact hm0)) hr sid hmem
    rw [hs] at hs'
    injection hs' with he
    rw [← he, hpc] at hpc'
    exact hne (Option.some.inj hpc').symm
  · rw [he] at hr hmem
    simp only at hr hmem
    have hcount : c.pending.count sid ≤ 1 := by
      have h1 := count_pending_le_countIn σ.circuits pc sid c (mem_of_alookup _ _ _ hl) hr
      have h2 := hI.2.2.1 sid
      omega
    have hzero : (c.pending.erase sid).count sid = 0 := by
      rw [List.count_erase_self]
      omega
    have : sid ∉ c.pending.erase sid := by
      intro hin
      exact (List.count_eq_zero.1 hzero) hin
    exact this hmem

theorem inv_derived_unique (σ : HState) (hI : InvHS σ) (sid : Nat) (s : SStream)
    (k : Nat) (hs : alookup σ.streams sid = some s) (hpc : s.pending_circ = some k) :
    ∀ k' c, alookup σ.circuits k' = some c → c.removed = false → k' ≠ k →
      sid ∉ c.pending := by
  intro k' c hk' hr hne hmem
  obtain ⟨s', hs', hpc'⟩ := hI.2.2.2 k' c hk' hr sid hmem
  rw [hs] at hs'
  injection hs' with he
  rw [← he, hpc] at hpc'
  exact hne (Option.some.inj hpc').symm

theorem inv_updS_irrel (σ : HState) (sid : Nat) (f : SStream → SStream)
    (hf : ∀ s, (f s).pending_circ = s.pending_circ) (hI : InvHS σ) :
    InvHS (σ.updS sid f) := by
  refine ⟨hI.1, ?_, hI.2.2.1, ?_⟩
  · show ((aupdate f σ.streams sid).map Prod.fst).Nodup
    rw [aupdate_map_fst]
    exact hI.2.1
  · intro k c hk hr u hmem
    obtain ⟨s, hs, hpc⟩ := hI.2.2.2 k c hk hr u hmem
    by_cases hu : u = sid
    · refine ⟨f s, ?_, ?_⟩
      · show alookup (aupdate f σ.streams sid) u = some (f s)
        rw [hu] at hs
        rw [hu, alookup_aupdate_self, hs]
        rfl
      · rw [hf s]
        exact hpc
    · refine ⟨s, ?_, hpc⟩
      show alookup (aupdate f σ.streams sid) u = some s
      rw [alookup_aupdate_ne _ _ _ _ hu]
      exact hs

theorem inv_updS_nopending (σ : HState) (sid : Nat) (f : SStream → SStream)
    (hz : countIn σ.circuits sid = 0) (hI : InvHS σ) : InvHS (σ.updS sid f) := by
  refine ⟨hI.1, ?_, hI.2.2.1, ?_⟩
  · show ((aupdate f σ.streams sid).map Prod.fst).Nodup
    rw [aupdate_map_fst]
    exact hI.2.1
  · intro k c hk hr u hmem
    by_cases hu : u = sid
    · exfalso
      have h1 := count_pending_le_countIn σ.circuits k u c (mem_of_alookup _ _ _ hk) hr
      have h2 : c.pending.count u ≠ 0 := fun h0 => (List.count_eq_zero.1 h0) hmem
      rw [hu] at h1 h2
      omega
    · obtain ⟨s, hs, hpc⟩ := hI.2.2.2 k c hk hr u hmem
      refine ⟨s, ?_, hpc⟩
      show alookup (aupdate f σ.streams sid) u = some s
      rw [alookup_aupdate_ne _ _ _ _ hu]
      exact hs

theorem inv_updC_irrel (σ : HState) (k : Nat) (f : SCirc → SCirc)
    (hf : ∀ c, (f c).pending = c.pending ∧ (f c).removed = c.removed)
    (hI : InvHS σ) : InvHS (σ.updC k f) := by
  refine ⟨?_, hI.2.1, ?_, ?_⟩
  · show ((aupdate f σ.circuits k).map Prod.fst).Nodup
    rw [aupdate_map_fst]
    exact hI.1
  · intro sid
    show countIn (aupdate f σ.circuits k) sid ≤ 1
    have := countIn_aupdate_eq σ.circuits k sid f (fun c => by
      unfold contrib
      rw [(hf c).1, (hf c).2])
    rw [this]
    exact hI.2.2.1 sid
  · intro k' c hk' hr u hmem
    by_cases hk : k' = k
    · rw [hk] at hk'
      show ∃ s, alookup σ.streams u = some s ∧ s.pending_circ = some k'
      rw [show alookup (σ.updC k f).circuits k = alookup (aupdate f σ.circuits k) k
          from rfl, alookup_aupdate_self] at hk'
      cases hc0 : alookup σ.circuits k with
      | none => rw [hc0] at hk'; cases hk'
      | some c0 =>
        rw [hc0] at hk'
        injection hk' with he
        rw [← he, (hf c0).1] at hmem
        rw [← he, (hf c0).2] at hr
        rw [hk]
        exact hI.2.2.2 k c0 hc0 hr u hmem
    · show ∃ s, alookup σ.streams u = some s ∧ s.pending_circ = some k'
      rw [show alookup (σ.updC k f).circuits k' = alookup (aupdate f σ.circuits k) k'
          from rfl, alookup_aupdate_ne _ _ _ _ hk] at hk'
      exact hI.2.2.2 k' c hk' hr u hmem

theorem inv_remove_erase (σ : HState) (sid : Nat) (s : SStream) (pc : Nat)
    (hI : InvHS σ) (hs : alookup σ.streams sid = some s)
    (hpc : s.pending_circ = some pc) :
    InvHS (σ.updC pc (fun c => { c with pending := c.pending.erase sid }))
    ∧ countIn (σ.updC pc (fun c => { c with pending := c.pending.erase sid })).circuits
        sid = 0 := by
  constructor
  · refine ⟨?_, hI.2.1, ?_, ?_⟩
    · show ((aupdate _ σ.circuits pc).map Prod.fst).Nodup
      rw [aupdate_map_fst]
      exact hI.1
    · intro u
      show countIn (aupdate _ σ.circuits pc) u ≤ 1
      have := countIn_aupdate_le_add σ.circuits pc u 0
        (fun c => { c with pending := c.pending.erase sid }) (fun c => by
        unfold contrib
        by_cases hrm : c.removed = true
        · simp [hrm]
        · rw [Bool.not_eq_true] at hrm
          simp only [hrm, Bool.false_eq_true, if_false]
          have := (List.erase_sublist sid c.pending).count_le u
          omega)
      have h2 := hI.2.2.1 u
      omega
    · intro k' c hk' hr u hmem
      by_cases hk : k' = pc
      · rw [hk] at hk'
        show ∃ s2, alookup σ.streams u = some s2 ∧ s2.pending_circ = some k'
        rw [show alookup (σ.updC pc _).circuits pc = alookup (aupdate _ σ.circuits pc) pc
            from rfl, alookup_aupdate_self] at hk'
        cases hc0 : alookup σ.circuits pc with
        | none => rw [hc0] at hk'; cases hk'
        | some c0 =>
          rw [hc0] at hk'
          injection hk' with he
          rw [← he] at hmem hr
          rw [hk]
          exact hI.2.2.2 pc c0 hc0 hr u (List.mem_of_mem_erase hmem)
      · show ∃ s2, alookup σ.streams u = some s2 ∧ s2.pending_circ = some k'
        rw [show alookup (σ.updC pc _).circuits k' = alookup (aupdate _ σ.circuits pc) k'
            from rfl, alookup_aupdate_ne _ _ _ _ hk] at hk'
        exact hI.2.2.2 k' c hk' hr u hmem
  · exact countIn_erase_self_zero σ hI sid s pc hs hpc

theorem inv_aerase_stream (σ : HState) (sid : Nat)
    (hz : countIn σ.circuits sid = 0) (hI : InvHS σ) :
    InvHS { σ with streams := aerase σ.streams sid } := by
  refine ⟨hI.1, ?_, hI.2.2.1, ?_⟩
  · exact hI.2.1.sublist (aerase_map_fst_sublist _ _)
  · intro k c hk hr u hmem
    by_cases hu : u = sid
    · exfalso
      have h1 := count_pending_le_countIn σ.circuits k u c (mem_of_alookup _ _ _ hk) hr
      have h2 : c.pending.count u ≠ 0 := fun h0 => (List.count_eq_zero.1 h0) hmem
      rw [hu] at h1 h2
      omega
    · obtain ⟨s, hs, hpc⟩ := hI.2.2.2 k c hk hr u hmem
      refine ⟨s, ?_, hpc⟩
      show alookup (aerase σ.streams sid) u = some s
      rw [alookup_aerase_ne _ _ _ hu]
      exact hs

theorem inv_append_stream (σ : HState) (sid : Nat) (v : SStream)
    (hn : alookup σ.streams sid = none) (hI : InvHS σ) :
    InvHS { σ with streams := σ.streams ++ [(sid, v)] } := by
  refine ⟨hI.1, ?_, hI.2.2.1, ?_⟩
  · show ((σ.streams ++ [(sid, v)]).map Prod.fst).Nodup
    rw [List.map_append]
    rw [List.nodup_append]
    refine ⟨hI.2.1, List.nodup_singleton _, ?_⟩
    intro a ha hb
    simp only [List.map_cons, List.map_nil, List.mem_singleton] at hb
    rw [hb] at ha
    exact (alookup_none_iff_not_mem _ _).1 hn ha
  · intro k c hk hr u hmem
    obtain ⟨s, hs, hpc⟩ := hI.2.2.2 k c hk hr u hmem
    exact ⟨s, alookup_append_of_some _ _ _ _ hs, hpc⟩

theorem findCirc_mem (m : List (Nat × SCirc)) (bad : List Nat) (ex : Nat → Bool)
    (k : Nat) (h : findCirc m bad ex = some k) :
    ∃ c, (k, c) ∈ m ∧ c.removed = false := by
  induction m with
  | nil => simp [findCirc] at h
  | cons kc rest ih =>
    cases kc with
    | mk k0 c0 =>
      rw [show findCirc ((k0, c0) :: rest) bad ex
          = if c0.removed = false ∧ c0.built = true ∧ c0.closed = false
              ∧ bad.contains k0 = false ∧ c0.dirty = false ∧ ex k0 = true then some k0
            else findCirc rest bad ex from rfl] at h
      by_cases hp : c0.removed = false ∧ c0.built = true ∧ c0.closed = false
          ∧ bad.contains k0 = false ∧ c0.dirty = false ∧ ex k0 = true
      · rw [if_pos hp] at h
        injection h with he
        exact ⟨c0, by rw [← he]; exact List.mem_cons_self _ _, hp.1⟩
      · rw [if_neg hp] at h
        obtain ⟨c, hm, hr⟩ := ih h
        exact ⟨c, List.mem_cons_of_mem _ hm, hr⟩

theorem flushNym_inv (σ : HState) (hI : InvHS σ) :
    InvHS (flushNym σ).1
    ∧ (flushNym σ).1.streams = σ.streams
    ∧ (∀ u, countIn (flushNym σ).1.circuits u + ((flushNym σ).2).count u
        = countIn σ.circuits u)
    ∧ (∀ u ∈ (flushNym σ).2, (alookup σ.streams u).isSome)
    ∧ ((flushNym σ).2).Nodup := by
  have hcnt : ∀ u, countIn (flushC σ.circuits).1 u
      + ((flushC σ.circuits).2).count u = countIn σ.circuits u :=
    fun u => flushC_count σ.circuits u
  refine ⟨⟨?_, hI.2.1, ?_, ?_⟩, rfl, hcnt, ?_, ?_⟩
  · show ((flushC σ.circuits).1.map Prod.fst).Nodup
    rw [flushC_fst_keys]
    exact hI.1
  · intro u
    show countIn (flushC σ.circuits).1 u ≤ 1
    have h1 := hcnt u
    have h2 := hI.2.2.1 u
    omega
  · intro k c hk hr u hmem
    rw [show (flushNym σ).1.circuits = (flushC σ.circuits).1 from rfl,
      alookup_flushC] at hk
    cases hc0 : alookup σ.circuits k with
    | none => rw [hc0] at hk; cases hk
    | some c0 =>
      rw [hc0] at hk
      injection hk with he
      rw [← he] at hr hmem
      have hr0 : c0.removed = false := by rw [flushFn_removed] at hr; exact hr
      exact hI.2.2.2 k c0 hc0 hr0 u (flushFn_pending_subset c0 u hmem)
  · intro u hu
    obtain ⟨kc, hkcm, hkr, hkp⟩ := flushC_moved_mem σ.circuits u hu
    obtain ⟨s, hsu, _⟩ := hI.2.2.2 kc.1 kc.2
      (alookup_of_mem_nodup _ _ _ hI.1 (by cases kc; exact hkcm)) hkr u hkp
    rw [hsu]
    rfl
  · rw [List.nodup_iff_count_le_one]
    intro u
    show List.count u (flushC σ.circuits).2 ≤ 1
    have h1 := hcnt u
    have h2 := hI.2.2.1 u
    omega

/-- The body of `attach_stream_any` after the new-nym flush: `σ1` is the
flushed state and `moved` the streams whose pending lists the flush
cleared. -/
def attachCore (σ1 : HState) (sid : Nat) (bad : List Nat) (o : AttachO)
    (moved : List Nat) : HState :=
  let unattached := sid :: moved
  match findCirc σ1.circuits bad o.exitOk with
  | some k =>
    if o.cmdOk then
      (σ1.updS sid (fun s => { s with pending_circ := some k })).updC k
        (fun c => { c with pending := c.pending ++ [sid] })
    else σ1
  | none =>
    let nid := freshCircId σ1.circuits o.newCirc
    let σ2 := { σ1 with circuits := σ1.circuits ++ [(nid, SCirc.fresh)] }
    let σ3 := unattached.foldl
      (fun σ u => σ.updS u (fun s => { s with pending_circ := some nid })) σ2
    σ3.updC nid (fun c => { c with pending := c.pending ++ unattached })

theorem attachAny_eq_core (σ : HState) (sid : Nat) (bad : List Nat) (o : AttachO) :
    attachAny σ sid bad o
      = attachCore (if σ.new_nym then flushNym σ else (σ, [])).1 sid bad o
          (if σ.new_nym then flushNym σ else (σ, [])).2 := rfl

theorem attachCore_eq_found (σ1 : HState) (sid : Nat) (bad : List Nat) (o : AttachO)
    (moved : List Nat) (k : Nat) (hfc : findCirc σ1.circuits bad o.exitOk = some k) :
    attachCore σ1 sid bad o moved
      = if o.cmdOk then
          (σ1.updS sid (fun s => { s with pending_circ := some k })).updC k
            (fun c => { c with pending := c.pending ++ [sid] })
        else σ1 := by
  unfold attachCore
  rw [hfc]

theorem attachCore_eq_none (σ1 : HState) (sid : Nat) (bad : List Nat) (o : AttachO)
    (moved : List Nat) (hfc : findCirc σ1.circuits bad o.exitOk = none) :
    attachCore σ1 sid bad o moved
      = (assignFold (freshCircId σ1.circuits o.newCirc) (sid :: moved)
          { σ1 with circuits := σ1.circuits
              ++ [(freshCircId σ1.circuits o.newCirc, SCirc.fresh)] }).updC
          (freshCircId σ1.circuits o.newCirc)
          (fun c => { c with pending := c.pending ++ (sid :: moved) }) := by
  unfold attachCore assignFold
  rw [hfc]

/-- The state built by the `create_and_attach` branch. -/
def buildAttach (σ1 : HState) (sid nid : Nat) (moved : List Nat) : HState :=
  (assignFold nid (sid :: moved)
    { σ1 with circuits := σ1.circuits ++ [(nid, SCirc.fresh)] }).updC nid
    (fun c => { c with pending := c.pending ++ (sid :: moved) })

/-- The circuit object created by `create_and_attach`, after its pending
list has been extended with the unattached streams. -/
def newCircObj (sid : Nat) (moved : List Nat) : SCirc :=
  ⟨false, false, false, false, sid :: moved⟩

theorem buildAttach_circuits (σ1 : HState) (sid nid : Nat) (moved : List Nat)
    (hfresh : alookup σ1.circuits nid = none) :
    (buildAttach σ1 sid nid moved).circuits
      = σ1.circuits ++ [(nid, newCircObj sid moved)] := by
  show aupdate _ (assignFold nid (sid :: moved)
    { σ1 with circuits := σ1.circuits ++ [(nid, SCirc.fresh)] }).circuits nid = _
  rw [assignFold_circuits]
  show aupdate _ (σ1.circuits ++ [(nid, SCirc.fresh)]) nid = _
  rw [aupdate_append_fresh _ _ _ _ hfresh]
  rfl

theorem attachBuild_inv (σ1 : HState) (sid nid : Nat) (moved : List Nat)
    (hI : InvHS σ1) (hs : (alookup σ1.streams sid).isSome)
    (hz : countIn σ1.circuits sid = 0)
    (hmv : ∀ u ∈ moved, (alookup σ1.streams u).isSome ∧ countIn σ1.circuits u = 0)
    (hmvN : moved.Nodup) (hsid : sid ∉ moved)
    (hfresh : alookup σ1.circuits nid = none) :
    InvHS (buildAttach σ1 sid nid moved)
    ∧ (buildAttach σ1 sid nid moved).streams.map Prod.fst = σ1.streams.map Prod.fst
    ∧ (∀ u, u ≠ sid → u ∉ moved → countIn σ1.circuits u = 0 →
        countIn (buildAttach σ1 sid nid moved).circuits u = 0) := by
  have hcirc := buildAttach_circuits σ1 sid nid moved hfresh
  have hcount : ∀ u, countIn (buildAttach σ1 sid nid moved).circuits u
      = countIn σ1.circuits u + List.count u (sid :: moved) := by
    intro u
    rw [hcirc, countIn_append, countIn_cons]
    simp [contrib, countIn, newCircObj]
  refine ⟨⟨?_, ?_, ?_, ?_⟩, ?_, ?_⟩
  · rw [hcirc, List.map_append, List.nodup_append]
    refine ⟨hI.1, List.nodup_singleton _, ?_⟩
    intro a ha hb
    simp only [List.map_cons, List.map_nil, List.mem_singleton] at hb
    rw [hb] at ha
    exact (alookup_none_iff_not_mem _ _).1 hfresh ha
  · show ((assignFold nid (sid :: moved)
      { σ1 with circuits := σ1.circuits ++ [(nid, SCirc.fresh)] }).streams.map
        Prod.fst).Nodup
    rw [assignFold_streams_fst]
    exact hI.2.1
  · intro u
    rw [hcount]
    by_cases hu : u = sid
    · subst hu
      have e1 : List.count u (u :: moved) = List.count u moved + 1 :=
        List.count_cons_self _ _
      have e2 : List.count u moved = 0 := List.count_eq_zero.2 hsid
      omega
    · have e1 : List.count u (sid :: moved) = List.count u moved := by
        rw [List.count_cons]
        have hsu : ¬ sid = u := fun h => hu h.symm
        simp [hu, hsu]
      by_cases hm : u ∈ moved
      · have e2 := (hmv u hm).2
        have e3 := List.nodup_iff_count_le_one.1 hmvN u
        omega
      · have e2 : List.count u moved = 0 := List.count_eq_zero.2 hm
        have e3 := hI.2.2.1 u
        omega
  · intro k' c'' hk' hr'' u hmem
    have hk'2 : alookup (σ1.circuits ++ [(nid, newCircObj sid moved)]) k'
        = some c'' := by
      rw [← hcirc]
      exact hk'
    show ∃ s, alookup (assignFold nid (sid :: moved)
      { σ1 with circuits := σ1.circuits ++ [(nid, SCirc.fresh)] }).streams u
        = some s ∧ s.pending_circ = some k'
    by_cases hkn : k' = nid
    · subst hkn
      rw [alookup_append_of_none _ _ _ hfresh] at hk'2
      rw [show alookup [(k', newCircObj sid moved)] k' = some (newCircObj sid moved)
          from by simp [alookup]] at hk'2
      injection hk'2 with he
      rw [← he] at hmem
      have hmem2 : u ∈ sid :: moved := hmem
      have hus : (alookup { σ1 with circuits := σ1.circuits
          ++ [(k', SCirc.fresh)] }.streams u).isSome := by
        show (alookup σ1.streams u).isSome
        rcases List.mem_cons.1 hmem2 with h | h
        · rw [h]
          exact hs
        · exact (hmv u h).1
      obtain ⟨s', hlk, hpc⟩ := assignFold_lookup_mem k' (sid :: moved) _ u hmem2 hus
      exact ⟨s', hlk, hpc⟩
    · have hc1 : ∃ c1, alookup σ1.circuits k' = some c1 := by
        cases hc : alookup σ1.circuits k' with
        | none =>
          rw [alookup_append_of_none _ _ _ hc] at hk'2
          have hnk : ¬ nid = k' := fun h => hkn h.symm
          rw [show alookup [(nid, newCircObj sid moved)] k' = none from by
            simp [alookup, hnk]] at hk'2
          cases hk'2
        | some c1 => exact ⟨c1, rfl⟩
      obtain ⟨c1, hc1⟩ := hc1
      rw [alookup_append_of_some _ _ _ _ hc1] at hk'2
      injection hk'2 with he
      rw [← he] at hr'' hmem
      have hu : u ∉ sid :: moved := by
        intro hin
        have h1 := count_pending_le_countIn σ1.circuits k' u c1
          (mem_of_alookup _ _ _ hc1) hr''
        have h2 : c1.pending.count u ≠ 0 := fun h0 => (List.count_eq_zero.1 h0) hmem
        rcases List.mem_cons.1 hin with h | h
        · rw [h] at h1 h2
          omega
        · have := (hmv u h).2
          omega
      obtain ⟨s, hsu, hpc⟩ := hI.2.2.2 k' c1 hc1 hr'' u hmem
      refine ⟨s, ?_, hpc⟩
      rw [assignFold_lookup_not_mem _ _ _ _ hu]
      exact hsu
  · show (assignFold nid (sid :: moved)
      { σ1 with circuits := σ1.circuits ++ [(nid, SCirc.fresh)] }).streams.map
        Prod.fst = σ1.streams.map Prod.fst
    rw [assignFold_streams_fst]
  · intro u hu hum hz'
    rw [hcount]
    have e1 : List.count u (sid :: moved) = 0 := by
      apply List.count_eq_zero.2
      intro h
      rcases List.mem_cons.1 h with h | h
      · exact hu h
      · exact hum h
    omega

/-- The state built by the attach-to-pooled-circuit branch. -/
def foundAttach (σ1 : HState) (sid k : Nat) : HState :=
  (σ1.updS sid (fun s => { s with pending_circ := some k })).updC k
    (fun c => { c with pending := c.pending ++ [sid] })

theorem attachFound_inv (σ1 : HState) (sid k : Nat) (hI : InvHS σ1)
    (hs : (alookup σ1.streams sid).isSome)
    (hz : countIn σ1.circuits sid = 0)
    (c : SCirc) (hkc : alookup σ1.circuits k = some c) (hcr : c.removed = false) :
    InvHS (foundAttach σ1 sid k)
    ∧ (foundAttach σ1 sid k).streams.map Prod.fst = σ1.streams.map Prod.fst
    ∧ (∀ u, u ≠ sid → countIn σ1.circuits u = 0 →
        countIn (foundAttach σ1 sid k).circuits u = 0) := by
  obtain ⟨s0, hs0⟩ := Option.isSome_iff_exists.1 hs
  have hc0 : c.pending.count sid = 0 := by
    have h1 := count_pending_le_countIn σ1.circuits k sid c
      (mem_of_alookup _ _ _ hkc) hcr
    omega
  have hadd : ∀ u, countIn (aupdate (fun c2 => { c2 with pending := c2.pending ++ [sid] })
      σ1.circuits k) u + contrib u c
      = countIn σ1.circuits u
        + contrib u { c with pending := c.pending ++ [sid] } :=
    fun u => countIn_aupdate_add _ _ _ _ _ hkc
  have hconEq : ∀ u, u ≠ sid →
      contrib u { c with pending := c.pending ++ [sid] } = contrib u c := by
    intro u hu
    have hsu : ¬ sid = u := fun h => hu h.symm
    unfold contrib
    simp [hcr, List.count_append, List.count_cons, hu, hsu]
  have hconS : contrib sid { c with pending := c.pending ++ [sid] }
      = contrib sid c + 1 := by
    unfold contrib
    simp [hcr, List.count_append, List.count_cons]
  have hcontS0 : contrib sid c = 0 := by
    unfold contrib
    rw [hcr]
    simp [hc0]
  refine ⟨⟨?_, ?_, ?_, ?_⟩, ?_, ?_⟩
  · show ((aupdate _ σ1.circuits k).map Prod.fst).Nodup
    rw [aupdate_map_fst]
    exact hI.1
  · show ((aupdate _ σ1.streams sid).map Prod.fst).Nodup
    rw [aupdate_map_fst]
    exact hI.2.1
  · intro u
    show countIn (aupdate _ σ1.circuits k) u ≤ 1
    have h1 := hadd u
    have h2 := hI.2.2.1 u
    by_cases hu : u = sid
    · subst hu
      rw [hconS, hcontS0] at h1
      omega
    · rw [hconEq u hu] at h1
      omega
  · intro k' c'' hk' hr'' u hmem
    have hk'2 : alookup (aupdate (fun c2 => { c2 with pending := c2.pending ++ [sid] })
        σ1.circuits k) k' = some c'' := hk'
    show ∃ s, alookup (aupdate (fun s => { s with pending_circ := some k })
      σ1.streams sid) u = some s ∧ s.pending_circ = some k'
    by_cases hkk : k' = k
    · subst hkk
      rw [alookup_aupdate_self, hkc] at hk'2
      injection hk'2 with he
      rw [← he] at hmem
      have hmem2 : u ∈ c.pending ++ [sid] := hmem
      by_cases hu : u = sid
      · subst hu
        refine ⟨{ s0 with pending_circ := some k' }, ?_, rfl⟩
        rw [alookup_aupdate_self, hs0]
        rfl
      · have hmem3 : u ∈ c.pending := by
          rcases List.mem_append.1 hmem2 with h | h
          · exact h
          · exact absurd (List.mem_singleton.1 h) hu
        obtain ⟨s, hsu, hpc⟩ := hI.2.2.2 k' c hkc hcr u hmem3
        refine ⟨s, ?_, hpc⟩
        rw [alookup_aupdate_ne _ _ _ _ hu]
        exact hsu
    · rw [alookup_aupdate_ne _ _ _ _ hkk] at hk'2
      have hu : u ≠ sid := by
        intro he
        have h1 := count_pending_le_countIn σ1.circuits k' u c''
          (mem_of_alookup _ _ _ hk'2) hr''
        have h2 : c''.pending.count u ≠ 0 := fun h0 => (List.count_eq_zero.1 h0) hmem
        rw [he] at h1 h2
        omega
      obtain ⟨s, hsu, hpc⟩ := hI.2.2.2 k' c'' hk'2 hr'' u hmem
      refine ⟨s, ?_, hpc⟩
      rw [alookup_aupdate_ne _ _ _ _ hu]
      exact hsu
  · show (aupdate _ σ1.streams sid).map Prod.fst = σ1.streams.map Prod.fst
    exact aupdate_map_fst _ _ _
  · intro u hu hz'
    show countIn (aupdate _ σ1.circuits k) u = 0
    have h1 := hadd u
    rw [hconEq u hu] at h1
    omega

theorem attachCore_inv (σ1 : HState) (sid : Nat) (bad : List Nat) (o : AttachO)
    (moved : List Nat) (hI : InvHS σ1)
    (hs : (alookup σ1.streams sid).isSome)
    (hz : countIn σ1.circuits sid = 0)
    (hmv : ∀ u ∈ moved, (alookup σ1.streams u).isSome ∧ countIn σ1.circuits u = 0)
    (hmvN : moved.Nodup) (hsid : sid ∉ moved) :
    InvHS (attachCore σ1 sid bad o moved)
    ∧ (attachCore σ1 sid bad o moved).streams.map Prod.fst
        = σ1.streams.map Prod.fst
    ∧ (∀ u, u ≠ sid → u ∉ moved → countIn σ1.circuits u = 0 →
        countIn (attachCore σ1 sid bad o moved).circuits u = 0) := by
  cases hfc : findCirc σ1.circuits bad o.exitOk with
  | none =>
    rw [attachCore_eq_none _ _ _ _ _ hfc]
    have hfresh := freshCircId_fresh σ1.circuits o.newCirc
    exact attachBuild_inv σ1 sid _ moved hI hs hz hmv hmvN hsid hfresh
  | some k =>
    rw [attachCore_eq_found _ _ _ _ _ _ hfc]
    cases hcmd : o.cmdOk with
    | false =>
      simp only [Bool.false_eq_true, if_false]
      exact ⟨hI, by trivial, fun u _ _ hz' => hz'⟩
    | true =>
      rw [if_pos rfl]
      obtain ⟨c, hmemc, hcr⟩ := findCirc_mem σ1.circuits bad o.exitOk k hfc
      have hkc := alookup_of_mem_nodup _ _ _ hI.1 hmemc
      have hF := attachFound_inv σ1 sid k hI hs hz c hkc hcr
      exact ⟨hF.1, hF.2.1, fun u hu _ hz' => hF.2.2 u hu hz'⟩

theorem attachAny_inv (σ : HState) (sid : Nat) (bad : List Nat) (o : AttachO)
    (hI : InvHS σ) (hs : (alookup σ.streams sid).isSome)
    (hz : countIn σ.circuits sid = 0) :
    InvHS (attachAny σ sid bad o)
    ∧ (attachAny σ sid bad o).streams.map Prod.fst = σ.streams.map Prod.fst
    ∧ (∀ u, u ≠ sid → countIn σ.circuits u = 0 →
        countIn (attachAny σ sid bad o).circuits u = 0) := by
  rw [attachAny_eq_core]
  by_cases hnym : σ.new_nym = true
  · rw [if_pos hnym]
    obtain ⟨hI1, hstr, hcnt, hmvS, hmvN⟩ := flushNym_inv σ hI
    have hzf : ∀ u, countIn σ.circuits u = 0 →
        countIn (flushNym σ).1.circuits u = 0 := by
      intro u h
      have := hcnt u
      omega
    have hnm : ∀ u, countIn σ.circuits u = 0 → u ∉ (flushNym σ).2 := by
      intro u h hu
      have h1 := hcnt u
      have h2 : List.count u (flushNym σ).2 ≠ 0 :=
        fun h0 => (List.count_eq_zero.1 h0) hu
      omega
    have hC := attachCore_inv (flushNym σ).1 sid bad o (flushNym σ).2 hI1
      (by rw [hstr]; exact hs) (hzf sid hz)
      (fun u hu => ⟨by rw [hstr]; exact hmvS u hu, by
        have h1 := hcnt u
        have h2 : List.count u (flushNym σ).2 ≠ 0 :=
          fun h0 => (List.count_eq_zero.1 h0) hu
        have h3 := hI.2.2.1 u
        omega⟩)
      hmvN (hnm sid hz)
    refine ⟨hC.1, ?_, ?_⟩
    · rw [hC.2.1, hstr]
    · intro u hu hz'
      exact hC.2.2 u hu (hnm u hz') (hzf u hz')
  · rw [Bool.not_eq_true] at hnym
    rw [hnym]
    simp only [Bool.false_eq_true, if_false]
    have hC := attachCore_inv σ sid bad o [] hI hs hz
      (fun u hu => absurd hu (List.not_mem_nil u)) List.nodup_nil
      (List.not_mem_nil sid)
    exact ⟨hC.1, hC.2.1, fun u hu hz' => hC.2.2 u hu (List.not_mem_nil u) hz'⟩

theorem isSome_of_fst_eq {α : Type} (m m' : List (Nat × α))
    (h : m'.map Prod.fst = m.map Prod.fst) (k : Nat)
    (hk : (alookup m k).isSome) : (alookup m' k).isSome := by
  rw [alookup_isSome_iff_mem, h, ← alookup_isSome_iff_mem]
  exact hk

theorem reattachLoop_inv (os : Nat → AttachO) (us : List Nat) :
    ∀ (i : Nat) (σ : HState), InvHS σ → us.Nodup →
    (∀ u ∈ us, countIn σ.circuits u = 0 ∧ (alookup σ.streams u).isSome) →
    InvHS (reattachLoop os i σ us) := by
  induction us with
  | nil => intro i σ hI _ _; exact hI
  | cons u0 rest ih =>
    intro i σ hI hN h
    show InvHS (reattachLoop os (i + 1)
      (attachAny σ u0 (((alookup σ.streams u0).map
        (fun s => s.detached_from)).getD []) (os i)) rest)
    obtain ⟨hz0, hs0⟩ := h u0 (List.mem_cons_self _ _)
    have hAA := attachAny_inv σ u0 (((alookup σ.streams u0).map
      (fun s => s.detached_from)).getD []) (os i) hI hs0 hz0
    rw [List.nodup_cons] at hN
    apply ih (i + 1) _ hAA.1 hN.2
    intro u hu
    have hne : u ≠ u0 := fun he => hN.1 (he ▸ hu)
    refine ⟨hAA.2.2 u hne (h u (List.mem_cons_of_mem _ hu)).1, ?_⟩
    exact isSome_of_fst_eq _ _ hAA.2.1 u (h u (List.mem_cons_of_mem _ hu)).2

theorem addCircs_inv (ids : List Nat) :
    ∀ (σ : HState), InvHS σ → InvHS (addCircs σ ids) := by
  induction ids with
  | nil => intro σ hI; exact hI
  | cons i rest ih =>
    intro σ hI
    show InvHS (addCircs { σ with circuits := σ.circuits
      ++ [(freshCircId σ.circuits i, SCirc.fresh)] } rest)
    apply ih
    have hfresh := freshCircId_fresh σ.circuits i
    refine ⟨?_, hI.2.1, ?_, ?_⟩
    · show ((σ.circuits ++ [(freshCircId σ.circuits i, SCirc.fresh)]).map
        Prod.fst).Nodup
      rw [List.map_append, List.nodup_append]
      refine ⟨hI.1, List.nodup_singleton _, ?_⟩
      intro a ha hb
      simp only [List.map_cons, List.map_nil, List.mem_singleton] at hb
      rw [hb] at ha
      exact (alookup_none_iff_not_mem _ _).1 hfresh ha
    · intro u
      show countIn (σ.circuits ++ [(freshCircId σ.circuits i, SCirc.fresh)]) u ≤ 1
      rw [countIn_append]
      have h1 := hI.2.2.1 u
      have h2 : countIn [(freshCircId σ.circuits i, SCirc.fresh)] u = 0 := by
        simp [countIn, contrib, SCirc.fresh]
      omega
    · intro k c hk hr u hmem
      show ∃ s, alookup σ.streams u = some s ∧ s.pending_circ = some k
      have hk2 : alookup (σ.circuits
          ++ [(freshCircId σ.circuits i, SCirc.fresh)]) k = some c := hk
      by_cases hkn : k = freshCircId σ.circuits i
      · rw [hkn] at hk2
        rw [alookup_append_of_none _ _ _ hfresh] at hk2
        rw [show alookup [(freshCircId σ.circuits i, SCirc.fresh)]
            (freshCircId σ.circuits i) = some SCirc.fresh from by
          simp [alookup]] at hk2
        injection hk2 with he
        rw [← he] at hmem
        exact absurd hmem (List.not_mem_nil u)
      · cases hc : alookup σ.circuits k with
        | none =>
          rw [alookup_append_of_none _ _ _ hc] at hk2
          have hnk : ¬ freshCircId σ.circuits i = k := fun h => hkn h.symm
          rw [show alookup [(freshCircId σ.circuits i, SCirc.fresh)] k = none from by
            simp [alookup, hnk]] at hk2
          cases hk2
        | some c1 =>
          rw [alookup_append_of_some _ _ _ _ hc] at hk2
          injection hk2 with he
          rw [← he] at hr hmem
          exact hI.2.2.2 k c1 hc hr u hmem

theorem poolFill_inv (σ : HState) (ids : List Nat) (hI : InvHS σ) :
    InvHS (poolFill σ ids) :=
  addCircs_inv _ _ hI

theorem succeeded_core_inv (σ : HState) (hI : InvHS σ) (sid pc : Nat)
    (cx : Option Nat) (s : SStream)
    (hlk : alookup σ.streams sid = some s) (hpc : s.pending_circ = some pc) :
    InvHS (((σ.updS sid (fun s2 => { s2 with circ := cx })).updC pc
      (fun c => { c with pending := c.pending.erase sid })).updS sid
      (fun s2 => { s2 with pending_circ := none })) := by
  have hI1 : InvHS (σ.updS sid (fun s2 => { s2 with circ := cx })) :=
    inv_updS_irrel σ sid _ (fun _ => rfl) hI
  have hlk1 : alookup (σ.updS sid (fun s2 => { s2 with circ := cx })).streams sid
      = some { s with circ := cx } := by
    show alookup (aupdate _ σ.streams sid) sid = _
    rw [alookup_aupdate_self, hlk]
    rfl
  obtain ⟨hI3, hz3⟩ := inv_remove_erase _ sid { s with circ := cx } pc hI1 hlk1 hpc
  exact inv_updS_nopending _ sid _ hz3 hI3

theorem detached_tail_inv (σ2 : HState) (hI2 : InvHS σ2) (sid : Nat) (o : AttachO)
    (σ' : HState)
    (h : (match alookup σ2.streams sid with
          | none => none
          | some s =>
            match s.pending_circ with
            | none => none
            | some pc =>
              some (attachAny ((σ2.updC pc
                  (fun c => { c with pending := c.pending.erase sid })).updS sid
                (fun s2 => { s2 with pending_circ := none })) sid s.detached_from o))
        = some σ') :
    InvHS σ' := by
  cases hlk : alookup σ2.streams sid with
  | none =>
    rw [hlk] at h
    exact Option.noConfusion h
  | some s =>
    rw [hlk] at h
    dsimp only at h
    cases hpc : s.pending_circ with
    | none =>
      rw [hpc] at h
      exact Option.noConfusion h
    | some pc =>
      rw [hpc] at h
      dsimp only at h
      injection h with h'
      rw [← h']
      obtain ⟨hI3, hz3⟩ := inv_remove_erase σ2 sid s pc hI2 hlk hpc
      have hI4 := inv_updS_nopending _ sid
        (fun s2 => { s2 with pending_circ := none }) hz3 hI3
      have hs4 : (alookup ((σ2.updC pc
          (fun c => { c with pending := c.pending.erase sid })).updS sid
          (fun s2 => { s2 with pending_circ := none })).streams sid).isSome := by
      -- the erase update leaves the stream table unchanged, so the lookup
      -- still succeeds after clearing pending_circ
        show (alookup (aupdate (fun s2 => { s2 with pending_circ := none })
          σ2.streams sid) sid).isSome
        rw [alookup_aupdate_self, hlk]
        rfl
      exact (attachAny_inv _ sid s.detached_from o hI4 hs4 hz3).1

theorem hstep_inv (σ σ' : HState) (e : HEv) (hI : InvHS σ) (hwf : EvWF σ e)
    (h : hstep σ e = some σ') : InvHS σ' := by
  cases e with
  | evNew sid o =>
    have hwf' : alookup σ.streams sid = none := hwf
    simp only [hstep] at h
    injection h with h'
    rw [← h']
    have hIA : InvHS { σ with streams := σ.streams ++ [(sid, SStream.fresh)] } :=
      inv_append_stream σ sid SStream.fresh hwf' hI
    have hsA : (alookup ({ σ with streams :=
        σ.streams ++ [(sid, SStream.fresh)] }).streams sid).isSome := by
      show (alookup (σ.streams ++ [(sid, SStream.fresh)]) sid).isSome
      rw [alookup_append_of_none _ _ _ hwf']
      simp [alookup]
    have hzA : countIn σ.circuits sid = 0 :=
      countIn_zero_of_stream_none σ hI sid hwf'
    exact (attachAny_inv _ sid [] o hIA hsA hzA).1
  | evDetached sid circid o =>
    simp only [hstep] at h
    have hI1 : InvHS (if (alookup σ.streams sid).isSome then σ
        else { σ with streams := σ.streams ++ [(sid, SStream.fresh)] }) := by
      by_cases hS : (alookup σ.streams sid).isSome
      · rw [if_pos hS]
        exact hI
      · rw [if_neg hS]
        exact inv_append_stream σ sid SStream.fresh
          (Option.not_isSome_iff_eq_none.1 hS) hI
    cases circid with
    | none =>
      exact detached_tail_inv _ hI1 sid o σ' h
    | some cid =>
      exact detached_tail_inv _
        (inv_updS_irrel _ sid
          (fun s => { s with detached_from := s.detached_from ++ [cid] })
          (fun _ => rfl) hI1) sid o σ' h
  | evSucceeded sid circid =>
    simp only [hstep] at h
    cases hlk : alookup σ.streams sid with
    | none =>
      rw [hlk] at h
      injection h with h'
      rw [← h']
      exact hI
    | some s =>
      rw [hlk] at h
      dsimp only at h
      cases hpc : s.pending_circ with
      | none =>
        rw [hpc] at h
        exact Option.noConfusion h
      | some pc =>
        rw [hpc] at h
        dsimp only at h
        cases circid with
        | none =>
          dsimp only at h
          by_cases hm : sid ∈ pendingObj
              (σ.updS sid (fun s2 => { s2 with circ := some pc })) pc
          · rw [if_pos hm] at h
            injection h with h'
            rw [← h']
            exact succeeded_core_inv σ hI sid pc (some pc) s hlk hpc
          · rw [if_neg hm] at h
            exact Option.noConfusion h
        | some c =>
          dsimp only at h
          by_cases hcp : c ≠ pc
          · rw [if_pos hcp] at h
            cases hcc : alookup σ.circuits c with
            | none =>
              rw [hcc] at h
              exact Option.noConfusion h
            | some cc =>
              rw [hcc] at h
              dsimp only at h
              cases hrm : cc.removed with
              | true =>
                rw [hrm] at h
                rw [if_pos rfl] at h
                exact Option.noConfusion h
              | false =>
                rw [hrm] at h
                simp only [Bool.false_eq_true, if_false] at h
                by_cases hm : sid ∈ pendingObj
                    (σ.updS sid (fun s2 => { s2 with circ := some c })) pc
                · rw [if_pos hm] at h
                  injection h with h'
                  rw [← h']
                  exact succeeded_core_inv σ hI sid pc (some c) s hlk hpc
                · rw [if_neg hm] at h
                  exact Option.noConfusion h
          · rw [if_neg hcp] at h
            dsimp only at h
            by_cases hm : sid ∈ pendingObj
                (σ.updS sid (fun s2 => { s2 with circ := some pc })) pc
            · rw [if_pos hm] at h
              injection h with h'
              rw [← h']
              exact succeeded_core_inv σ hI sid pc (some pc) s hlk hpc
            · rw [if_neg hm] at h
              exact Option.noConfusion h
  | evStreamFailed sid circid =>
    simp only [hstep] at h
    cases hlk : alookup σ.streams sid with
    | none =>
      rw [hlk] at h
      injection h with h'
      rw [← h']
      exact hI
    | some s =>
      rw [hlk] at h
      dsimp only at h
      have hI1 : InvHS (σ.updS sid (fun s2 => { s2 with failed := true })) :=
        inv_updS_irrel σ sid _ (fun _ => rfl) hI
      cases circid with
      | none =>
        dsimp only at h
        injection h with h'
        rw [← h']
        exact hI1
      | some c =>
        dsimp only at h
        cases hcc : alookup (σ.updS sid
            (fun s2 => { s2 with failed := true })).circuits c with
        | none =>
          rw [hcc] at h
          injection h with h'
          rw [← h']
          exact hI1
        | some cc =>
          rw [hcc] at h
          dsimp only at h
          cases hrm : cc.removed with
          | true =>
            rw [hrm] at h
            rw [if_pos rfl] at h
            injection h with h'
            rw [← h']
            exact hI1
          | false =>
            rw [hrm] at h
            simp only [Bool.false_eq_true, if_false] at h
            injection h with h'
            rw [← h']
            exact inv_updC_irrel _ c _ (fun c2 => ⟨rfl, rfl⟩) hI1
  | evStreamClosed sid =>
    simp only [hstep] at h
    cases hlk : alookup σ.streams sid with
    | none =>
      rw [hlk] at h
      injection h with h'
      rw [← h']
      exact hI
    | some s =>
      rw [hlk] at h
      dsimp only at h
      cases hpc : s.pending_circ with
      | none =>
        rw [hpc] at h
        dsimp only at h
        injection h with h'
        rw [← h']
        exact inv_aerase_stream σ sid
          (countIn_zero_of_pc_none σ hI sid s hlk hpc) hI
      | some pc =>
        rw [hpc] at h
        dsimp only at h
        by_cases hm : sid ∈ pendingObj σ pc
        · rw [if_pos hm] at h
          injection h with h'
          rw [← h']
          obtain ⟨hI3, hz3⟩ := inv_remove_erase σ sid s pc hI hlk hpc
          exact inv_aerase_stream _ sid hz3 hI3
        · rw [if_neg hm] at h
          exact Option.noConfusion h
  | evCircFailed cid os poolIds =>
    simp only [hstep] at h
    cases hcc : alookup σ.circuits cid with
    | none =>
      rw [hcc] at h
      injection h with h'
      rw [← h']
      exact hI
    | some cc =>
      rw [hcc] at h
      dsimp only at h
      cases hrm : cc.removed with
      | true =>
        rw [hrm] at h
        rw [if_pos rfl] at h
        injection h with h'
        rw [← h']
        exact hI
      | false =>
        rw [hrm] at h
        simp only [Bool.false_eq_true, if_false] at h
        injection h with h'
        rw [← h']
        have hI1 : InvHS (σ.updC cid (fun c => { c with removed := true })) := by
          refine ⟨?_, hI.2.1, ?_, ?_⟩
          · show ((aupdate _ σ.circuits cid).map Prod.fst).Nodup
            rw [aupdate_map_fst]
            exact hI.1
          · intro u
            show countIn (aupdate _ σ.circuits cid) u ≤ 1
            have := countIn_aupdate_le_add σ.circuits cid u 0
              (fun c => { c with removed := true }) (fun c2 => by
                unfold contrib
                simp)
            have h2 := hI.2.2.1 u
            omega
          · intro k' c' hk' hr' u hmem
            show ∃ s, alookup σ.streams u = some s ∧ s.pending_circ = some k'
            have hk'2 : alookup (aupdate (fun c => { c with removed := true })
                σ.circuits cid) k' = some c' := hk'
            by_cases hkk : k' = cid
            · rw [hkk, alookup_aupdate_self, hcc] at hk'2
              injection hk'2 with he
              rw [← he] at hr'
              simp at hr'
            · rw [alookup_aupdate_ne _ _ _ _ hkk] at hk'2
              exact hI.2.2.2 k' c' hk'2 hr' u hmem
        have hall : ∀ u ∈ cc.pending,
            countIn (σ.updC cid (fun c => { c with removed := true })).circuits u = 0
            ∧ (alookup (σ.updC cid
                (fun c => { c with removed := true })).streams u).isSome := by
          intro u hu
          constructor
          · show countIn (aupdate _ σ.circuits cid) u = 0
            rw [countIn_eq_zero_iff]
            intro kc hm htrk hmem2
            rcases mem_aupdate_nodup _ _ _ hI.1 kc hm with ⟨hne, hm0⟩ | ⟨c0, hl0, he0⟩
            · obtain ⟨s1, hs1, hp1⟩ := hI.2.2.2 kc.1 kc.2
                (alookup_of_mem_nodup _ _ _ hI.1 (by cases kc; exact hm0)) htrk u hmem2
              obtain ⟨s2, hs2, hp2⟩ := hI.2.2.2 cid cc hcc hrm u hu
              rw [hs1] at hs2
              injection hs2 with hse
              rw [← hse] at hp2
              rw [hp1] at hp2
              exact hne (Option.some.inj hp2)
            · rw [he0] at htrk
              simp at htrk
          · obtain ⟨s1, hs1, _⟩ := hI.2.2.2 cid cc hcc hrm u hu
            show (alookup σ.streams u).isSome
            rw [hs1]
            rfl
        have hNod : cc.pending.Nodup := by
          rw [List.nodup_iff_count_le_one]
          intro u
          have h1 := count_pending_le_countIn σ.circuits cid u cc
            (mem_of_alookup _ _ _ hcc) hrm
          have h2 := hI.2.2.1 u
          omega
        exact poolFill_inv _ poolIds
          (reattachLoop_inv os cc.pending 0 _ hI1 hNod hall)
  | evCircBuilt cid =>
    simp only [hstep] at h
    cases hcc : alookup σ.circuits cid with
    | none =>
      rw [hcc] at h
      injection h with h'
      rw [← h']
      exact hI
    | some cc =>
      rw [hcc] at h
      dsimp only at h
      cases hrm : cc.removed with
      | true =>
        rw [hrm] at h
        rw [if_pos rfl] at h
        injection h with h'
        rw [← h']
        exact hI
      | false =>
        rw [hrm] at h
        simp only [Bool.false_eq_true, if_false] at h
        injection h with h'
        rw [← h']
        exact inv_updC_irrel _ cid _ (fun c2 => ⟨rfl, rfl⟩) hI
  | evNewNym =>
    simp only [hstep] at h
    injection h with h'
    rw [← h']
    exact hI
  | evPoolCheck poolIds =>
    simp only [hstep] at h
    injection h with h'
    rw [← h']
    exact poolFill_inv σ poolIds hI

theorem reach_inv (σ : HState) (h : ReachHS σ) : InvHS σ := by
  induction h with
  | init n =>
    refine ⟨List.nodup_nil, List.nodup_nil, ?_, ?_⟩
    · intro sid
      simp [countIn]
    · intro k c hk
      cases hk
  | step σ0 σ1 e _ hwf hst ih =>
    exact hstep_inv σ0 σ1 e ih hwf hst

/-- C8: in every handler state reachable by processing stream and circuit
events (NEW/NEWRESOLVE, DETACHED, SUCCEEDED, stream FAILED/CLOSED, circuit
FAILED/CLOSED and BUILT, new-nym flush, pool check, with the induced
`attach_stream_any` attachments), each stream appears in at most one tracked
circuit's `pending_streams` list (at most once in total across all of them),
and a stream whose `pending_circ` is circuit `k` has already been removed
from the pending list of every other tracked circuit: it occurs in no
tracked circuit other than `k`. -/
theorem claim_C8_pending_streams_unique (σ : HState) (h : ReachHS σ) :
    (∀ sid, pendingCountHS σ sid ≤ 1)
    ∧ (∀ sid s k, alookup σ.streams sid = some s → s.pending_circ = some k →
        ∀ k' c, alookup σ.circuits k' = some c → c.removed = false → k' ≠ k →
          sid ∉ c.pending) := by
  have hI := reach_inv σ h
  exact ⟨fun sid => hI.2.2.1 sid,
    fun sid s k hs hpc => inv_derived_unique σ hI sid s k hs hpc⟩

/-- A concrete one-event trace: stream 5 appears, no pooled circuit is
usable, so `create_and_attach` builds circuit 7 and makes 5 pending on it. -/
def c8Ev : HEv := .evNew 5 ⟨fun _ => false, true, 7⟩

/-- The state after `c8Ev` from the empty initial state. -/
def c8State : HState :=
  ⟨[(7, ⟨false, false, false, false, [5]⟩)], [(5, ⟨some 7, none, [], false⟩)],
    false, 0⟩

theorem claim_C8_witness : pendingCountHS c8State 5 ≤ 1 :=
  (claim_C8_pending_streams_unique c8State
    (ReachHS.step ⟨[], [], false, 0⟩ c8State c8Ev (ReachHS.init 0) rfl rfl)).1 5
